import Mathlib

/-!
# The task/input resolution engine of `variant` (`engine/application.go`)

A shallow embedding of `Application.GetValueForConfigKey`,
`Application.DirectInputValuesForTaskKey`,
`Application.InheritedInputValuesForTaskKey` and `Application.RunTaskForKey`.

Conventions of the embedding.

* Go strings are Lean `String`s (valid UTF-8 text).  A byte offset into a Go string is
  the sum of the UTF-8 sizes of the characters before it; `[]rune(s)` is `s.data`.
* The configuration source (`viper`), the task registry, the task namer, the provided
  inputs and the step-execution collaborator are collaborators of the engine: they are
  fields of `Application` / arguments, and every theorem quantifies over them.
* A call either returns (with the state it leaves behind), panics, or runs out of fuel:
  see `Res`.  The state carries `CachedTaskOutputs` and a trace of the tasks that were
  started and of the tasks whose steps were run.
-/

namespace Variant

/-! ## Strings (`strings`, `fmt`) -/

/-- Number of bytes of the UTF-8 encoding of a list of characters (Go `len(s)`). -/
def utf8Len : List Char → Nat
  | [] => 0
  | c :: cs => c.utf8Size + utf8Len cs

/-- Scan of `strings.LastIndex`: `off` is the byte offset of the remaining text, `acc`
the byte offset of the last match seen so far. -/
def lastIndexAux (sub : List Char) : List Char → Nat → Int → Int
  | [], off, acc => if sub.isPrefixOf [] then (off : Int) else acc
  | c :: cs, off, acc =>
      lastIndexAux sub cs (off + c.utf8Size) (if sub.isPrefixOf (c :: cs) then (off : Int) else acc)

/-- Go `strings.LastIndex(s, substr)`: the byte offset of the last occurrence of `substr`
in `s`, or `-1`; for the empty `substr` it is `len(s)`. -/
def LastIndex (s substr : String) : Int :=
  lastIndexAux substr.data s.data 0 (-1)

/-- Go `strings.Split(s, ".")` on the characters of `s`. -/
def splitDots : List Char → List (List Char)
  | [] => [[]]
  | c :: cs =>
      if c = '.' then [] :: splitDots cs
      else match splitDots cs with
        | [] => [[c]]
        | h :: t => (c :: h) :: t

/-- Go `strings.Split(s, ".")`. -/
def Split (s : String) : List String :=
  (splitDots s.data).map String.mk

/-- Go `fmt.Sprintf("%s.%s", a, b)`. -/
def sprintfDot (a b : String) : String :=
  a ++ "." ++ b

/-! ## The configuration source -/

/-- What `viper.Get` hands back for a key that is present: a string, or a value of
another dynamic type (named by its Go type). -/
inductive Raw where
  | str (s : String)
  | other (goType : String)
  deriving DecidableEq, Repr

/-- The scoped view returned by `viper.Sub`. -/
structure SubConfig where
  Get : String → Option Raw
  GetString : String → String

/-- The configuration source, by the three operations the engine calls on it
(`viper.GetString`, `viper.Get`, `viper.Sub`). -/
structure ConfigSource where
  GetString : String → String
  Get : String → Option Raw
  Sub : String → Option SubConfig

/-- Outcome of `GetValueForConfigKey`: a `*string` (`none` is the nil pointer), or a
panic. -/
inductive Fetched where
  | value (v : Option String)
  | fatal
  deriving DecidableEq, Repr

/-- Embedding of `Application.GetValueForConfigKey` (application.go 157-209).

`lastIndex` is a byte offset, `a` the rune slice of `k`.  `a[:lastIndex]` followed by
`a[lastIndex+1:]` panics whenever `lastIndex+1 > len(a)`: if the first slice expression
is within the capacity of `a`, the second one has its low bound above `len(a)`. -/
def GetValueForConfigKey (cfg : ConfigSource) (k : String) : Fetched :=
  let lastIndex := LastIndex k "."
  let valueFromFlag := cfg.GetString ("flags." ++ k)
  if valueFromFlag ≠ "" then .value (some valueFromFlag)
  else if lastIndex ≠ -1 then
    let a := k.data
    if lastIndex + 1 > (a.length : Int) then .fatal
    else
      let k1 := String.mk (a.take lastIndex.toNat)
      let k2 := String.mk (a.drop (lastIndex.toNat + 1))
      match cfg.Get k1 with
      | some _ =>
          match cfg.Sub k1 with
          | some values =>
              match values.Get k2 with
              | some _ => .value (some (values.GetString k2))
              | none => .value none
          | none => .value none
      | none => .value none
  else
    match cfg.Get k with
    | some (.str s) => .value (some s)
    | none => .value none
    | some (.other _) => .fatal

/-- A configuration source that holds nothing. -/
def emptyConfig : ConfigSource :=
  { GetString := fun _ => "", Get := fun _ => none, Sub := fun _ => none }

/-! ## Keys, inputs, tasks, errors -/

/-- Modelled from the spec: `step.Key`, the hierarchical task key, by the two operations
the engine calls on it.  A key has a rendering (`ShortString()`) and, unless it is a root
key, a parent key (`Parent()`). -/
inductive Key where
  | root (short : String)
  | child (short : String) (parent : Key)
  deriving DecidableEq, Repr

/-- Modelled from the spec: `Key.ShortString()`, the rendering of the key that is used as
a configuration lookup path. -/
def Key.ShortString : Key → String
  | .root s => s
  | .child s _ => s

/-- Modelled from the spec: `Key.Parent()`; it fails (`none`) when the key has no
parent. -/
def Key.Parent : Key → Option Key
  | .root _ => none
  | .child _ p => some p

/-- An error value of `github.com/juju/errors`: a message, or an annotation wrapped
around a cause (`errors.Annotatef`).  `errors.Trace` leaves the chain unchanged. -/
inductive Err where
  | mk (msg : String)
  | annotate (msg : String) (cause : Err)
  deriving DecidableEq, Repr

/-- Modelled from the spec: `Input`, a declared dependency of a task, with its dotted
`Name` and optional `ArgumentIndex` (a Go `*int`). -/
structure Input where
  Name : String
  ArgumentIndex : Option Int
  deriving DecidableEq, Repr

/-- Modelled from the spec: `Input.ShortName()`, the last segment of `Name`. -/
def Input.ShortName (i : Input) : String :=
  (Split i.Name).getLast?.getD ""

/-- Modelled from the spec: the registered `Task`, by what the engine reads from it: the
key it answers `GetKey()` with when it is passed as a caller, and its declared inputs. -/
structure Task where
  GetKey : Key
  ResolvedInputs : List Input
  deriving DecidableEq, Repr

/-- Modelled from the spec: `task.ProvidedInputs`; `Get(name)` fails (`none`) when no
value was provided under `name`. -/
abbrev ProvidedInputs := String → Option String

/-- Modelled from the spec: `task.NewProvidedInputs()`, the fresh empty override set. -/
def NewProvidedInputs : ProvidedInputs := fun _ => none

/-! ## The dynamic value tree (`map[string]interface{}`) and `maputil` -/

/-- The values of a variable environment or of `CachedTaskOutputs` (Go `interface{}`):
nil, a string, a list of strings, or a nested `map[string]interface{}`.  A Go map is
given by what `m[k]` yields at every key, `nil` where nothing is stored. -/
inductive Value where
  | nil
  | str (s : String)
  | strs (l : List String)
  | map (m : String → Value)

/-- A value that is neither nil nor a mapping: a resolved string, or a list of
strings. -/
def Value.isScalar : Value → Bool
  | .str _ => true
  | .strs _ => true
  | _ => false

/-- A Go `map[string]interface{}`. -/
abbrev Fields := String → Value

/-- The empty map `map[string]interface{}{}`. -/
def emptyFields : Fields := fun _ => .nil

/-- Go `m[k] = v`. -/
def setKey (m : Fields) (k : String) (v : Value) : Fields :=
  fun k' => if k' = k then v else m k'

/-- Modelled from the spec: `maputil.GetValueAtPath`, the value stored at a dotted path
of a nested mapping.  It returns `(value, error)` as at its call site; the value is nil
when nothing is stored at the path, and the error is non-nil when the path runs through
a value that is not a mapping. -/
def GetValueAtPath (m : Fields) : List String → Value × Option Err
  | [] => (.nil, none)
  | [k] => (m k, none)
  | k :: k2 :: rest =>
      match m k with
      | .nil => (.nil, none)
      | .map m' => GetValueAtPath m' (k2 :: rest)
      | _ => (.nil, some (.mk (k ++ " is not a map")))

/-- The mapping below a value: the value itself when it is a mapping, the empty mapping
otherwise. -/
def Value.fields : Value → Fields
  | .map m => m
  | _ => emptyFields

/-- Modelled from the spec: `maputil.SetValueAtPath`, which writes a value into a nested
mapping at a dotted path; the mappings on the way are created where they are missing. -/
def SetValueAtPath (m : Fields) : List String → Value → Fields
  | [], _ => m
  | [k], v => setKey m k v
  | k :: k2 :: rest, v => setKey m k (.map (SetValueAtPath (m k).fields (k2 :: rest) v))

/-- Merge of an inherited value `s` under the value `d` already present at the same key:
an absent `d` takes `s`, two mappings are merged key by key, otherwise `d` stays. -/
def mergeUnder : Value → Value → Value
  | .nil, s => s
  | .map d, .map s => .map (fun k => mergeUnder (d k) (s k))
  | d, _ => d

/-- Modelled from the spec: `maputil.DeepMerge(dst, src)`, which merges `src` under
`dst`: the values of `dst` win on path conflicts and the merge recurses into nested
mappings rather than overwriting whole subtrees. -/
def DeepMerge (dst src : Fields) : Fields :=
  fun k => mergeUnder (dst k) (src k)

/-! ## The application, its state and the outcome of a call -/

/-- What the trace records: `RunTaskForKey` was entered for a key, or the steps of the
task at a key were run (`BoundTask.Run`). -/
inductive Event where
  | started (k : Key)
  | ran (k : Key)
  deriving DecidableEq, Repr

/-- The mutable state of one run: `CachedTaskOutputs` and the trace. -/
structure State where
  CachedTaskOutputs : Fields
  trace : List Event

/-- Appends an event to the trace. -/
def State.log (st : State) (e : Event) : State :=
  { st with trace := st.trace ++ [e] }

/-- Outcome of a call: it returns `a` leaving the state `st`, it panics, or it does not
return within the fuel given. -/
inductive Res (α : Type) where
  | ret (a : α) (st : State)
  | panic
  | diverge

/-- The `Application` (application.go 20-32), by the fields the resolution engine reads,
with its collaborators: the configuration source, `TaskRegistry.FindTask`,
`TaskNamer.FromResolvedInput` and the step execution `BoundTask.Run`, which receives the
task, the bound variables and the callers and may itself change the state. -/
structure Application where
  Name : String
  CommandRelativePath : String
  Env : String
  config : ConfigSource
  FindTask : Key → Except Err Task
  FromResolvedInput : Input → Key
  Run : Task → Fields → List Key → State → Res (String × Option Err)

/-- The recursive call that resolves an input by running the task named after it:
`p.RunTaskForKey(key, []string{}, task.NewProvidedInputs(), caller)`. -/
abbrev Fallback := Key → List Key → State → Res (String × Option Err)

/-- Go `int` addition `i + 1` on a 64-bit platform. -/
def succInt64 (i : Int) : Int :=
  (i + 1 + 9223372036854775808) % 18446744073709551616 - 9223372036854775808

/-- The positional argument of an input (application.go 238-242):
`if i := input.ArgumentIndex; i != nil && len(args) >= *i+1 { positional = &args[*i] }`.
Indexing `args` out of range panics. -/
def positionalOf (args : List String) : Option Int → Fetched
  | none => .value none
  | some i =>
      if (args.length : Int) ≥ succInt64 i then
        if 0 ≤ i then
          match args[i.toNat]? with
          | some a => .value (some a)
          | none => .fatal
        else .fatal
      else .value none

/-- The key of the first caller, or `""` (application.go 222-227). -/
def baseTaskKeyOf : List Key → String
  | [] => ""
  | c :: _ => c.ShortString

/-- The value of an input from the provided inputs and the configuration source
(application.go 244-260): `nullableValue`. -/
def nullableValueOf (p : Application) (taskKey : Key) (provided : ProvidedInputs)
    (caller : List Key) (input : Input) : Fetched :=
  let baseTaskKey := baseTaskKeyOf caller
  let v0 := provided input.Name
  let r1 :=
    if v0 = none ∧ baseTaskKey ≠ "" then
      GetValueForConfigKey p.config (sprintfDot baseTaskKey input.ShortName)
    else .value v0
  match r1 with
  | .fatal => .fatal
  | .value v1 =>
      let r2 :=
        if v1 = none ∧ LastIndex input.ShortName taskKey.ShortString = -1 then
          GetValueForConfigKey p.config (sprintfDot taskKey.ShortString input.ShortName)
        else .value v1
      match r2 with
      | .fatal => .fatal
      | .value v2 =>
          if v2 = none then GetValueForConfigKey p.config input.ShortName
          else .value v2

/-- The annotation of a failed fallback (application.go 272). -/
def missingValueMsg (shortName : String) : String :=
  "Missing value for input `" ++ shortName ++
    "`. Please provide a command line option or a positional argument or a task for it`"

/-- One iteration of the loop of `DirectInputValuesForTaskKey` (application.go 235-284):
resolves `input` and writes its value into `values`. -/
def resolveInput (p : Application) (run : Fallback) (taskDef : Task) (taskKey : Key)
    (args : List String) (provided : ProvidedInputs) (caller : List Key) (input : Input)
    (values : Fields) (st : State) : Res (Except Err Fields) :=
  match positionalOf args input.ArgumentIndex with
  | .fatal => .panic
  | .value positional =>
      match nullableValueOf p taskKey provided caller input with
      | .fatal => .panic
      | .value nullableValue =>
          let pathComponents := Split input.Name
          match positional with
          | some pos => .ret (.ok (SetValueAtPath values pathComponents (.str pos))) st
          | none =>
              match nullableValue with
              | some v => .ret (.ok (SetValueAtPath values pathComponents (.str v))) st
              | none =>
                  match GetValueAtPath st.CachedTaskOutputs pathComponents with
                  | (.nil, _) =>
                      match run (p.FromResolvedInput input) [taskDef.GetKey] st with
                      | .panic => .panic
                      | .diverge => .diverge
                      | .ret (_, some err) st1 =>
                          .ret (.error (.annotate (missingValueMsg input.ShortName) err)) st1
                      | .ret (output, none) st1 =>
                          .ret (.ok (SetValueAtPath values pathComponents (.str output)))
                            { st1 with
                              CachedTaskOutputs :=
                                SetValueAtPath st1.CachedTaskOutputs pathComponents (.str output) }
                  | (output, none) =>
                      .ret (.ok (SetValueAtPath values pathComponents output)) st
                  | (_, some err) => .ret (.error err) st

/-- The loop `for _, input := range taskDef.ResolvedInputs` of
`DirectInputValuesForTaskKey`, from the values collected so far. -/
def resolveInputs (p : Application) (run : Fallback) (taskDef : Task) (taskKey : Key)
    (args : List String) (provided : ProvidedInputs) (caller : List Key) :
    List Input → Fields → State → Res (Except Err Fields)
  | [], values, st => .ret (.ok values) st
  | input :: rest, values, st =>
      match resolveInput p run taskDef taskKey args provided caller input values st with
      | .ret (.ok values1) st1 =>
          resolveInputs p run taskDef taskKey args provided caller rest values1 st1
      | .ret (.error err) st1 => .ret (.error err) st1
      | .panic => .panic
      | .diverge => .diverge

/-- Embedding of `Application.DirectInputValuesForTaskKey` (application.go 211-289). -/
def DirectInputValuesForTaskKey (p : Application) (run : Fallback) (taskKey : Key)
    (args : List String) (provided : ProvidedInputs) (caller : List Key) (st : State) :
    Res (Except Err Fields) :=
  match p.FindTask taskKey with
  | .error err => .ret (.error err) st
  | .ok taskDef =>
      resolveInputs p run taskDef taskKey args provided caller taskDef.ResolvedInputs emptyFields st

/-- Embedding of `Application.InheritedInputValuesForTaskKey` (application.go 126-153).  The recursion
follows `taskKey.Parent()`, which succeeds exactly for a `child` key. -/
def InheritedInputValuesForTaskKey (p : Application) (run : Fallback) :
    Key → List String → ProvidedInputs → List Key → State → Res (Except Err Fields)
  | taskKey, args, provided, caller, st =>
      match DirectInputValuesForTaskKey p run taskKey args provided caller st with
      | .panic => .panic
      | .diverge => .diverge
      | .ret (.error err) st1 =>
          .ret (.error (.annotate
            ("One or more inputs for task " ++ taskKey.ShortString ++ " failed") err)) st1
      | .ret (.ok direct) st1 =>
          match taskKey with
          | .root _ => .ret (.ok direct) st1
          | .child _ parentKey =>
              match InheritedInputValuesForTaskKey p run parentKey [] provided caller st1 with
              | .panic => .panic
              | .diverge => .diverge
              | .ret (.error err) st2 =>
                  .ret (.error (.annotate
                    ("AggregateInputsForParent(" ++ taskKey.ShortString ++ ") failed") err)) st2
              | .ret (.ok inherited) st2 => .ret (.ok (DeepMerge direct inherited)) st2

/-- The variable environment of a task (application.go 89-102): `args`, `env`, `cmd`,
then every resolved input written over them (`for k, v := range inputs`). -/
def bindVars (p : Application) (args : List String) (inputs : Fields) : Fields :=
  fun k =>
    match inputs k with
    | .nil =>
        setKey (setKey (setKey emptyFields "args" (.strs args)) "env" (.str p.Env))
          "cmd" (.str p.CommandRelativePath) k
    | v => v

/-- Embedding of `Application.RunTaskForKey` (application.go 62-124).  The first argument bounds the
depth of the recursion through the fallback rule. -/
def RunTaskForKey (p : Application) :
    Nat → Key → List String → ProvidedInputs → List Key → State → Res (String × Option Err)
  | 0, _, _, _, _, _ => .diverge
  | fuel + 1, taskKey, args, providedInputs, caller, st =>
      let st0 := st.log (.started taskKey)
      match GetValueForConfigKey p.config taskKey.ShortString with
      | .fatal => .panic
      | .value (some provided) => .ret (provided, none) st0
      | .value none =>
          match p.FindTask taskKey with
          | .error err =>
              .ret ("", some (.annotate
                ("app failed finding task " ++ taskKey.ShortString) err)) st0
          | .ok taskDef =>
              match InheritedInputValuesForTaskKey p
                  (fun k c s => RunTaskForKey p fuel k [] NewProvidedInputs c s)
                  taskKey args providedInputs caller st0 with
              | .panic => .panic
              | .diverge => .diverge
              | .ret (.error err) st1 =>
                  .ret ("", some (.annotate
                    ("app failed running task " ++ taskKey.ShortString) err)) st1
              | .ret (.ok inputs) st1 =>
                  match p.Run taskDef (bindVars p args inputs) caller (st1.log (.ran taskKey)) with
                  | .panic => .panic
                  | .diverge => .diverge
                  | .ret (output, none) st2 => .ret (output, none) st2
                  | .ret (output, some err) st2 =>
                      .ret (output, some (.annotate
                        ("app failed running task " ++ taskKey.ShortString) err)) st2

/-! ## The precedence of the non-positional sources, as the specification words it -/

/-- The first present value of a list of lookups that are tried in order, stopping at the
first success; a lookup that fails fatally before a value is found is fatal. -/
def firstPresentOf : List (Unit → Fetched) → Fetched
  | [] => .value none
  | f :: rest =>
      match f () with
      | .fatal => .fatal
      | .value (some v) => .value (some v)
      | .value none => firstPresentOf rest

/-- The condition of application.go 254 under which the task-scoped configuration key is
consulted. -/
def consultsTaskScoped (taskKey : Key) (input : Input) : Bool :=
  LastIndex input.ShortName taskKey.ShortString = -1

/-- Rule b: the provided inputs at `input.Name`. -/
def providedSource (provided : ProvidedInputs) (input : Input) : List (Unit → Fetched) :=
  [fun _ => .value (provided input.Name)]

/-- Rule c: the configuration at `<caller>.<short name>`, only when a caller is present. -/
def callerScopedSource (p : Application) (caller : List Key) (input : Input) :
    List (Unit → Fetched) :=
  match caller with
  | c :: _ => [fun _ => GetValueForConfigKey p.config (sprintfDot c.ShortString input.ShortName)]
  | [] => []

/-- Rule d: the configuration at `<key>.<short name>`, when rule d is not skipped. -/
def taskScopedSource (p : Application) (taskKey : Key) (input : Input) :
    List (Unit → Fetched) :=
  if consultsTaskScoped taskKey input then
    [fun _ => GetValueForConfigKey p.config (sprintfDot taskKey.ShortString input.ShortName)]
  else []

/-- Rule e: the configuration at the bare short name. -/
def bareSource (p : Application) (input : Input) : List (Unit → Fetched) :=
  [fun _ => GetValueForConfigKey p.config input.ShortName]

/-- The non-positional sources of an input in the order of rules b to e of the
specification. -/
def nonPositionalSources (p : Application) (taskKey : Key) (provided : ProvidedInputs)
    (caller : List Key) (input : Input) : List (Unit → Fetched) :=
  providedSource provided input ++ callerScopedSource p caller input
    ++ taskScopedSource p taskKey input ++ bareSource p input

/-- Rule c as the code guards it (application.go 250): the configuration at
`<caller>.<short name>`, only when a caller is present and its key renders to a non-empty
string. -/
def callerScopedSourceNonEmpty (p : Application) (caller : List Key) (input : Input) :
    List (Unit → Fetched) :=
  match caller with
  | c :: _ =>
      if c.ShortString ≠ "" then
        [fun _ => GetValueForConfigKey p.config (sprintfDot c.ShortString input.ShortName)]
      else []
  | [] => []

/-- The non-positional sources of an input in the order of rules b to e, with rule c
limited to callers whose key renders to a non-empty string. -/
def nonPositionalSourcesNonEmpty (p : Application) (taskKey : Key) (provided : ProvidedInputs)
    (caller : List Key) (input : Input) : List (Unit → Fetched) :=
  providedSource provided input ++ callerScopedSourceNonEmpty p caller input
    ++ taskScopedSource p taskKey input ++ bareSource p input

/-- The configuration keys of rules c, d and e for an input: the caller-scoped key when a
caller is present, the task-scoped key and the bare short name. -/
def configKeysOf (taskKey : Key) (caller : List Key) (input : Input) : List String :=
  (match caller with
    | c :: _ => [sprintfDot c.ShortString input.ShortName]
    | [] => [])
  ++ [sprintfDot taskKey.ShortString input.ShortName, input.ShortName]

/-! ## Configuration ingestion (`engine/config.go`) -/

/-- A dynamic value as the document decoder hands it over (Go `interface{}`): nil, a
scalar, a list, or a `map[interface{}]interface{}` given by its entries. -/
inductive Dyn where
  | null
  | str (s : String)
  | int (n : Int)
  | bool (b : Bool)
  | list (l : List Dyn)
  | map (m : List (Dyn × Dyn))

/-- A Go `map[interface{}]interface{}`, by its entries in the order in which `range`
visits them. -/
abbrev RawMap := List (Dyn × Dyn)

/-- A Go `map[string]interface{}`, by its entries in the order in which `range` visits
them. -/
abbrev StrMap := List (String × Dyn)

/-- Go `m[k]` on a `map[string]interface{}`; nil when the key is missing. -/
def StrMap.get : StrMap → String → Dyn
  | [], _ => .null
  | (k', v) :: rest, k => if k' = k then v else StrMap.get rest k

/-- Whether a dynamic key is the string `k`. -/
def Dyn.isKey : Dyn → String → Bool
  | .str s, k => s = k
  | _, _ => false

/-- Go `m[k]` on a `map[interface{}]interface{}` for a string key; nil when the key is
missing. -/
def RawMap.get : RawMap → String → Dyn
  | [], _ => .null
  | (k', v) :: rest, k => if k'.isKey k then v else RawMap.get rest k

/-- Go `m[k] = v` on a `map[interface{}]interface{}` for a string key. -/
def RawMap.set : RawMap → String → Dyn → RawMap
  | [], k, v => [(.str k, v)]
  | (k', v') :: rest, k, v =>
      if k'.isKey k then (.str k, v) :: rest else (k', v') :: RawMap.set rest k v

/-- Modelled from the spec: `maputil.CastKeysToStrings`, the key normalisation of one
map; it fails, and does not coerce, on a key that is not a string, and it leaves the
values as they are. -/
def CastKeysToStrings : RawMap → Except Err StrMap
  | [] => .ok []
  | (.str k, v) :: rest =>
      match CastKeysToStrings rest with
      | .ok m => .ok ((k, v) :: m)
      | .error e => .error e
  | _ :: _ => .error (.mk "key is not a string")

/-- An executable step (`step.Step`), by a name, the kind of step and its body. -/
structure Step where
  Name : String
  Kind : String
  Body : String
  deriving DecidableEq, Repr

/-- The raw description of a step handed to the loaders (`step.StepConfig`). -/
abbrev StepConfig := StrMap

/-- Go `step.NewStepConfig(m)`. -/
def NewStepConfig (m : StrMap) : StepConfig := m

/-- A step loader (`step.StepLoader`), by what its `LoadStep` returns for a step
description: a step or nil, and an error or nil. -/
abbrev StepLoader := StepConfig → Option Step × Option Err

/-- Go `errors.Annotatef(other, msg)` of `github.com/juju/errors` on an error that may
be nil: the annotation of a nil error is nil. -/
def Annotatef (other : Option Err) (msg : String) : Option Err :=
  match other with
  | none => none
  | some e => some (.annotate msg e)

/-- Go `errors.Trace(other)` of `github.com/juju/errors`: nil for nil, otherwise the same
chain. -/
def Trace (other : Option Err) : Option Err := other

/-- The registry of step loaders after `init()` (config.go 187-189). -/
def initStepLoaders : List StepLoader := []

/-- Embedding of `Register` (config.go 183-185) on the list `stepLoaders`. -/
def Register (stepLoaders : List StepLoader) (stepLoader : StepLoader) : List StepLoader :=
  stepLoaders ++ [stepLoader]

/-- The loop of `LoadStep` (config.go 205-215) over the loaders still to try, with the
error of the last loader tried. -/
def loadStepLoop (config : StepConfig) : List StepLoader → Option Err → Option Step × Option Err
  | [], lastError => (none, Annotatef lastError "all loader failed to load step")
  | loader :: rest, _ =>
      match loader config with
      | (s, none) => (s, none)
      | (_, some e) => loadStepLoop config rest (some e)

/-- Embedding of `LoadStep` (config.go 199-216). -/
def LoadStep (stepLoaders : List StepLoader) (config : StepConfig) : Option Step × Option Err :=
  loadStepLoop config stepLoaders none

/-- Outcome of an ingestion function: it returns, it panics, or it does not return
within the fuel given. -/
inductive Ingest (α : Type) where
  | done (a : α)
  | panic
  | outOfFuel

/-- Whether `stepConfig["name"] == "" || stepConfig["name"] == nil` (config.go 240). -/
def nameMissing (stepConfig : RawMap) : Bool :=
  match stepConfig.get "name" with
  | .null => true
  | .str s => s = ""
  | _ => false

/-- The step description with its default name `step-<i+1>` where it has none
(config.go 238-242).  An element of `[]map[interface{}]interface{}` is a map or the nil
map (`none`): reading `name` from the nil map yields nil, and the write
`stepConfig["name"] = defaultName` into it panics. -/
def withDefaultName (i : Nat) : Option RawMap → Ingest RawMap
  | none => .panic
  | some stepConfig =>
      if nameMissing stepConfig then
        .done (stepConfig.set "name" (.str ("step-" ++ toString (i + 1))))
      else .done stepConfig

/-- The loop `for i, stepConfig := range stepConfigs` of `readStepsFromStepConfigs`
(config.go 237-257), from the index `i` and the steps read so far. -/
def readStepConfigsLoop (stepLoaders : List StepLoader) :
    Nat → List (Option RawMap) → List (Option Step) →
      Ingest (List (Option Step) × Option Err)
  | _, [], result => .done (result, none)
  | i, stepConfig :: rest, result =>
      match withDefaultName i stepConfig with
      | .panic => .panic
      | .outOfFuel => .outOfFuel
      | .done named =>
          match CastKeysToStrings named with
          | .error _ => .panic
          | .ok converted =>
              match LoadStep stepLoaders (NewStepConfig converted) with
              | (_, some err) =>
                  .done ([], some (.annotate "Error reading step[%!d(MISSING)]" err))
              | (s, none) => readStepConfigsLoop stepLoaders (i + 1) rest (result ++ [s])

/-- The description of the synthetic step of an inline script (config.go 226-229). -/
def scriptStepConfig (script : String) : StepConfig :=
  NewStepConfig [("name", .str "script"), ("script", .str script)]

/-- Embedding of `readStepsFromStepConfigs` (config.go 218-261). -/
def readStepsFromStepConfigs (stepLoaders : List StepLoader) (script : String)
    (stepConfigs : List (Option RawMap)) : Ingest (List (Option Step) × Option Err) :=
  if script ≠ "" then
    if stepConfigs.length > 0 then .done ([], some (.mk "both script and steps exist."))
    else
      match LoadStep stepLoaders (scriptStepConfig script) with
      | (_, some _) => .panic
      | (s, none) => .done ([s], none)
  else readStepConfigsLoop stepLoaders 0 stepConfigs []

/-- The task tree node `TaskConfig` (config.go 15-25). -/
structure TaskConfig where
  Name : String
  Description : String
  Inputs : List Input
  TaskConfigs : List TaskConfig
  Script : String
  Steps : List (Option Step)
  Autoenv : Bool
  Autodir : Bool
  Interactive : Bool

/-- The zero value `TaskConfig{}`. -/
def TaskConfig.zero : TaskConfig :=
  { Name := "", Description := "", Inputs := [], TaskConfigs := [], Script := "", Steps := [],
    Autoenv := false, Autodir := false, Interactive := false }

/-- The Generation-1 shape `TaskConfigV1` (config.go 27-37). -/
structure TaskConfigV1 where
  Name : String
  Description : String
  Inputs : List Input
  TaskConfigs : List TaskConfig
  Script : String
  StepConfigs : List (Option RawMap)
  Autoenv : Bool
  Autodir : Bool
  Interactive : Bool

/-- The Generation-2 shape `TaskConfigV2` (config.go 39-48); its `tasks` mapping is given
by its entries in the order in which `range` visits them. -/
structure TaskConfigV2 where
  Description : String
  Inputs : List Input
  TaskConfigs : List (String × TaskConfig)
  Script : String
  StepConfigs : List (Option RawMap)
  Autoenv : Bool
  Autodir : Bool
  Interactive : Bool

/-- The document decoder passed to `UnmarshalYAML` (`unmarshal func(interface{}) error`),
by what it does to each of the three targets the code hands it: the decoded value and
the error it returns. -/
structure Unmarshal where
  asMap : StrMap → StrMap × Option Err
  asV1 : TaskConfigV1 → TaskConfigV1 × Option Err
  asV2 : TaskConfigV2 → TaskConfigV2 × Option Err

/-- The structural decoder of a Generation-3 leaf (`mapstructure.Decode(s2i, t)`), by the
task it makes of the map and of the task prepared by the code, or its error. -/
abbrev LeafDecoder := StrMap → TaskConfig → Except Err TaskConfig

/-- Embedding of `TaskConfig.CopyTo` followed on `t.Name = name` (config.go 157-166,
171-174). -/
def copyNamed (name : String) (t2 : TaskConfig) : TaskConfig :=
  { TaskConfig.zero with
    Name := name
    Description := t2.Description
    Inputs := t2.Inputs
    TaskConfigs := t2.TaskConfigs
    Steps := t2.Steps
    Script := t2.Script
    Autoenv := t2.Autoenv
    Autodir := t2.Autodir
    Interactive := t2.Interactive }

/-- Embedding of `TransformV2FlowConfigMapToArray` (config.go 168-179). -/
def TransformV2FlowConfigMapToArray (v2 : List (String × TaskConfig)) : List TaskConfig :=
  v2.map (fun e => copyNamed e.1 e.2)

/-- The task prepared for an entry of a Generation-3 map (config.go 266-276). -/
def v3Prepared (k : String) : TaskConfig :=
  { TaskConfig.zero with Name := k, Autoenv := false, Autodir := false, Inputs := [], TaskConfigs := [] }

/-- The loop `for k, v := range v3` of `TransformV3FlowConfigMapToArray` (config.go
265-306); `recur` is the recursive call on the map of an entry without `script`. -/
def transformV3Loop (decode : LeafDecoder) (recur : StrMap → Ingest (List TaskConfig)) :
    StrMap → Ingest (List TaskConfig)
  | [] => .done []
  | (k, v) :: rest =>
      match v with
      | .map i2i =>
          match CastKeysToStrings i2i with
          | .error _ => .panic
          | .ok s2i =>
              let entry : Ingest TaskConfig :=
                match s2i.get "script" with
                | .null =>
                    match recur s2i with
                    | .done children => .done { v3Prepared k with TaskConfigs := children }
                    | .panic => .panic
                    | .outOfFuel => .outOfFuel
                | _ =>
                    match decode s2i (v3Prepared k) with
                    | .ok t => .done t
                    | .error _ => .panic
              match entry with
              | .done t =>
                  match transformV3Loop decode recur rest with
                  | .done ts => .done (t :: ts)
                  | .panic => .panic
                  | .outOfFuel => .outOfFuel
              | .panic => .panic
              | .outOfFuel => .outOfFuel
      | _ => .panic

/-- Embedding of `TransformV3FlowConfigMapToArray` (config.go 263-308).  The first
argument bounds the depth of the recursion into nested maps. -/
def TransformV3FlowConfigMapToArray (decode : LeafDecoder) :
    Nat → StrMap → Ingest (List TaskConfig)
  | 0, _ => .outOfFuel
  | fuel + 1, v3 => transformV3Loop decode (TransformV3FlowConfigMapToArray decode fuel) v3

/-- The value `v1` before decoding (config.go 58-64). -/
def v1Init : TaskConfigV1 :=
  { Name := "", Description := "", Inputs := [], TaskConfigs := [], Script := "",
    StepConfigs := [], Autoenv := false, Autodir := false, Interactive := false }

/-- The value `v2` before decoding (config.go 94-101). -/
def v2Init : TaskConfigV2 :=
  { Description := "", Inputs := [], TaskConfigs := [], Script := "", StepConfigs := [],
    Autoenv := false, Autodir := false, Interactive := false }

/-- The error after the Generation-1 decode and validity test (config.go 66-72). -/
def v1Error (v1 : TaskConfigV1 × Option Err) : Option Err :=
  if v1.1.Name = "" ∧ v1.1.TaskConfigs.length = 0 then
    some (.mk "Not v1 format: Both `name` and `tasks` are empty")
  else v1.2

/-- The error after the Generation-2 decode and validity test (config.go 103-109). -/
def v2Error (v2 : TaskConfigV2 × Option Err) : Option Err :=
  if v2.1.TaskConfigs.length = 0 ∧ v2.1.Script = "" ∧ v2.1.StepConfigs.length = 0 then
    some (.mk "Not v2 format: `tasks`, `script`, `steps` are missing.")
  else v2.2

/-- The Generation-1 branch of `UnmarshalYAML` (config.go 74-88), taken when the error
is nil: the task and the error returned. -/
def acceptV1 (stepLoaders : List StepLoader) (t : TaskConfig) (v1 : TaskConfigV1) :
    Ingest (TaskConfig × Option Err) :=
  let t1 : TaskConfig :=
    { t with
      Name := v1.Name
      Description := v1.Description
      Inputs := v1.Inputs
      TaskConfigs := v1.TaskConfigs
      Script := v1.Script
      Autoenv := v1.Autoenv
      Autodir := v1.Autodir
      Interactive := v1.Interactive }
  match readStepsFromStepConfigs stepLoaders v1.Script v1.StepConfigs with
  | .done (_, some err) => .done (t1, some (.annotate "Error while reading v1 config" err))
  | .done (steps, none) => .done ({ t1 with Steps := steps }, Trace none)
  | .panic => .panic
  | .outOfFuel => .outOfFuel

/-- The Generation-2 branch of `UnmarshalYAML` (config.go 111-124), taken when the error
is nil: the task and the error returned. -/
def acceptV2 (stepLoaders : List StepLoader) (t : TaskConfig) (v2 : TaskConfigV2) :
    Ingest (TaskConfig × Option Err) :=
  let t1 : TaskConfig :=
    { t with
      Description := v2.Description
      Inputs := v2.Inputs
      TaskConfigs := TransformV2FlowConfigMapToArray v2.TaskConfigs }
  match readStepsFromStepConfigs stepLoaders v2.Script v2.StepConfigs with
  | .done (_, some err) => .done (t1, some (.annotate "Error while reading v2 config" err))
  | .done (steps, none) =>
      .done ({ t1 with
                Steps := steps
                Script := v2.Script
                Autoenv := v2.Autoenv
                Autodir := v2.Autodir
                Interactive := v2.Interactive }, Trace none)
  | .panic => .panic
  | .outOfFuel => .outOfFuel

/-- The Generation-3 branch of `UnmarshalYAML` (config.go 128-154), taken when the error
`err` of the first two generations is not nil. -/
def tryV3 (decode : LeafDecoder) (fuel : Nat) (t : TaskConfig) (v3 : StrMap × Option Err)
    (err : Err) : Ingest (TaskConfig × Option Err) :=
  match v3.2 with
  | some v3err => .done (t, some (.annotate "Failed to unmarshal as a map." v3err))
  | none =>
      match v3.1.get "tasks" with
      | .null => .done (t, Trace (some err))
      | .map rawTasks =>
          match CastKeysToStrings rawTasks with
          | .error castErr =>
              .done (t, some (.annotate "Failed to unmarshal as a map[string]interface\x7b\x7d" castErr))
          | .ok tasks =>
              match TransformV3FlowConfigMapToArray decode fuel tasks with
              | .done children =>
                  .done ({ t with Autoenv := false, Autodir := false, Inputs := [],
                                  TaskConfigs := children }, none)
              | .panic => .panic
              | .outOfFuel => .outOfFuel
      | _ => .done (t, some (.mk "Not a map[interface\x7b\x7d]interface\x7b\x7d: v3[tasks]"))

/-- Embedding of `TaskConfig.UnmarshalYAML` (config.go 50-155): the task `t` after the
call and the error returned.  The fuel bounds the recursion of the Generation-3
transformation. -/
def UnmarshalYAML (stepLoaders : List StepLoader) (decode : LeafDecoder) (fuel : Nat)
    (t : TaskConfig) (unmarshal : Unmarshal) : Ingest (TaskConfig × Option Err) :=
  let v3 := unmarshal.asMap []
  match v1Error (unmarshal.asV1 v1Init) with
  | none => acceptV1 stepLoaders t (unmarshal.asV1 v1Init).1
  | some _ =>
      match v2Error (unmarshal.asV2 v2Init) with
      | none => acceptV2 stepLoaders t (unmarshal.asV2 v2Init).1
      | some err => tryV3 decode fuel t v3 err

/-! ## Sample collaborators -/

/-- A configuration source built from a document: string scalars at flat keys, and named
sections of string leaves. -/
def docConfig (scalars : List (String × String))
    (sections : List (String × List (String × String))) : ConfigSource :=
  { GetString := fun k => (scalars.lookup k).getD ""
    Get := fun k =>
      match scalars.lookup k with
      | some s => some (.str s)
      | none =>
          match sections.lookup k with
          | some _ => some (.other "map[string]interface {}")
          | none => none
    Sub := fun k =>
      match sections.lookup k with
      | some sec =>
          some { Get := fun l => (sec.lookup l).map Raw.str
                 GetString := fun l => (sec.lookup l).getD "" }
      | none => none }

/-- A registry holding the listed tasks under their keys. -/
def registryOf (tasks : List Task) : Key → Except Err Task :=
  fun k =>
    match tasks.find? (fun t => t.GetKey = k) with
    | some t => .ok t
    | none => .error (.mk ("No task named " ++ k.ShortString ++ " exists"))

/-- A step execution that returns the text `"ran"` and changes nothing. -/
def idleRun : Task → Fields → List Key → State → Res (String × Option Err) :=
  fun _ _ _ st => .ret ("ran", none) st

/-- An application over the given configuration source and tasks, whose namer derives
the root key rendered as the input's name. -/
def sampleApp (cfg : ConfigSource) (tasks : List Task) : Application :=
  { Name := "app"
    CommandRelativePath := ""
    Env := ""
    config := cfg
    FindTask := registryOf tasks
    FromResolvedInput := fun i => .child i.Name (.root "")
    Run := idleRun }

/-- The state at the start of a run: nothing cached, nothing traced. -/
def initState : State :=
  { CachedTaskOutputs := emptyFields, trace := [] }

/-- The task `greet` with the one input `name`, bound to the positional index 0. -/
def greetTask : Task :=
  { GetKey := .child "greet" (.root ""), ResolvedInputs := [{ Name := "name", ArgumentIndex := some 0 }] }

/-- The task `greet` with the one input `name`, not bound to a position. -/
def greetTaskNoIndex : Task :=
  { GetKey := .child "greet" (.root ""), ResolvedInputs := [{ Name := "name", ArgumentIndex := none }] }

/-- A configuration source holding a value for `name` below the caller `deploy`, below
the task `greet`, and at the bare key. -/
def threeLevelConfig : ConfigSource :=
  docConfig [("name", "B")] [("deploy", [("name", "C")]), ("greet", [("name", "T")])]

/-- The root task, without inputs. -/
def rootTask : Task :=
  { GetKey := .root "", ResolvedInputs := [] }

/-- The task `name`, without inputs: the fallback task of an input called `name`. -/
def nameTask : Task :=
  { GetKey := .child "name" (.root ""), ResolvedInputs := [] }

/-- The task `greet` with two sibling inputs of the same name `name`. -/
def greetTwice : Task :=
  { GetKey := .child "greet" (.root ""),
    ResolvedInputs := [{ Name := "name", ArgumentIndex := none }, { Name := "name", ArgumentIndex := none }] }

/-- An application with nothing configured, holding the root task, `name` and `greet`. -/
def memoApp : Application :=
  sampleApp emptyConfig [rootTask, nameTask, greetTwice]

/-- Provided inputs given by a list of names and values. -/
def providedOf (l : List (String × String)) : ProvidedInputs :=
  fun name => l.lookup name

/-- An application with nothing configured: the root task declares the input `db.host`,
its child `web` declares the input `db`. -/
def conflictApp : Application :=
  sampleApp emptyConfig
    [{ GetKey := .root "", ResolvedInputs := [{ Name := "db.host", ArgumentIndex := none }] },
     { GetKey := .child "web" (.root ""), ResolvedInputs := [{ Name := "db", ArgumentIndex := none }] }]

/-- An application with nothing configured: the root task declares the inputs `db.host`
and `x`, its child `web` declares the inputs `db.port` and `x`. -/
def mergeApp : Application :=
  sampleApp emptyConfig
    [{ GetKey := .root "",
       ResolvedInputs := [{ Name := "db.host", ArgumentIndex := none }, { Name := "x", ArgumentIndex := some 0 }] },
     { GetKey := .child "web" (.root ""),
       ResolvedInputs := [{ Name := "db.port", ArgumentIndex := none }, { Name := "x", ArgumentIndex := some 0 }] }]

/-- The values the child `web` of `mergeApp` resolves itself from the argument `C`. -/
def webDirect : Fields :=
  SetValueAtPath (SetValueAtPath emptyFields ["db", "port"] (.str "5432")) ["x"] (.str "C")

/-- The values the root task of `mergeApp` resolves with an empty argument list. -/
def rootInherited : Fields :=
  SetValueAtPath (SetValueAtPath emptyFields ["db", "host"] (.str "h")) ["x"] (.str "P")

/-- The task `web` with the one input `db.port`, bound to no position. -/
def webTask : Task :=
  { GetKey := .child "web" (.root ""), ResolvedInputs := [{ Name := "db.port", ArgumentIndex := none }] }

/-- An application with nothing configured: the root task binds its input `x` to the
position 0, its child is `web`. -/
def replayApp : Application :=
  sampleApp emptyConfig
    [{ GetKey := .root "", ResolvedInputs := [{ Name := "x", ArgumentIndex := some 0 }] }, webTask]

/-- An application whose configuration source holds `stub` at the key `greet` and nothing
else, with the root task and the task `greet` declaring the input `name`; no task `name`
is registered. -/
def stubbedApp : Application :=
  sampleApp (docConfig [("greet", "stub")] []) [rootTask, greetTaskNoIndex]

/-- The error of the fallback for `name` when no task `name` is registered. -/
def nameNotFound : Err :=
  .annotate "app failed finding task name" (.mk "No task named name exists")

/-- An application with nothing configured, holding the root task and the task `greet`
declaring the input `name`; no task `name` is registered. -/
def missingApp : Application :=
  sampleApp emptyConfig [rootTask, greetTaskNoIndex]

/-! ## The generations of a document, as the specification words them -/

/-- Generation 1 accepts: the Generation-1 decode succeeds and `name` is non-empty or the
`tasks` array is non-empty. -/
def gen1Accepts (unmarshal : Unmarshal) : Prop :=
  (unmarshal.asV1 v1Init).2 = none
    ∧ ((unmarshal.asV1 v1Init).1.Name ≠ "" ∨ (unmarshal.asV1 v1Init).1.TaskConfigs ≠ [])

/-- Generation 2 accepts: the Generation-2 decode succeeds and the `tasks` mapping,
`script` or `steps` is non-empty. -/
def gen2Accepts (unmarshal : Unmarshal) : Prop :=
  (unmarshal.asV2 v2Init).2 = none
    ∧ ((unmarshal.asV2 v2Init).1.TaskConfigs ≠ [] ∨ (unmarshal.asV2 v2Init).1.Script ≠ ""
        ∨ (unmarshal.asV2 v2Init).1.StepConfigs ≠ [])

/-- The generic map decodes and holds under `tasks` a mapping whose keys are strings:
the entries of that mapping. -/
def gen3Tasks (unmarshal : Unmarshal) : Option StrMap :=
  match (unmarshal.asMap []).2, (unmarshal.asMap []).1.get "tasks" with
  | none, .map rawTasks =>
      match CastKeysToStrings rawTasks with
      | .ok tasks => some tasks
      | .error _ => none
  | _, _ => none

/-- A loader of script steps: it loads a description with a string `script` and a string
`name`, and rejects every other. -/
def scriptLoader : StepLoader := fun config =>
  match config.get "script", config.get "name" with
  | .str body, .str name => (some { Name := name, Kind := "script", Body := body }, none)
  | _, _ => (none, some (.mk "not a script step"))

/-- A loader of task steps: it loads a description with a string `task` and a string
`name`, and rejects every other. -/
def taskLoader : StepLoader := fun config =>
  match config.get "task", config.get "name" with
  | .str body, .str name => (some { Name := name, Kind := "task", Body := body }, none)
  | _, _ => (none, some (.mk "not a task step"))

/-- A structural leaf decoder: it fills `Script` and `Description` from the strings held
at `script` and `description`, leaves every other field of the task as it is, and fails
when `script` is not a string. -/
def fieldDecode : LeafDecoder := fun m t =>
  match m.get "script" with
  | .str script =>
      match m.get "description" with
      | .str d => .ok { t with Script := script, Description := d }
      | _ => .ok { t with Script := script }
  | _ => .error (.mk "script: expected a string")

/-- A yaml type error on the field `tasks`. -/
def tasksTypeError : Err := .mk "yaml: unmarshal errors: cannot unmarshal tasks"

/-- The decoder on the document `tasks: 5`: the Generation-1 and Generation-2 decodes
fail on the type of `tasks`, the generic map holds the number. -/
def tasksNumberDoc : Unmarshal :=
  { asMap := fun _ => ([("tasks", .int 5)], none)
    asV1 := fun v1 => (v1, some tasksTypeError)
    asV2 := fun v2 => (v2, some tasksTypeError) }

/-- The decoder on the Generation-1 document `name: build`, `script: make`. -/
def buildLeafDoc : Unmarshal :=
  { asMap := fun _ => ([("name", .str "build"), ("script", .str "make")], none)
    asV1 := fun v1 => ({ v1 with Name := "build", Script := "make" }, none)
    asV2 := fun v2 => ({ v2 with Script := "make" }, none) }

/-- The Generation-3 map `grp: {build: {script: make}}`. -/
def grpBuildTasks : RawMap :=
  [(.str "grp", .map [(.str "build", .map [(.str "script", .str "make")])])]

/-- The decoder on the Generation-3 document `tasks: {grp: {build: {script: make}}}`
that also carries `script: make` and `steps: [{script: ls}]` at its top: the
Generation-1 and Generation-2 decodes fail on `tasks`. -/
def gen3AmbiguousDoc : Unmarshal :=
  { asMap := fun _ =>
      ([("script", .str "make"), ("steps", .list [.map [(.str "script", .str "ls")]]),
        ("tasks", .map grpBuildTasks)], none)
    asV1 := fun v1 =>
      ({ v1 with Script := "make", StepConfigs := [some [(.str "script", .str "ls")]] },
        some tasksTypeError)
    asV2 := fun v2 =>
      ({ v2 with Script := "make", StepConfigs := [some [(.str "script", .str "ls")]] },
        some tasksTypeError) }

/-- The decoder on the document `description: only`. -/
def descriptionOnlyDoc : Unmarshal :=
  { asMap := fun _ => ([("description", .str "only")], none)
    asV1 := fun v1 => ({ v1 with Description := "only" }, none)
    asV2 := fun v2 => ({ v2 with Description := "only" }, none) }

/-- Two step descriptions: `{script: ls}` without a name and `{name: x, script: pwd}`. -/
def twoStepConfigs : List (Option RawMap) :=
  [some [(.str "script", .str "ls")],
   some [(.str "name", .str "x"), (.str "script", .str "pwd")]]

/-- The task a Generation-1 ingestion of the document `name: build`, `script: make`
makes, as the decoder of the enclosing document receives it. -/
def buildLeafG1 : TaskConfig :=
  match UnmarshalYAML [scriptLoader] fieldDecode 1 TaskConfig.zero buildLeafDoc with
  | .done (t, _) => t
  | _ => TaskConfig.zero

/-- The decoder on the Generation-1 document `name: grp`, `tasks: [<build>]`. -/
def grpDocG1 : Unmarshal :=
  { asMap := fun _ => ([("name", .str "grp")], none)
    asV1 := fun v1 => ({ v1 with Name := "grp", TaskConfigs := [buildLeafG1] }, none)
    asV2 := fun v2 => (v2, some tasksTypeError) }

/-- The task a Generation-1 ingestion of the document `grp` makes. -/
def grpG1 : TaskConfig :=
  match UnmarshalYAML [scriptLoader] fieldDecode 1 TaskConfig.zero grpDocG1 with
  | .done (t, _) => t
  | _ => TaskConfig.zero

/-- The decoder on the Generation-1 document `name: app`, `tasks: [{name: grp, tasks:
[{name: build, script: make}]}]`. -/
def appDocG1 : Unmarshal :=
  { asMap := fun _ => ([("name", .str "app")], none)
    asV1 := fun v1 => ({ v1 with Name := "app", TaskConfigs := [grpG1] }, none)
    asV2 := fun v2 => (v2, some tasksTypeError) }

/-- The decoder on the Generation-3 document `tasks: {grp: {build: {script: make}}}` of
the same task tree: the Generation-1 and Generation-2 decodes fail on `tasks`. -/
def appDocG3 : Unmarshal :=
  { asMap := fun _ => ([("tasks", .map grpBuildTasks)], none)
    asV1 := fun v1 => (v1, some tasksTypeError)
    asV2 := fun v2 => (v2, some tasksTypeError) }

/-- The number of steps of the first grandchild of a task, when it has one. -/
def firstGrandchildSteps (r : Ingest (TaskConfig × Option Err)) : Option Nat :=
  match r with
  | .done (t, _) =>
      match t.TaskConfigs with
      | g :: _ =>
          match g.TaskConfigs with
          | b :: _ => some b.Steps.length
          | [] => none
      | [] => none
  | _ => none

/-- The nesting depth of a dynamic value: the number of maps on the longest way down
through map values. -/
def Dyn.depth : Dyn → Nat
  | .map m => 1 + go m
  | _ => 0
where
  /-- The largest depth of a value of a raw map. -/
  go : List (Dyn × Dyn) → Nat
  | [] => 0
  | (_, v) :: rest => max v.depth (go rest)

/-- The largest depth of a value of a string-keyed map. -/
def StrMap.depth : StrMap → Nat
  | [] => 0
  | (_, v) :: rest => max v.depth (StrMap.depth rest)

/-- The result of the Generation-3 transformation as the specification words it: one
task an entry, in order; an entry whose map has no `script` is a group named after its
key whose children are the transformation of its own map; an entry whose map has a
`script` is a leaf, the task the structural decoder makes of the map and of a task
named after the key. -/
inductive V3Result (decode : LeafDecoder) : StrMap → List TaskConfig → Prop where
  | nil : V3Result decode [] []
  | group (k : String) (i2i : RawMap) (s2i : StrMap) (children : List TaskConfig)
      (rest : StrMap) (ts : List TaskConfig) :
      CastKeysToStrings i2i = .ok s2i → s2i.get "script" = .null →
      V3Result decode s2i children → V3Result decode rest ts →
      V3Result decode ((k, .map i2i) :: rest) ({ v3Prepared k with TaskConfigs := children } :: ts)
  | leaf (k : String) (i2i : RawMap) (s2i : StrMap) (t : TaskConfig)
      (rest : StrMap) (ts : List TaskConfig) :
      CastKeysToStrings i2i = .ok s2i → s2i.get "script" ≠ .null →
      decode s2i (v3Prepared k) = .ok t → V3Result decode rest ts →
      V3Result decode ((k, .map i2i) :: rest) (t :: ts)

/-- A Generation-3 map with a group `grp` whose entry `build` is the string `make`, not a
map. -/
def grpScalarTasks : StrMap :=
  [("grp", .map [(.str "build", .str "make")])]

/-- Whether a map carries a key that reads `name` in some letter case: the keys that a
decoder matching keys to the field `Name` without regard to case takes for it. -/
def carriesName (s2i : StrMap) : Bool :=
  s2i.any (fun e => e.1.toLower = "name")

/-- A structural leaf decoder that does what `fieldDecode` does and also writes `Name`
from a string held at `name`, as a decoder that fills every field of `TaskConfig` from the
key of its name does. -/
def namedFieldDecode : LeafDecoder := fun m t =>
  match fieldDecode m t with
  | .ok t1 =>
      match m.get "name" with
      | .str n => .ok { t1 with Name := n }
      | _ => .ok t1
  | .error e => .error e

/-- The string-keyed Generation-3 map `build: {script: make, name: other}`. -/
def renamedLeafTasks : StrMap :=
  [("build", .map [(.str "script", .str "make"), (.str "name", .str "other")])]

/-- The string-keyed Generation-3 map `grp: {build: {script: make}}`. -/
def grpBuildStrTasks : StrMap :=
  [("grp", .map [(.str "build", .map [(.str "script", .str "make")])])]

/-- The task `greet` whose one input `name` is bound to the position -1. -/
def negIndexTask : Task :=
  { GetKey := .child "greet" (.root ""), ResolvedInputs := [{ Name := "name", ArgumentIndex := some (-1) }] }

/-- An application with nothing configured, holding the root task and the task `greet`
whose input is bound to the position -1. -/
def negIndexApp : Application :=
  sampleApp emptyConfig [rootTask, negIndexTask]

/-- A configuration source that holds the section `name` (with the leaf `first`) and
nothing else: a value at the bare key `name` that is not a string. -/
def sectionAtNameConfig : ConfigSource :=
  docConfig [] [("name", [("first", "Ann")])]

/-- An application over `sectionAtNameConfig`, holding the root task and the task `greet`
whose input `name` is bound to the position 0. -/
def sectionApp : Application :=
  sampleApp sectionAtNameConfig [rootTask, greetTask]

/-- A fallback that returns the text `"fallback"` and changes nothing. -/
def idleFallback : Fallback :=
  fun _ _ st => .ret ("fallback", none) st

/-- The ancestor keys of a key: each key obtained by repeated `Parent()`, nearest first,
up to the root key. -/
def ancestors : Key → List Key
  | .root _ => []
  | .child _ parent => parent :: ancestors parent

/-- The resolution of a key and of its ancestors goes through: the direct resolution of
the key returns values from the state `st`, and, for a key with a parent, so does the
resolution of the parent and of its ancestors, made with the empty argument list from the
state the key's own resolution left; the last argument is the state the resolution of
the root key leaves. -/
inductive ChainResolves (p : Application) (run : Fallback) (provided : ProvidedInputs)
    (caller : List Key) : Key → List String → State → State → Prop where
  | root (short : String) (args : List String) (st st1 : State) (direct : Fields) :
      DirectInputValuesForTaskKey p run (.root short) args provided caller st
        = .ret (.ok direct) st1 →
      ChainResolves p run provided caller (.root short) args st st1
  | child (short : String) (parent : Key) (args : List String) (st st1 st2 : State)
      (direct : Fields) :
      DirectInputValuesForTaskKey p run (.child short parent) args provided caller st
        = .ret (.ok direct) st1 →
      ChainResolves p run provided caller parent [] st1 st2 →
      ChainResolves p run provided caller (.child short parent) args st st2

/-- The resolution of a key and of its ancestors fails at the key `a`: the direct
resolutions of the keys nearer than `a` return values, each from the state the one before
left, and the direct resolution of `a`, in the state so reached, returns an error (as it
does when `a` is absent from the registry or one of its inputs is unresolvable).  The last
two arguments are the error, under the annotations of the keys passed, and the state the
failed resolution leaves. -/
inductive ChainFailsAt (p : Application) (run : Fallback) (provided : ProvidedInputs)
    (caller : List Key) : Key → List String → State → Key → Err → State → Prop where
  | here (k : Key) (args : List String) (st st1 : State) (e : Err) :
      DirectInputValuesForTaskKey p run k args provided caller st = .ret (.error e) st1 →
      ChainFailsAt p run provided caller k args st k
        (.annotate ("One or more inputs for task " ++ k.ShortString ++ " failed") e) st1
  | above (short : String) (parent : Key) (args : List String) (st st1 st2 : State)
      (direct : Fields) (a : Key) (e : Err) :
      DirectInputValuesForTaskKey p run (.child short parent) args provided caller st
        = .ret (.ok direct) st1 →
      ChainFailsAt p run provided caller parent [] st1 a e st2 →
      ChainFailsAt p run provided caller (.child short parent) args st a
        (.annotate
          ("AggregateInputsForParent(" ++ (Key.child short parent).ShortString ++ ") failed")
          e) st2

/-- The key `grp` below the root key. -/
def grpKey : Key := .child "grp" (.root "")

/-- The key `grp.web` below `grp`. -/
def grpWebKey : Key := .child "grp.web" grpKey

/-- The task `grp.web`, without inputs. -/
def grpWebTask : Task :=
  { GetKey := grpWebKey, ResolvedInputs := [] }

/-- The task `grp` with the one input `name`, bound to no position. -/
def grpNameTask : Task :=
  { GetKey := grpKey, ResolvedInputs := [{ Name := "name", ArgumentIndex := none }] }

/-- An application over `sectionAtNameConfig` holding the tasks `grp.web` and `grp`; no
task is registered at the root key. -/
def rootlessChainApp : Application :=
  sampleApp sectionAtNameConfig [grpWebTask, grpNameTask]

/-- An application with nothing configured that holds the task `name` alone; no task is
registered at the root key. -/
def rootlessApp : Application :=
  sampleApp emptyConfig [nameTask]

/-- The root task with the one input `x`, bound to no position. -/
def needyRootTask : Task :=
  { GetKey := .root "", ResolvedInputs := [{ Name := "x", ArgumentIndex := none }] }

/-- An application with nothing configured, holding the root task with its input `x` and
the task `name`; no task `x` is registered. -/
def needyRootApp : Application :=
  sampleApp emptyConfig [needyRootTask, nameTask]

/-- The error of the fallback for `x` when no task `x` is registered. -/
def xNotFound : Err :=
  .annotate "app failed finding task x" (.mk "No task named x exists")

/-- The error of the registry of the sample applications for the root key. -/
def rootNotFound : Err :=
  .mk "No task named  exists"

/-- The task `日本語` whose one input `x` is bound to the position 0. -/
def nonAsciiTask : Task :=
  { GetKey := .child "日本語" (.root ""), ResolvedInputs := [{ Name := "x", ArgumentIndex := some 0 }] }

/-- An application with nothing configured, holding the root task and the task `日本語`. -/
def nonAsciiApp : Application :=
  sampleApp emptyConfig [rootTask, nonAsciiTask]

/-- The root task with the one input `x`, bound to the position -1. -/
def negIndexRootTask : Task :=
  { GetKey := .root "", ResolvedInputs := [{ Name := "x", ArgumentIndex := some (-1) }] }

/-- An application with nothing configured, holding the root task whose input is bound to
the position -1, and its child `name`, which declares no input. -/
def negIndexRootApp : Application :=
  sampleApp emptyConfig [negIndexRootTask, nameTask]

/-- A configuration source that holds the value `CALLER` at the leaf `name` of the section
with the empty name, and nothing else. -/
def emptySectionConfig : ConfigSource :=
  docConfig [] [("", [("name", "CALLER")])]

/-- An application over `emptySectionConfig`, holding the root task and the task `greet`
with its input `name`. -/
def emptySectionApp : Application :=
  sampleApp emptySectionConfig [rootTask, greetTaskNoIndex]

/-! ## Lemmas on strings and value trees -/

theorem splitDots_ne_nil (cs : List Char) : splitDots cs ≠ [] := by
  induction cs with
  | nil => simp [splitDots]
  | cons c cs ih =>
      unfold splitDots
      split
      · simp
      · split <;> simp

theorem Split_ne_nil (s : String) : Split s ≠ [] := by
  simp [Split, splitDots_ne_nil]

theorem setKey_same (m : Fields) (k : String) (v : Value) : setKey m k v k = v := by
  simp [setKey]

theorem setKey_other (m : Fields) (k k' : String) (v : Value) (h : k' ≠ k) :
    setKey m k v k' = m k' := by
  simp [setKey, h]

/-- Reading a path that was just written yields the written value. -/
theorem getValueAtPath_setValueAtPath (path : List String) (hp : path ≠ []) (m : Fields)
    (v : Value) : GetValueAtPath (SetValueAtPath m path v) path = (v, none) := by
  induction path generalizing m with
  | nil => exact absurd rfl hp
  | cons k rest ih =>
      cases rest with
      | nil => simp [SetValueAtPath, GetValueAtPath, setKey_same]
      | cons k2 rest2 =>
          simp only [SetValueAtPath, GetValueAtPath, setKey_same]
          exact ih (by simp) _

theorem succInt64_le (i : Int) (h : 0 ≤ i) : succInt64 i ≤ i + 1 := by
  unfold succInt64
  omega

/-- An index within the argument list selects the positional argument. -/
theorem positionalOf_inBounds (args : List String) (n : Nat) (a : String)
    (ha : args[n]? = some a) : positionalOf args (some (n : Int)) = .value (some a) := by
  have hlt : n < args.length := by
    rcases Nat.lt_or_ge n args.length with h | h
    · exact h
    · rw [List.getElem?_eq_none h] at ha
      cases ha
  have h1 : succInt64 (n : Int) ≤ (n : Int) + 1 := succInt64_le _ (by omega)
  have h2 : (args.length : Int) ≥ succInt64 (n : Int) := by omega
  simp [positionalOf, h2, ha]

/-- The loop over a concatenation runs the loop over the first part, then over the
second from where the first left off. -/
theorem resolveInputs_append (p : Application) (run : Fallback) (taskDef : Task) (taskKey : Key)
    (args : List String) (provided : ProvidedInputs) (caller : List Key)
    (pre rest : List Input) (values values1 : Fields) (st st1 : State)
    (hpre : resolveInputs p run taskDef taskKey args provided caller pre values st
      = .ret (.ok values1) st1) :
    resolveInputs p run taskDef taskKey args provided caller (pre ++ rest) values st
      = resolveInputs p run taskDef taskKey args provided caller rest values1 st1 := by
  induction pre generalizing values st with
  | nil =>
      simp only [resolveInputs] at hpre
      cases hpre
      rfl
  | cons input pre ih =>
      simp only [List.cons_append, resolveInputs] at hpre ⊢
      split at hpre
      · exact ih _ _ hpre
      · cases hpre
      · cases hpre
      · cases hpre

/-- The scan of `strings.LastIndex` ends at `-1` exactly when it started at `-1` and the
remaining text does not contain the substring. -/
theorem lastIndexAux_eq_neg_one (sub cs : List Char) (off : Nat) (acc : Int) :
    lastIndexAux sub cs off acc = -1 ↔ acc = -1 ∧ ¬ sub <:+: cs := by
  induction cs generalizing off acc with
  | nil =>
      simp only [lastIndexAux, List.isPrefixOf_iff_prefix, List.prefix_nil, List.infix_nil]
      by_cases h : sub = []
      · simp only [h, if_true, not_true_eq_false, and_false, iff_false]
        omega
      · simp [h]
  | cons c cs ih =>
      simp only [lastIndexAux, ih, List.isPrefixOf_iff_prefix, List.infix_cons_iff, not_or]
      by_cases h : sub <+: c :: cs
      · simp only [h, if_true, not_true_eq_false, false_and, and_false, iff_false, not_and]
        intro h1
        omega
      · simp [h]

/-- The result of `strings.LastIndex(s, substr)` is `-1` exactly when `substr` does not
occur in `s`. -/
theorem LastIndex_eq_neg_one (s substr : String) :
    LastIndex s substr = -1 ↔ ¬ substr.data <:+: s.data := by
  simp [LastIndex, lastIndexAux_eq_neg_one]

/-- A one-character text occurs in a text exactly when the character is in it. -/
theorem singleton_infix_iff_mem (a : Char) (l : List Char) : [a] <:+: l ↔ a ∈ l := by
  constructor
  · rintro ⟨s, t, rfl⟩
    simp
  · intro h
    obtain ⟨s, t, rfl⟩ := List.append_of_mem h
    exact ⟨s, t, by simp⟩

/-- A path without the delimiter has no last index of it. -/
theorem LastIndex_dot_eq_neg_one (k : String) : LastIndex k "." = -1 ↔ '.' ∉ k.data := by
  rw [LastIndex_eq_neg_one]
  have h : ("." : String).data = ['.'] := rfl
  rw [h, singleton_infix_iff_mem]

/-- The scan for the delimiter over a text without it keeps the last match seen. -/
theorem lastIndexAux_no_dot (cs : List Char) (h : '.' ∉ cs) (off : Nat) (acc : Int) :
    lastIndexAux ['.'] cs off acc = acc := by
  induction cs generalizing off acc with
  | nil => simp [lastIndexAux, List.isPrefixOf]
  | cons c cs ih =>
      have hc : ¬ c = '.' := fun hc => h (by simp [hc])
      have hcs : '.' ∉ cs := fun hcs => h (by simp [hcs])
      have hne : ('.' == c) = false := by
        simp only [beq_eq_false_iff_ne, ne_eq]
        exact fun h2 => hc h2.symm
      simp only [lastIndexAux, List.isPrefixOf, hne, Bool.false_and, Bool.false_eq_true, if_false]
      exact ih hcs _ _

/-- The last index of the delimiter is the number of bytes before its last occurrence. -/
theorem lastIndexAux_dot (pre post : List Char) (h : '.' ∉ post) (off : Nat) (acc : Int) :
    lastIndexAux ['.'] (pre ++ '.' :: post) off acc = ((off + utf8Len pre : Nat) : Int) := by
  induction pre generalizing off acc with
  | nil =>
      simp only [List.nil_append, lastIndexAux, List.isPrefixOf, beq_self_eq_true, Bool.true_and,
        if_true, utf8Len, Nat.add_zero]
      exact lastIndexAux_no_dot post h _ _
  | cons c pre ih =>
      simp only [List.cons_append, lastIndexAux, utf8Len]
      have h2 := ih (off + c.utf8Size)
        (if ['.'].isPrefixOf (c :: (pre ++ '.' :: post)) = true then (off : Int) else acc)
      refine h2.trans ?_
      congr 1
      omega

/-- Where the text before the last delimiter is ASCII, `GetValueForConfigKey` (without a
flag value) looks up the text after the last delimiter in the sub-document at the text
before it, and does not fail fatally. -/
theorem getValueForConfigKey_ascii_split (cfg : ConfigSource) (pre post : List Char)
    (hascii : utf8Len pre = pre.length) (hpost : '.' ∉ post)
    (hflag : cfg.GetString ("flags." ++ String.mk (pre ++ '.' :: post)) = "") :
    GetValueForConfigKey cfg (String.mk (pre ++ '.' :: post))
      = match cfg.Get (String.mk pre) with
        | some _ =>
            match cfg.Sub (String.mk pre) with
            | some values =>
                match values.Get (String.mk post) with
                | some _ => .value (some (values.GetString (String.mk post)))
                | none => .value none
            | none => .value none
        | none => .value none := by
  have hlast : LastIndex (String.mk (pre ++ '.' :: post)) "." = (pre.length : Int) := by
    have h := lastIndexAux_dot pre post hpost 0 (-1)
    simp only [Nat.zero_add, hascii] at h
    exact h
  have hlen : ¬ ((pre.length : Int) + 1 > ((pre ++ '.' :: post).length : Int)) := by
    simp only [List.length_append, List.length_cons, Nat.cast_add, Nat.cast_one]
    omega
  have hne : ¬ ((pre.length : Int) = -1) := by omega
  simp only [GetValueForConfigKey, hflag, hlast, hlen, hne, ne_eq, not_true_eq_false,
    not_false_eq_true, if_true, if_false, Int.toNat_ofNat, List.take_left',
    List.drop_left']
  have hdrop : List.drop (pre.length + 1) (pre ++ '.' :: post) = post := by
    rw [← List.drop_drop]
    simp
  simp only [hdrop]

/-- A single lookup is its own first present value. -/
theorem firstPresentOf_single (f : Unit → Fetched) : firstPresentOf [f] = f () := by
  simp only [firstPresentOf]
  cases f () with
  | fatal => rfl
  | value v => cases v <;> rfl

/-- The task-scoped and bare lookups of `nullableValueOf`, once the earlier sources gave
nothing, are the first present value of the last two sources. -/
theorem nullableValueOf_tail (p : Application) (taskKey : Key) (input : Input) :
    (match (if (none : Option String) = none ∧ LastIndex input.ShortName taskKey.ShortString = -1 then
          GetValueForConfigKey p.config (sprintfDot taskKey.ShortString input.ShortName)
        else Fetched.value none) with
      | .fatal => Fetched.fatal
      | .value v2 =>
          if v2 = none then GetValueForConfigKey p.config input.ShortName else .value v2)
    = firstPresentOf (taskScopedSource p taskKey input ++ bareSource p input) := by
  unfold taskScopedSource bareSource
  unfold consultsTaskScoped
  by_cases hd : LastIndex input.ShortName taskKey.ShortString = -1
  · simp only [hd, and_self, if_true, decide_True, List.singleton_append, firstPresentOf]
    cases GetValueForConfigKey p.config (sprintfDot taskKey.ShortString input.ShortName) with
    | fatal => rfl
    | value v2 =>
        cases v2 with
        | some v => simp
        | none =>
            simp only [if_true]
            exact (firstPresentOf_single
              (fun _ => GetValueForConfigKey p.config input.ShortName)).symm
  · simp only [hd, and_false, if_false, decide_False, List.nil_append, if_true, Bool.false_eq_true]
    exact (firstPresentOf_single (fun _ => GetValueForConfigKey p.config input.ShortName)).symm

/-- The value the code takes from the provided inputs and the configuration source is the
first present one of the non-positional sources, for callers whose key renders to a
non-empty string or has no configuration value below the empty key. -/
theorem nullableValueOf_eq_firstPresentOf (p : Application) (taskKey : Key)
    (provided : ProvidedInputs) (caller : List Key) (input : Input)
    (hcaller : ∀ c ∈ caller.head?, c.ShortString ≠ ""
      ∨ GetValueForConfigKey p.config (sprintfDot c.ShortString input.ShortName) = .value none) :
    nullableValueOf p taskKey provided caller input
      = firstPresentOf (nonPositionalSources p taskKey provided caller input) := by
  have htail := nullableValueOf_tail p taskKey input
  unfold taskScopedSource bareSource at htail
  unfold nullableValueOf nonPositionalSources providedSource callerScopedSource
    taskScopedSource bareSource
  cases hprov : provided input.Name with
  | some v => simp [firstPresentOf]
  | none =>
      cases caller with
      | nil =>
          simp only [baseTaskKeyOf, ne_eq, not_true_eq_false, and_false, if_false,
            List.append_nil, List.singleton_append, List.cons_append, List.nil_append,
            firstPresentOf]
          simpa using htail
      | cons c cs =>
          have hc := hcaller c (by simp)
          simp only [baseTaskKeyOf, true_and, List.singleton_append,
            List.cons_append, List.nil_append, firstPresentOf]
          by_cases hne : c.ShortString = ""
          · have hnone : GetValueForConfigKey p.config (sprintfDot c.ShortString input.ShortName)
                = .value none := by
              rcases hc with h | h
              · exact absurd hne h
              · exact h
            rw [hnone]
            simp only [hne, ne_eq, not_true_eq_false, if_false]
            simpa using htail
          · simp only [hne, ne_eq, not_false_eq_true, if_true]
            cases GetValueForConfigKey p.config (sprintfDot c.ShortString input.ShortName) with
            | fatal => rfl
            | value v1 =>
                cases v1 with
                | some v => simp
                | none => simpa using htail

/-- Where the task's own values hold nothing on a path, the merge holds there what the
inherited values hold. -/
theorem deepMerge_inherited (path : List String) (direct inherited : Fields)
    (h : GetValueAtPath direct path = (.nil, none)) :
    (GetValueAtPath (DeepMerge direct inherited) path).1 = (GetValueAtPath inherited path).1 := by
  induction path generalizing direct inherited with
  | nil => rfl
  | cons k rest ih =>
      cases rest with
      | nil =>
          simp only [GetValueAtPath, Prod.mk.injEq, and_true] at h
          simp [GetValueAtPath, DeepMerge, h, mergeUnder]
      | cons k2 rest2 =>
          simp only [GetValueAtPath, DeepMerge] at h ⊢
          cases hd : direct k with
          | nil => simp [mergeUnder]
          | str x => simp [hd] at h
          | strs x => simp [hd] at h
          | map dm =>
              simp only [hd] at h
              cases hi : inherited k with
              | nil => simp [mergeUnder, h]
              | str x => simp [mergeUnder, h]
              | strs x => simp [mergeUnder, h]
              | map im =>
                  simp only [mergeUnder]
                  exact ih dm im h

/-- A scalar that the task's own values hold on a path stays there in the merge. -/
theorem deepMerge_direct (path : List String) (direct inherited : Fields) (v : Value)
    (hv : v.isScalar = true) (h : GetValueAtPath direct path = (v, none)) :
    GetValueAtPath (DeepMerge direct inherited) path = (v, none) := by
  induction path generalizing direct inherited with
  | nil =>
      simp only [GetValueAtPath, Prod.mk.injEq, and_true] at h
      subst h
      cases hv
  | cons k rest ih =>
      cases rest with
      | nil =>
          simp only [GetValueAtPath, Prod.mk.injEq, and_true] at h
          simp only [GetValueAtPath, DeepMerge, h, Prod.mk.injEq, and_true]
          cases v with
          | nil => cases hv
          | str x => simp [mergeUnder]
          | strs x => simp [mergeUnder]
          | map m => cases hv
      | cons k2 rest2 =>
          simp only [GetValueAtPath, DeepMerge] at h ⊢
          cases hd : direct k with
          | nil =>
              simp only [hd, Prod.mk.injEq, and_true] at h
              subst h
              cases hv
          | str x => simp [hd] at h
          | strs x => simp [hd] at h
          | map dm =>
              simp only [hd] at h
              cases hi : inherited k with
              | nil => simp [mergeUnder, h]
              | str x => simp [mergeUnder, h]
              | strs x => simp [mergeUnder, h]
              | map im =>
                  simp only [mergeUnder]
                  exact ih dm im h

/-- Where both trees hold a mapping on a path, the merge holds there the merge of the two
mappings. -/
theorem deepMerge_nested (path : List String) (direct inherited dm im : Fields)
    (hd : GetValueAtPath direct path = (.map dm, none))
    (hi : GetValueAtPath inherited path = (.map im, none)) :
    GetValueAtPath (DeepMerge direct inherited) path = (.map (DeepMerge dm im), none) := by
  induction path generalizing direct inherited with
  | nil => simp [GetValueAtPath] at hd
  | cons k rest ih =>
      cases rest with
      | nil =>
          simp only [GetValueAtPath, Prod.mk.injEq, and_true] at hd hi
          simp only [GetValueAtPath, DeepMerge, hd, hi, mergeUnder]
          rfl
      | cons k2 rest2 =>
          simp only [GetValueAtPath, DeepMerge] at hd hi ⊢
          cases hdk : direct k with
          | nil => simp [hdk] at hd
          | str x => simp [hdk] at hd
          | strs x => simp [hdk] at hd
          | map dm2 =>
              simp only [hdk] at hd
              cases hik : inherited k with
              | nil => simp [hik] at hi
              | str x => simp [hik] at hi
              | strs x => simp [hik] at hi
              | map im2 =>
                  simp only [hik] at hi
                  simp only [mergeUnder]
                  exact ih dm2 im2 hd hi

/-- A mapping that the task's own values hold on a path stays there in the merge when the
inherited values hold no mapping on that path. -/
theorem deepMerge_direct_map (path : List String) (direct inherited dm : Fields)
    (hd : GetValueAtPath direct path = (.map dm, none))
    (hi : ∀ im, (GetValueAtPath inherited path).1 ≠ .map im) :
    GetValueAtPath (DeepMerge direct inherited) path = (.map dm, none) := by
  induction path generalizing direct inherited with
  | nil => simp [GetValueAtPath] at hd
  | cons k rest ih =>
      cases rest with
      | nil =>
          simp only [GetValueAtPath, Prod.mk.injEq, and_true] at hd
          simp only [GetValueAtPath] at hi
          simp only [GetValueAtPath, DeepMerge, hd, Prod.mk.injEq, and_true]
          cases hik : inherited k with
          | nil => simp [mergeUnder]
          | str x => simp [mergeUnder]
          | strs x => simp [mergeUnder]
          | map im => exact absurd hik (hi im)
      | cons k2 rest2 =>
          simp only [GetValueAtPath, DeepMerge] at hd hi ⊢
          cases hdk : direct k with
          | nil => simp [hdk] at hd
          | str x => simp [hdk] at hd
          | strs x => simp [hdk] at hd
          | map dm2 =>
              simp only [hdk] at hd
              cases hik : inherited k with
              | nil => simp [mergeUnder, hd]
              | str x => simp [mergeUnder, hd]
              | strs x => simp [mergeUnder, hd]
              | map im2 =>
                  simp only [hik] at hi
                  simp only [mergeUnder]
                  exact ih dm2 im2 hd hi

/-- The argument list enters the resolution of an input only through its positional
argument. -/
theorem resolveInput_args_congr (p : Application) (run : Fallback) (taskDef : Task)
    (taskKey : Key) (args args2 : List String) (provided : ProvidedInputs) (caller : List Key)
    (input : Input) (values : Fields) (st : State)
    (h : positionalOf args input.ArgumentIndex = positionalOf args2 input.ArgumentIndex) :
    resolveInput p run taskDef taskKey args provided caller input values st
      = resolveInput p run taskDef taskKey args2 provided caller input values st := by
  unfold resolveInput
  rw [h]

theorem resolveInputs_args_congr (p : Application) (run : Fallback) (taskDef : Task)
    (taskKey : Key) (args args2 : List String) (provided : ProvidedInputs) (caller : List Key)
    (inputs : List Input)
    (h : ∀ input ∈ inputs,
      positionalOf args input.ArgumentIndex = positionalOf args2 input.ArgumentIndex)
    (values : Fields) (st : State) :
    resolveInputs p run taskDef taskKey args provided caller inputs values st
      = resolveInputs p run taskDef taskKey args2 provided caller inputs values st := by
  induction inputs generalizing values st with
  | nil => rfl
  | cons input rest ih =>
      simp only [resolveInputs]
      rw [resolveInput_args_congr p run taskDef taskKey args args2 provided caller input values st
        (h input (List.mem_cons_self _ _))]
      split
      · exact ih (fun i hi => h i (List.mem_cons_of_mem _ hi)) _ _
      · rfl
      · rfl
      · rfl

/-- An index from 0 up to the largest but one `int` selects nothing in an empty argument
list. -/
theorem positionalOf_nil (i : Int) (h0 : 0 ≤ i) (hmax : i < 9223372036854775807) :
    positionalOf [] (some i) = .value none := by
  have h : ¬ ((([] : List String).length : Int) ≥ succInt64 i) := by
    unfold succInt64
    simp only [List.length_nil, Nat.cast_zero]
    omega
  simp only [positionalOf, h, if_false]

/-- With nothing provided and nothing configured at the keys of rules c, d and e, the
provided inputs and the configuration source give no value. -/
theorem nullableValueOf_none (p : Application) (taskKey : Key) (provided : ProvidedInputs)
    (caller : List Key) (input : Input) (hprov : provided input.Name = none)
    (hcfg : ∀ k ∈ configKeysOf taskKey caller input,
      GetValueForConfigKey p.config k = .value none) :
    nullableValueOf p taskKey provided caller input = .value none := by
  have h2 : GetValueForConfigKey p.config (sprintfDot taskKey.ShortString input.ShortName)
      = .value none := hcfg _ (by simp [configKeysOf])
  have h3 : GetValueForConfigKey p.config input.ShortName = .value none :=
    hcfg _ (by simp [configKeysOf])
  unfold nullableValueOf
  cases caller with
  | nil => simp only [baseTaskKeyOf, hprov, h2, h3, ne_eq, not_true_eq_false, and_false,
      if_false, ite_self, true_and, if_true]
  | cons c cs =>
      have h1 : GetValueForConfigKey p.config (sprintfDot c.ShortString input.ShortName)
          = .value none := hcfg _ (by simp [configKeysOf])
      simp only [baseTaskKeyOf, hprov, h1, h2, h3, ite_self, true_and, if_true]

/-- The iteration for an input that no rule resolves and whose fallback task fails
returns the error of the fallback under the annotation naming the input. -/
theorem resolveInput_missing (p : Application) (run : Fallback) (taskDef : Task)
    (taskKey : Key) (args : List String) (provided : ProvidedInputs) (caller : List Key)
    (input : Input) (values : Fields) (st st2 : State) (out : String) (err : Err)
    (hpos : positionalOf args input.ArgumentIndex = .value none)
    (hnv : nullableValueOf p taskKey provided caller input = .value none)
    (hcache : (GetValueAtPath st.CachedTaskOutputs (Split input.Name)).1 = .nil)
    (hrun : run (p.FromResolvedInput input) [taskDef.GetKey] st = .ret (out, some err) st2) :
    resolveInput p run taskDef taskKey args provided caller input values st
      = .ret (.error (.annotate (missingValueMsg input.ShortName) err)) st2 := by
  unfold resolveInput
  rw [hpos, hnv]
  simp only
  rcases hget : GetValueAtPath st.CachedTaskOutputs (Split input.Name) with ⟨v, e⟩
  rw [hget] at hcache
  simp only at hcache
  subst hcache
  simp only [hrun]

/-- The call for a task whose input, reached after the inputs declared before it, is
resolved by no rule and whose fallback task fails, returns that error and no values. -/
theorem directInputValues_missing (p : Application) (run : Fallback) (taskDef : Task)
    (taskKey : Key) (args : List String) (provided : ProvidedInputs) (caller : List Key)
    (pre post : List Input) (input : Input) (values1 : Fields) (st st1 st2 : State)
    (out : String) (err : Err)
    (hfind : p.FindTask taskKey = .ok taskDef)
    (hinputs : taskDef.ResolvedInputs = pre ++ input :: post)
    (hpre : resolveInputs p run taskDef taskKey args provided caller pre emptyFields st
      = .ret (.ok values1) st1)
    (hpos : positionalOf args input.ArgumentIndex = .value none)
    (hnv : nullableValueOf p taskKey provided caller input = .value none)
    (hcache : (GetValueAtPath st1.CachedTaskOutputs (Split input.Name)).1 = .nil)
    (hrun : run (p.FromResolvedInput input) [taskDef.GetKey] st1 = .ret (out, some err) st2) :
    DirectInputValuesForTaskKey p run taskKey args provided caller st
      = .ret (.error (.annotate (missingValueMsg input.ShortName) err)) st2 := by
  unfold DirectInputValuesForTaskKey
  rw [hfind]
  simp only [hinputs]
  rw [resolveInputs_append p run taskDef taskKey args provided caller pre (input :: post)
    emptyFields values1 st st1 hpre]
  simp only [resolveInputs,
    resolveInput_missing p run taskDef taskKey args provided caller input values1 st1 st2 out err
      hpos hnv hcache hrun]

/-! ## Theorems -/

/-- C1 (override shortcut). Whenever the configuration source yields a value `v` at the
task's own key path, `RunTaskForKey` returns `(v, nil)` for every argument list, every
provided inputs and every caller, whatever the registry, the namer and the step execution
are (so also when the key is not registered): the state it leaves is the one it found
with only the start of the task traced, so nothing was cached and no steps were run. -/
theorem runTaskForKey_override_shortcut (p : Application) (fuel : Nat) (taskKey : Key)
    (args : List String) (providedInputs : ProvidedInputs) (caller : List Key) (st : State)
    (v : String) (h : GetValueForConfigKey p.config taskKey.ShortString = .value (some v)) :
    RunTaskForKey p (fuel + 1) taskKey args providedInputs caller st
      = .ret (v, none)
          { CachedTaskOutputs := st.CachedTaskOutputs, trace := st.trace ++ [.started taskKey] } := by
  simp [RunTaskForKey, h, State.log]

/-- Witness of C1: the key `greet` is not registered, the configuration source holds
`hello` at `greet`. -/
theorem runTaskForKey_override_shortcut_witness :
    GetValueForConfigKey (sampleApp (docConfig [("greet", "hello")] []) []).config
        (Key.child "greet" (.root "")).ShortString = .value (some "hello")
    ∧ (sampleApp (docConfig [("greet", "hello")] []) []).FindTask (Key.child "greet" (.root ""))
        = .error (.mk "No task named greet exists")
    ∧ RunTaskForKey (sampleApp (docConfig [("greet", "hello")] []) []) 1
        (Key.child "greet" (.root "")) ["a"] NewProvidedInputs [] initState
      = .ret ("hello", none)
          { CachedTaskOutputs := initState.CachedTaskOutputs,
            trace := initState.trace ++ [.started (Key.child "greet" (.root ""))] } :=
  ⟨by decide, rfl,
    runTaskForKey_override_shortcut _ 0 _ _ _ _ _ "hello" (by decide)⟩

/-- Positional precedence where the lookups return. For a declared input whose
`ArgumentIndex` is `n` with `args[n] = a`, whatever the cache holds and whatever value `v`
(a string or nothing) the provided inputs and the configuration lookups at the
caller-scoped, task-scoped and bare key return: the iteration of `DirectInputValuesForTaskKey` for that input writes `a` at the
path `Split input.Name` and leaves the state as it was, for every fallback `run` (which
is therefore not run); once the inputs declared before it are resolved, the whole call
continues with the inputs declared after it from that tree; and the written tree holds
`a` at that path. -/
theorem directInputValues_positional_precedence (p : Application) (run : Fallback)
    (taskKey : Key) (args : List String) (provided : ProvidedInputs) (caller : List Key)
    (st st1 : State) (taskDef : Task) (pre post : List Input) (input : Input)
    (values1 : Fields) (n : Nat) (a : String) (v : Option String)
    (hfind : p.FindTask taskKey = .ok taskDef)
    (hinputs : taskDef.ResolvedInputs = pre ++ input :: post)
    (hpre : resolveInputs p run taskDef taskKey args provided caller pre emptyFields st
      = .ret (.ok values1) st1)
    (hidx : input.ArgumentIndex = some (n : Int))
    (ha : args[n]? = some a)
    (hnv : nullableValueOf p taskKey provided caller input = .value v) :
    (∀ run2 : Fallback,
      resolveInput p run2 taskDef taskKey args provided caller input values1 st1
        = .ret (.ok (SetValueAtPath values1 (Split input.Name) (.str a))) st1)
    ∧ DirectInputValuesForTaskKey p run taskKey args provided caller st
        = resolveInputs p run taskDef taskKey args provided caller post
            (SetValueAtPath values1 (Split input.Name) (.str a)) st1
    ∧ GetValueAtPath (SetValueAtPath values1 (Split input.Name) (.str a)) (Split input.Name)
        = (.str a, none) := by
  have hbody : ∀ run2 : Fallback,
      resolveInput p run2 taskDef taskKey args provided caller input values1 st1
        = .ret (.ok (SetValueAtPath values1 (Split input.Name) (.str a))) st1 := by
    intro run2
    have hpos := positionalOf_inBounds args n a ha
    unfold resolveInput
    rw [hidx, hpos, hnv]
  refine ⟨hbody, ?_, getValueAtPath_setValueAtPath _ (Split_ne_nil _) _ _⟩
  unfold DirectInputValuesForTaskKey
  rw [hfind]
  simp only [hinputs]
  rw [resolveInputs_append p run taskDef taskKey args provided caller pre (input :: post)
    emptyFields values1 st st1 hpre]
  simp only [resolveInputs, hbody run]

/-- The positional argument `Ada` wins over the value `Grace` that the configuration
source holds at the task's own key `greet.name`. -/
theorem directInputValues_positional_precedence_witness :
    GetValueForConfigKey (docConfig [] [("greet", [("name", "Grace")])]) "greet.name"
      = .value (some "Grace")
    ∧ DirectInputValuesForTaskKey (sampleApp (docConfig [] [("greet", [("name", "Grace")])]) [greetTask])
        (fun _ _ _ => .panic) (.child "greet" (.root "")) ["Ada"] NewProvidedInputs [] initState
      = .ret (.ok (SetValueAtPath emptyFields ["name"] (.str "Ada"))) initState :=
  ⟨by decide,
    (directInputValues_positional_precedence
      (sampleApp (docConfig [] [("greet", [("name", "Grace")])]) [greetTask])
      (fun _ _ _ => .panic) (.child "greet" (.root "")) ["Ada"] NewProvidedInputs []
      initState initState greetTask [] [] { Name := "name", ArgumentIndex := some 0 }
      emptyFields 0 "Ada" (some "Grace") rfl rfl rfl rfl rfl (by decide)).2.1⟩

/-- C2, the code at the failing input. Nothing is configured; the task `日本語` binds its
input `x` to the position 0 and the argument `a` is present there; yet
`DirectInputValuesForTaskKey` writes nothing and panics: the lookups of the configuration
source are made before the positional argument is looked at (application.go 244-264),
and the lookup at the task-scoped key `日本語.x` panics in `GetValueForConfigKey`, which
takes a byte offset for a rune index (application.go 160, 169-171). -/
theorem directInputValues_positional_nonAscii_panic :
    nonAsciiApp.FindTask (.child "日本語" (.root "")) = .ok nonAsciiTask
    ∧ positionalOf ["a"] (some 0) = .value (some "a")
    ∧ NewProvidedInputs "x" = none
    ∧ nonAsciiApp.config.GetString "flags.日本語.x" = ""
    ∧ nonAsciiApp.config.Get "日本語" = none
    ∧ nonAsciiApp.config.Get "x" = none
    ∧ GetValueForConfigKey nonAsciiApp.config "日本語.x" = .fatal
    ∧ DirectInputValuesForTaskKey nonAsciiApp idleFallback (.child "日本語" (.root "")) ["a"]
        NewProvidedInputs [] initState = .panic :=
  ⟨rfl, rfl, rfl, rfl, rfl, rfl, rfl, rfl⟩

/-- The value the code takes from the provided inputs and the configuration source is the
first present one of the sources in the order provided inputs, caller-scoped
configuration for a caller whose key renders to a non-empty string, task-scoped
configuration, bare configuration. -/
theorem nullableValueOf_eq_firstPresentOf_nonEmpty (p : Application) (taskKey : Key)
    (provided : ProvidedInputs) (caller : List Key) (input : Input) :
    nullableValueOf p taskKey provided caller input
      = firstPresentOf (nonPositionalSourcesNonEmpty p taskKey provided caller input) := by
  have htail := nullableValueOf_tail p taskKey input
  unfold taskScopedSource bareSource at htail
  unfold nullableValueOf nonPositionalSourcesNonEmpty providedSource callerScopedSourceNonEmpty
    taskScopedSource bareSource
  cases hprov : provided input.Name with
  | some v => simp [firstPresentOf]
  | none =>
      cases caller with
      | nil =>
          simp only [baseTaskKeyOf, ne_eq, not_true_eq_false, and_false, if_false,
            List.append_nil, List.singleton_append, List.cons_append, List.nil_append,
            firstPresentOf]
          simpa using htail
      | cons c cs =>
          by_cases hne : c.ShortString = ""
          · simp only [baseTaskKeyOf, hne, ne_eq, not_true_eq_false, and_false, if_false,
              List.append_nil, List.singleton_append, List.cons_append, List.nil_append,
              firstPresentOf]
            simpa using htail
          · simp only [baseTaskKeyOf, hne, ne_eq, not_false_eq_true, and_self, if_true,
              List.singleton_append, List.cons_append, List.nil_append, firstPresentOf]
            cases GetValueForConfigKey p.config (sprintfDot c.ShortString input.ShortName) with
            | fatal => rfl
            | value v1 =>
                cases v1 with
                | some v => simp
                | none => simpa using htail

/-- C3, counterexample: the task `greet` is called by the root task, whose key renders to
the empty string; nothing is provided and the configuration source holds `CALLER` at the
caller-scoped key `.name` and nothing at the task-scoped and bare keys.  The first present
value of the sources in the stated order is `CALLER`, yet the code takes no value: the
caller-scoped lookup is guarded by `baseTaskKey != ""` (application.go 250), not by the
presence of a caller. -/
theorem directInputValues_emptyCaller_counterexample :
    baseTaskKeyOf [.root ""] = ""
    ∧ GetValueForConfigKey emptySectionApp.config
        (sprintfDot (Key.root "").ShortString
          (Input.ShortName { Name := "name", ArgumentIndex := none }))
      = .value (some "CALLER")
    ∧ firstPresentOf (nonPositionalSources emptySectionApp (.child "greet" (.root ""))
        NewProvidedInputs [.root ""] { Name := "name", ArgumentIndex := none })
      = .value (some "CALLER")
    ∧ nullableValueOf emptySectionApp (.child "greet" (.root "")) NewProvidedInputs [.root ""]
        { Name := "name", ArgumentIndex := none }
      = .value none := by
  refine ⟨rfl, ?_, ?_, ?_⟩ <;> decide

/-- C3, amended (precedence among the non-positional sources). For a declared input with
no applicable positional argument, the value the code takes from the provided inputs and
the configuration source is the first present one of, in this order: the provided inputs
at `input.Name`; the configuration at the caller-scoped key, only when a caller is
present and its key renders to a non-empty string; the configuration at the task-scoped
key, when rule d is not skipped; the configuration at the bare short name; a lookup that
fails fatally before a value is found makes the resolution panic.  When there is a value,
the iteration of `DirectInputValuesForTaskKey` stores it at `Split input.Name` without
touching the cache or running the fallback; so a provided value is stored whatever the
configuration source holds, a caller-scoped value is stored whatever the task-scoped and
bare keys hold, and a task-scoped value is stored whatever the bare key holds. -/
theorem directInputValues_nonPositional_precedence (p : Application) (taskDef : Task)
    (taskKey : Key) (args : List String) (provided : ProvidedInputs) (caller : List Key)
    (input : Input)
    (hpos : positionalOf args input.ArgumentIndex = .value none) :
    nullableValueOf p taskKey provided caller input
        = firstPresentOf (nonPositionalSourcesNonEmpty p taskKey provided caller input)
    ∧ (∀ v, firstPresentOf (nonPositionalSourcesNonEmpty p taskKey provided caller input)
          = .value (some v) →
        ∀ (run : Fallback) (values : Fields) (st : State),
          resolveInput p run taskDef taskKey args provided caller input values st
            = .ret (.ok (SetValueAtPath values (Split input.Name) (.str v))) st)
    ∧ (∀ v, provided input.Name = some v →
        ∀ (run : Fallback) (values : Fields) (st : State),
          resolveInput p run taskDef taskKey args provided caller input values st
            = .ret (.ok (SetValueAtPath values (Split input.Name) (.str v))) st)
    ∧ (∀ c cs v, caller = c :: cs → c.ShortString ≠ "" → provided input.Name = none →
        GetValueForConfigKey p.config (sprintfDot c.ShortString input.ShortName)
          = .value (some v) →
        ∀ (run : Fallback) (values : Fields) (st : State),
          resolveInput p run taskDef taskKey args provided caller input values st
            = .ret (.ok (SetValueAtPath values (Split input.Name) (.str v))) st)
    ∧ (∀ v, provided input.Name = none →
        firstPresentOf (callerScopedSourceNonEmpty p caller input) = .value none →
        consultsTaskScoped taskKey input = true →
        GetValueForConfigKey p.config (sprintfDot taskKey.ShortString input.ShortName)
          = .value (some v) →
        ∀ (run : Fallback) (values : Fields) (st : State),
          resolveInput p run taskDef taskKey args provided caller input values st
            = .ret (.ok (SetValueAtPath values (Split input.Name) (.str v))) st)
    ∧ (firstPresentOf (nonPositionalSourcesNonEmpty p taskKey provided caller input) = .fatal →
        ∀ (run : Fallback) (values : Fields) (st : State),
          resolveInput p run taskDef taskKey args provided caller input values st = .panic) := by
  have heq := nullableValueOf_eq_firstPresentOf_nonEmpty p taskKey provided caller input
  have hstore : ∀ v, nullableValueOf p taskKey provided caller input = .value (some v) →
      ∀ (run : Fallback) (values : Fields) (st : State),
        resolveInput p run taskDef taskKey args provided caller input values st
          = .ret (.ok (SetValueAtPath values (Split input.Name) (.str v))) st := by
    intro v hv run values st
    unfold resolveInput
    rw [hpos, hv]
  refine ⟨heq, fun v hv => hstore v (heq.trans hv), fun v hv => hstore v ?_,
    fun c cs v hc hne hprov hv => hstore v ?_, fun v hprov hcs hd hv => hstore v ?_,
    fun hf run values st => ?_⟩
  rotate_right
  · unfold resolveInput
    rw [hpos, heq, hf]
  · rw [heq]
    simp [nonPositionalSourcesNonEmpty, providedSource, firstPresentOf, hv]
  · rw [heq]
    subst hc
    simp [nonPositionalSourcesNonEmpty, providedSource, callerScopedSourceNonEmpty,
      firstPresentOf, hprov, hne, hv]
  · rw [heq]
    cases caller with
    | nil =>
        simp [nonPositionalSourcesNonEmpty, providedSource, callerScopedSourceNonEmpty,
          taskScopedSource, firstPresentOf, hprov, hd, hv]
    | cons c cs =>
        by_cases hne : c.ShortString = ""
        · simp [nonPositionalSourcesNonEmpty, providedSource, callerScopedSourceNonEmpty,
            taskScopedSource, firstPresentOf, hprov, hd, hv, hne]
        · have hc1 : GetValueForConfigKey p.config (sprintfDot c.ShortString input.ShortName)
              = .value none := by
            simpa [callerScopedSourceNonEmpty, hne, firstPresentOf_single] using hcs
          simp [nonPositionalSourcesNonEmpty, providedSource, callerScopedSourceNonEmpty,
            taskScopedSource, firstPresentOf, hprov, hd, hv, hne, hc1]

/-- Witness of C3 amended: called from `deploy` with nothing provided, the caller-scoped
value `C` is stored, ahead of the task-scoped `T` and the bare `B`. -/
theorem directInputValues_nonPositional_precedence_witness :
    positionalOf [] (none : Option Int) = .value none
    ∧ nullableValueOf (sampleApp threeLevelConfig [greetTaskNoIndex]) (.child "greet" (.root ""))
        NewProvidedInputs [.child "deploy" (.root "")] { Name := "name", ArgumentIndex := none }
      = .value (some "C")
    ∧ resolveInput (sampleApp threeLevelConfig [greetTaskNoIndex]) (fun _ _ _ => .panic)
        greetTaskNoIndex (.child "greet" (.root "")) [] NewProvidedInputs
        [.child "deploy" (.root "")] { Name := "name", ArgumentIndex := none } emptyFields initState
      = .ret (.ok (SetValueAtPath emptyFields (Split "name") (.str "C"))) initState :=
  ⟨rfl, by decide,
    (directInputValues_nonPositional_precedence (sampleApp threeLevelConfig [greetTaskNoIndex])
      greetTaskNoIndex (.child "greet" (.root "")) [] NewProvidedInputs
      [.child "deploy" (.root "")] { Name := "name", ArgumentIndex := none } rfl).2.1
      "C" (by decide) (fun _ _ _ => .panic) emptyFields initState⟩

/-- Counterexample to C4 as stated. For the task key `deploy.env` and the input `env`
the short name is a suffix of the key, yet the configuration at `deploy.env.env` is
consulted: its value `prod` is taken while nothing is stored at the bare `env`.  For the
task key `db` and the input `dbhost` the short name is not a suffix of the key, yet the
configuration at `db.dbhost` is skipped: its value `h` is not taken. -/
theorem directInputValues_taskScoped_suffix_counterexample :
    ((Input.ShortName { Name := "env", ArgumentIndex := none }).data
        <:+ (Key.child "deploy.env" (.root "")).ShortString.data
      ∧ GetValueForConfigKey (docConfig [] [("deploy.env", [("env", "prod")])]) "env" = .value none
      ∧ nullableValueOf (sampleApp (docConfig [] [("deploy.env", [("env", "prod")])]) [])
          (.child "deploy.env" (.root "")) NewProvidedInputs [] { Name := "env", ArgumentIndex := none }
        = .value (some "prod"))
    ∧ (¬ (Input.ShortName { Name := "dbhost", ArgumentIndex := none }).data
          <:+ (Key.child "db" (.root "")).ShortString.data
      ∧ GetValueForConfigKey (docConfig [] [("db", [("dbhost", "h")])]) "db.dbhost"
          = .value (some "h")
      ∧ nullableValueOf (sampleApp (docConfig [] [("db", [("dbhost", "h")])]) [])
          (.child "db" (.root "")) NewProvidedInputs [] { Name := "dbhost", ArgumentIndex := none }
        = .value none) := by
  refine ⟨⟨?_, ?_, ?_⟩, ?_, ?_, ?_⟩ <;> decide

/-- C4, amended (rule d skip condition). For an input with no provided value and no
caller-scoped configuration value, the configuration at `<key>.<short name>` is consulted
if and only if `key.ShortString()` does not occur in `input.ShortName()` (the test
`strings.LastIndex(input.ShortName(), key.ShortString()) == -1`): when it does not occur,
the value is the one at the task-scoped key, or else the one at the bare short name; when
it occurs, the value is the one at the bare short name, whatever the task-scoped key
holds. -/
theorem directInputValues_taskScoped_skip (p : Application) (taskKey : Key)
    (provided : ProvidedInputs) (caller : List Key) (input : Input)
    (hprov : provided input.Name = none)
    (hcaller : baseTaskKeyOf caller = ""
      ∨ GetValueForConfigKey p.config (sprintfDot (baseTaskKeyOf caller) input.ShortName)
          = .value none) :
    (consultsTaskScoped taskKey input = true
        ↔ ¬ taskKey.ShortString.data <:+: input.ShortName.data)
    ∧ (¬ taskKey.ShortString.data <:+: input.ShortName.data →
        nullableValueOf p taskKey provided caller input
          = match GetValueForConfigKey p.config (sprintfDot taskKey.ShortString input.ShortName) with
            | .fatal => .fatal
            | .value (some v) => .value (some v)
            | .value none => GetValueForConfigKey p.config input.ShortName)
    ∧ (taskKey.ShortString.data <:+: input.ShortName.data →
        nullableValueOf p taskKey provided caller input
          = GetValueForConfigKey p.config input.ShortName) := by
  have hr1 : (if provided input.Name = none ∧ baseTaskKeyOf caller ≠ "" then
        GetValueForConfigKey p.config (sprintfDot (baseTaskKeyOf caller) input.ShortName)
      else Fetched.value (provided input.Name)) = .value none := by
    rcases hcaller with h | h
    · simp [h, hprov]
    · simp [h, hprov]
  refine ⟨?_, ?_, ?_⟩
  · simp [consultsTaskScoped, LastIndex_eq_neg_one]
  · intro hno
    have hd : LastIndex input.ShortName taskKey.ShortString = -1 :=
      (LastIndex_eq_neg_one _ _).mpr hno
    unfold nullableValueOf
    simp only [hr1, hd, and_self, if_true]
    cases GetValueForConfigKey p.config (sprintfDot taskKey.ShortString input.ShortName) with
    | fatal => rfl
    | value v2 => cases v2 <;> simp
  · intro hin
    have hd : ¬ LastIndex input.ShortName taskKey.ShortString = -1 := by
      rw [LastIndex_eq_neg_one]
      exact not_not.mpr hin
    unfold nullableValueOf
    simp [hr1, hd]

/-- Witness of C4 amended: the key `db` occurs in the short name `dbhost`, so the value
`h` held at `db.dbhost` is skipped and the bare key decides. -/
theorem directInputValues_taskScoped_skip_witness :
    NewProvidedInputs "dbhost" = none
    ∧ baseTaskKeyOf [] = ""
    ∧ (Key.child "db" (.root "")).ShortString.data
        <:+: (Input.ShortName { Name := "dbhost", ArgumentIndex := none }).data
    ∧ nullableValueOf (sampleApp (docConfig [] [("db", [("dbhost", "h")])]) [])
        (.child "db" (.root "")) NewProvidedInputs [] { Name := "dbhost", ArgumentIndex := none }
      = GetValueForConfigKey (docConfig [] [("db", [("dbhost", "h")])])
          (Input.ShortName { Name := "dbhost", ArgumentIndex := none }) :=
  ⟨rfl, rfl, by decide,
    (directInputValues_taskScoped_skip (sampleApp (docConfig [] [("db", [("dbhost", "h")])]) [])
      (.child "db" (.root "")) NewProvidedInputs [] { Name := "dbhost", ArgumentIndex := none }
      rfl (Or.inl rfl)).2.2 (by decide)⟩

/-- C5 (memoization). For an input with no positional, provided or configuration value:
when the cache holds nothing at its path and the fallback task returns `out` without
error, the iteration calls the fallback once, stores `out` in `CachedTaskOutputs` at the
path and writes it into the values, and the cache then holds `out` at the path; when the
cache holds a value at the path, the iteration reads it and leaves the state untouched
for every fallback `run` (which is therefore not run); so two sibling inputs with the
same name cost one execution of the fallback. -/
theorem directInputValues_memoization (p : Application) (taskDef : Task) (taskKey : Key)
    (args : List String) (provided : ProvidedInputs) (caller : List Key) (input : Input)
    (hpos : positionalOf args input.ArgumentIndex = .value none)
    (hnv : nullableValueOf p taskKey provided caller input = .value none) :
    (∀ (run : Fallback) (values : Fields) (st st1 : State) (out : String),
      (GetValueAtPath st.CachedTaskOutputs (Split input.Name)).1 = .nil →
      run (p.FromResolvedInput input) [taskDef.GetKey] st = .ret (out, none) st1 →
      resolveInput p run taskDef taskKey args provided caller input values st
          = .ret (.ok (SetValueAtPath values (Split input.Name) (.str out)))
              { CachedTaskOutputs :=
                  SetValueAtPath st1.CachedTaskOutputs (Split input.Name) (.str out),
                trace := st1.trace }
        ∧ GetValueAtPath (SetValueAtPath st1.CachedTaskOutputs (Split input.Name) (.str out))
            (Split input.Name) = (.str out, none))
    ∧ (∀ (run : Fallback) (values : Fields) (st : State) (v : Value),
        GetValueAtPath st.CachedTaskOutputs (Split input.Name) = (v, none) → v ≠ .nil →
        resolveInput p run taskDef taskKey args provided caller input values st
          = .ret (.ok (SetValueAtPath values (Split input.Name) v)) st)
    ∧ (∀ (run : Fallback) (values : Fields) (st st1 : State) (out : String)
        (input2 : Input) (rest : List Input),
        input2.Name = input.Name →
        positionalOf args input2.ArgumentIndex = .value none →
        (GetValueAtPath st.CachedTaskOutputs (Split input.Name)).1 = .nil →
        run (p.FromResolvedInput input) [taskDef.GetKey] st = .ret (out, none) st1 →
        resolveInputs p run taskDef taskKey args provided caller (input :: input2 :: rest)
            values st
          = resolveInputs p run taskDef taskKey args provided caller rest
              (SetValueAtPath (SetValueAtPath values (Split input.Name) (.str out))
                (Split input.Name) (.str out))
              { CachedTaskOutputs :=
                  SetValueAtPath st1.CachedTaskOutputs (Split input.Name) (.str out),
                trace := st1.trace }) := by
  have hmiss : ∀ (run : Fallback) (values : Fields) (st st1 : State) (out : String),
      (GetValueAtPath st.CachedTaskOutputs (Split input.Name)).1 = .nil →
      run (p.FromResolvedInput input) [taskDef.GetKey] st = .ret (out, none) st1 →
      resolveInput p run taskDef taskKey args provided caller input values st
          = .ret (.ok (SetValueAtPath values (Split input.Name) (.str out)))
              { CachedTaskOutputs :=
                  SetValueAtPath st1.CachedTaskOutputs (Split input.Name) (.str out),
                trace := st1.trace } := by
    intro run values st st1 out hnil hrun
    unfold resolveInput
    rw [hpos, hnv]
    simp only
    rcases hget : GetValueAtPath st.CachedTaskOutputs (Split input.Name) with ⟨v, e⟩
    rw [hget] at hnil
    simp only at hnil
    subst hnil
    simp only [hrun]
  have hhit : ∀ (input2 : Input), input2.Name = input.Name →
      positionalOf args input2.ArgumentIndex = .value none →
      ∀ (run : Fallback) (values : Fields) (st : State) (v : Value),
        GetValueAtPath st.CachedTaskOutputs (Split input.Name) = (v, none) → v ≠ .nil →
        resolveInput p run taskDef taskKey args provided caller input2 values st
          = .ret (.ok (SetValueAtPath values (Split input.Name) v)) st := by
    intro input2 hname hpos2 run values st v hget hv
    have hnv2 : nullableValueOf p taskKey provided caller input2 = .value none := by
      have : nullableValueOf p taskKey provided caller input2
          = nullableValueOf p taskKey provided caller input := by
        simp [nullableValueOf, Input.ShortName, hname]
      rw [this, hnv]
    unfold resolveInput
    rw [hpos2, hnv2, hname]
    cases v with
    | nil => exact absurd rfl hv
    | str s => simp only [hget]
    | strs l => simp only [hget]
    | map m => simp only [hget]
  refine ⟨fun run values st st1 out hnil hrun =>
      ⟨hmiss run values st st1 out hnil hrun,
        getValueAtPath_setValueAtPath _ (Split_ne_nil _) _ _⟩,
    hhit input rfl hpos, ?_⟩
  intro run values st st1 out input2 rest hname hpos2 hnil hrun
  simp only [resolveInputs, hmiss run values st st1 out hnil hrun]
  rw [hhit input2 hname hpos2 run _ _ (.str out)
    (getValueAtPath_setValueAtPath _ (Split_ne_nil _) _ _) (by simp)]

/-- Witness of C5: resolving the two sibling inputs `name` of `greet` starts and runs
the fallback task `name` once; both inputs get its output `ran`, which ends up cached. -/
theorem directInputValues_memoization_witness :
    positionalOf [] (none : Option Int) = .value none
    ∧ nullableValueOf memoApp (.child "greet" (.root "")) NewProvidedInputs []
        { Name := "name", ArgumentIndex := none } = .value none
    ∧ (GetValueAtPath initState.CachedTaskOutputs (Split "name")).1 = .nil
    ∧ RunTaskForKey memoApp 1 (.child "name" (.root "")) [] NewProvidedInputs
          [.child "greet" (.root "")] initState
        = .ret ("ran", none)
            { CachedTaskOutputs := emptyFields,
              trace := [.started (.child "name" (.root "")), .ran (.child "name" (.root ""))] }
    ∧ resolveInputs memoApp (fun k c s => RunTaskForKey memoApp 1 k [] NewProvidedInputs c s)
          greetTwice (.child "greet" (.root "")) [] NewProvidedInputs []
          [{ Name := "name", ArgumentIndex := none }, { Name := "name", ArgumentIndex := none }]
          emptyFields initState
        = .ret (.ok (SetValueAtPath (SetValueAtPath emptyFields (Split "name") (.str "ran"))
              (Split "name") (.str "ran")))
            { CachedTaskOutputs := SetValueAtPath emptyFields (Split "name") (.str "ran"),
              trace := [.started (.child "name" (.root "")), .ran (.child "name" (.root ""))] } :=
  ⟨rfl, by decide, rfl, rfl,
    (directInputValues_memoization memoApp greetTwice (.child "greet" (.root "")) []
      NewProvidedInputs [] { Name := "name", ArgumentIndex := none } rfl (by decide)).2.2
      (fun k c s => RunTaskForKey memoApp 1 k [] NewProvidedInputs c s) emptyFields initState
      { CachedTaskOutputs := emptyFields,
        trace := [.started (.child "name" (.root "")), .ran (.child "name" (.root ""))] }
      "ran" { Name := "name", ArgumentIndex := none } [] rfl rfl rfl rfl⟩

/-- Counterexample to C6 as stated. The root task resolves `db.host` to `P`, its child
`web` resolves `db` to `C`.  The path `db.host` is resolved only by the ancestor (the
task's own values hold nothing there), and the inherited values hold `P` at it, yet the
merged values returned for `web` hold nothing at `db.host`: the task's own `db` stays. -/
theorem inheritedInputValues_merge_counterexample :
    DirectInputValuesForTaskKey conflictApp (fun _ _ _ => .panic) (.child "web" (.root "")) []
        (providedOf [("db", "C"), ("db.host", "P")]) [] initState
      = .ret (.ok (SetValueAtPath emptyFields ["db"] (.str "C"))) initState
    ∧ InheritedInputValuesForTaskKey conflictApp (fun _ _ _ => .panic) (.root "") []
        (providedOf [("db", "C"), ("db.host", "P")]) [] initState
      = .ret (.ok (SetValueAtPath emptyFields ["db", "host"] (.str "P"))) initState
    ∧ InheritedInputValuesForTaskKey conflictApp (fun _ _ _ => .panic) (.child "web" (.root "")) []
        (providedOf [("db", "C"), ("db.host", "P")]) [] initState
      = .ret (.ok (DeepMerge (SetValueAtPath emptyFields ["db"] (.str "C"))
          (SetValueAtPath emptyFields ["db", "host"] (.str "P")))) initState
    ∧ (GetValueAtPath (SetValueAtPath emptyFields ["db"] (.str "C")) ["db", "host"]).1 = .nil
    ∧ GetValueAtPath (SetValueAtPath emptyFields ["db", "host"] (.str "P")) ["db", "host"]
      = (.str "P", none)
    ∧ (GetValueAtPath (DeepMerge (SetValueAtPath emptyFields ["db"] (.str "C"))
          (SetValueAtPath emptyFields ["db", "host"] (.str "P"))) ["db", "host"]).1 = .nil
    ∧ GetValueAtPath (DeepMerge (SetValueAtPath emptyFields ["db"] (.str "C"))
          (SetValueAtPath emptyFields ["db", "host"] (.str "P"))) ["db"] = (.str "C", none) :=
  ⟨rfl, rfl, rfl, rfl, rfl, rfl, rfl⟩

/-- C6, amended (inheritance merge). For a key with a parent, when the task's direct
input values and the values inherited from the parent chain (resolved with an empty
argument list) are both obtained, `InheritedInputValuesForTaskKey` returns their deep
merge, in which (1) a path at which the task's own values hold nothing (no value at the
path itself, and no value other than a mapping on the way to it) holds what the
inherited values hold at it, (2) a string or list of strings that the task's own values
hold at a path stays, whatever the inherited values hold there, and a mapping that the
task's own values hold at a path stays as it is when the inherited values hold no mapping
there, so that a value an ancestor resolved at that very path does not appear, and (3)
where both hold a mapping at a path, the result holds the key-by-key merge of the two
mappings. -/
theorem inheritedInputValues_merge (p : Application) (run : Fallback) (short : String)
    (parentKey : Key) (args : List String) (provided : ProvidedInputs) (caller : List Key)
    (st st1 st2 : State) (direct inherited : Fields)
    (hdirect : DirectInputValuesForTaskKey p run (.child short parentKey) args provided caller st
      = .ret (.ok direct) st1)
    (hinherited : InheritedInputValuesForTaskKey p run parentKey [] provided caller st1
      = .ret (.ok inherited) st2) :
    InheritedInputValuesForTaskKey p run (.child short parentKey) args provided caller st
        = .ret (.ok (DeepMerge direct inherited)) st2
    ∧ (∀ path, GetValueAtPath direct path = (.nil, none) →
        (GetValueAtPath (DeepMerge direct inherited) path).1
          = (GetValueAtPath inherited path).1)
    ∧ (∀ path v, v.isScalar = true → GetValueAtPath direct path = (v, none) →
        GetValueAtPath (DeepMerge direct inherited) path = (v, none))
    ∧ (∀ path dm, GetValueAtPath direct path = (.map dm, none) →
        (∀ im, (GetValueAtPath inherited path).1 ≠ .map im) →
        GetValueAtPath (DeepMerge direct inherited) path = (.map dm, none))
    ∧ (∀ path dm im, GetValueAtPath direct path = (.map dm, none) →
        GetValueAtPath inherited path = (.map im, none) →
        GetValueAtPath (DeepMerge direct inherited) path
          = (.map (fun k => mergeUnder (dm k) (im k)), none)) := by
  refine ⟨?_, fun path h => deepMerge_inherited path direct inherited h,
    fun path v hv h => deepMerge_direct path direct inherited v hv h,
    fun path dm hd hi => deepMerge_direct_map path direct inherited dm hd hi,
    fun path dm im hd hi => deepMerge_nested path direct inherited dm im hd hi⟩
  rw [InheritedInputValuesForTaskKey, hdirect]
  simp only [hinherited]

/-- Witness of C6 amended: the root resolves `db.host` and `x` (to `P`, from the provided
inputs), the child `web` resolves `db.port` and `x` (to `C`, from its positional
argument); the merge holds the host of the root and the port of the child below `db`,
and the child's `C` at `x`. -/
theorem inheritedInputValues_merge_witness :
    InheritedInputValuesForTaskKey mergeApp (fun _ _ _ => .panic) (.child "web" (.root "")) ["C"]
        (providedOf [("db.host", "h"), ("db.port", "5432"), ("x", "P")]) [] initState
      = .ret (.ok (DeepMerge webDirect rootInherited)) initState
    ∧ GetValueAtPath (DeepMerge webDirect rootInherited) ["db", "host"] = (.str "h", none)
    ∧ GetValueAtPath (DeepMerge webDirect rootInherited) ["db", "port"] = (.str "5432", none)
    ∧ GetValueAtPath (DeepMerge webDirect rootInherited) ["x"] = (.str "C", none)
    ∧ GetValueAtPath rootInherited ["x"] = (.str "P", none) :=
  ⟨(inheritedInputValues_merge mergeApp (fun _ _ _ => .panic) "web" (.root "") ["C"]
      (providedOf [("db.host", "h"), ("db.port", "5432"), ("x", "P")]) []
      initState initState initState webDirect rootInherited rfl rfl).1,
    rfl, rfl, rfl, rfl⟩

/-- The ancestors of the requested key are resolved with the empty argument list: two argument lists that give the
inputs declared by the requested key's own task the same positional arguments (as any two
do when that task binds no input to a position) give the same result, whatever inputs the
ancestors bind to positions; once the key's own inputs are resolved, the result is the
merge with what the parent's resolution returns for the empty argument list; and an
ancestor's input bound to a position from 0 up to the largest but one `int` finds no
positional argument in the empty list, so it falls through to the other rules. -/
theorem inheritedInputValues_args_not_replayed (p : Application) (run : Fallback)
    (taskKey : Key) (args args2 : List String) (provided : ProvidedInputs) (caller : List Key)
    (st : State)
    (hown : ∀ taskDef, p.FindTask taskKey = .ok taskDef → ∀ input ∈ taskDef.ResolvedInputs,
      positionalOf args input.ArgumentIndex = positionalOf args2 input.ArgumentIndex) :
    InheritedInputValuesForTaskKey p run taskKey args provided caller st
        = InheritedInputValuesForTaskKey p run taskKey args2 provided caller st
    ∧ (∀ (short : String) (parentKey : Key) (direct : Fields) (st1 : State),
        taskKey = .child short parentKey →
        DirectInputValuesForTaskKey p run taskKey args provided caller st
          = .ret (.ok direct) st1 →
        InheritedInputValuesForTaskKey p run taskKey args provided caller st
          = match InheritedInputValuesForTaskKey p run parentKey [] provided caller st1 with
            | .panic => .panic
            | .diverge => .diverge
            | .ret (.error err) st2 =>
                .ret (.error (.annotate
                  ("AggregateInputsForParent(" ++ taskKey.ShortString ++ ") failed") err)) st2
            | .ret (.ok inherited) st2 => .ret (.ok (DeepMerge direct inherited)) st2)
    ∧ (∀ i : Int, 0 ≤ i → i < 9223372036854775807 → positionalOf [] (some i) = .value none) := by
  refine ⟨?_, ?_, positionalOf_nil⟩
  rotate_left
  · intro short parentKey direct st1 hkey hdirect
    subst hkey
    rw [InheritedInputValuesForTaskKey, hdirect]
  have hdirect : DirectInputValuesForTaskKey p run taskKey args provided caller st
      = DirectInputValuesForTaskKey p run taskKey args2 provided caller st := by
    unfold DirectInputValuesForTaskKey
    cases hfind : p.FindTask taskKey with
    | error err => rfl
    | ok taskDef =>
        exact resolveInputs_args_congr p run taskDef taskKey args args2 provided caller _
          (hown taskDef hfind) _ _
  cases taskKey with
  | root short => rw [InheritedInputValuesForTaskKey, InheritedInputValuesForTaskKey, hdirect]
  | child short parentKey =>
      rw [InheritedInputValuesForTaskKey, hdirect]
      conv => rhs; rw [InheritedInputValuesForTaskKey]

/-- Called with the argument `C`, the child `web` inherits for the root's input `x`, bound
to position 0, the provided `P` and not the argument `C`. -/
theorem inheritedInputValues_args_not_replayed_witness :
    InheritedInputValuesForTaskKey replayApp (fun _ _ _ => .panic) (.child "web" (.root "")) ["C"]
        (providedOf [("db.port", "5432"), ("x", "P")]) [] initState
      = InheritedInputValuesForTaskKey replayApp (fun _ _ _ => .panic) (.child "web" (.root "")) []
        (providedOf [("db.port", "5432"), ("x", "P")]) [] initState
    ∧ InheritedInputValuesForTaskKey replayApp (fun _ _ _ => .panic) (.child "web" (.root "")) ["C"]
        (providedOf [("db.port", "5432"), ("x", "P")]) [] initState
      = .ret (.ok (DeepMerge (SetValueAtPath emptyFields ["db", "port"] (.str "5432"))
          (SetValueAtPath emptyFields ["x"] (.str "P")))) initState
    ∧ GetValueAtPath (DeepMerge (SetValueAtPath emptyFields ["db", "port"] (.str "5432"))
          (SetValueAtPath emptyFields ["x"] (.str "P"))) ["x"] = (.str "P", none) :=
  ⟨(inheritedInputValues_args_not_replayed replayApp (fun _ _ _ => .panic)
      (.child "web" (.root "")) ["C"] [] (providedOf [("db.port", "5432"), ("x", "P")]) []
      initState
      (by
        intro taskDef hfind input hin
        have ht : taskDef = webTask := by
          have h2 : replayApp.FindTask (.child "web" (.root "")) = .ok webTask := rfl
          rw [h2] at hfind
          cases hfind
          rfl
        subst ht
        simp only [webTask, List.mem_singleton] at hin
        subst hin
        rfl)).1,
    rfl, rfl⟩

/-- C7, the code at the failing input. The root task binds its input `x` to the position
-1 and `P` is provided for `x`; its child `name` declares no input, so its own resolution
returns for every argument list.  The ancestor is resolved with the empty argument list,
for which the test `len(args) >= *i+1` holds and `args[*i]` panics (application.go
239-241): for every argument list `InheritedInputValuesForTaskKey` panics, and the
ancestor's input does not fall through to the provided value. -/
theorem inheritedInputValues_ancestor_negative_index :
    negIndexRootApp.FindTask (.root "") = .ok negIndexRootTask
    ∧ providedOf [("x", "P")] "x" = some "P"
    ∧ (∀ args, DirectInputValuesForTaskKey negIndexRootApp idleFallback
          (.child "name" (.root "")) args (providedOf [("x", "P")]) [] initState
        = .ret (.ok emptyFields) initState)
    ∧ positionalOf [] (some (-1)) = .fatal
    ∧ (∀ args, InheritedInputValuesForTaskKey negIndexRootApp idleFallback
          (.child "name" (.root "")) args (providedOf [("x", "P")]) [] initState
        = .panic) :=
  ⟨rfl, rfl, fun _ => rfl, rfl, fun _ => rfl⟩

/-- Counterexample to C8 as stated. The input `name` of `greet` has no positional
argument, no provided value, no configuration value at the task-scoped and bare keys
(there is no caller), nothing cached, and its fallback task `name` is not registered:
`DirectInputValuesForTaskKey` fails with the annotation naming `name`, yet
`RunTaskForKey` for `greet` returns the value `stub` configured at the task's own key,
with no error. -/
theorem runTaskForKey_missing_input_counterexample :
    positionalOf [] (none : Option Int) = .value none
    ∧ NewProvidedInputs "name" = none
    ∧ (∀ k ∈ configKeysOf (.child "greet" (.root "")) [] { Name := "name", ArgumentIndex := none },
        GetValueForConfigKey stubbedApp.config k = .value none)
    ∧ (GetValueAtPath initState.CachedTaskOutputs (Split "name")).1 = .nil
    ∧ RunTaskForKey stubbedApp 1 (.child "name" (.root "")) [] NewProvidedInputs
          [.child "greet" (.root "")] initState
        = .ret ("", some nameNotFound)
            { CachedTaskOutputs := emptyFields, trace := [.started (.child "name" (.root ""))] }
    ∧ DirectInputValuesForTaskKey stubbedApp
          (fun k c s => RunTaskForKey stubbedApp 1 k [] NewProvidedInputs c s)
          (.child "greet" (.root "")) [] NewProvidedInputs [] initState
        = .ret (.error (.annotate (missingValueMsg "name") nameNotFound))
            { CachedTaskOutputs := emptyFields, trace := [.started (.child "name" (.root ""))] }
    ∧ RunTaskForKey stubbedApp 2 (.child "greet" (.root "")) [] NewProvidedInputs [] initState
        = .ret ("stub", none)
            { CachedTaskOutputs := emptyFields, trace := [.started (.child "greet" (.root ""))] } :=
  ⟨rfl, rfl, by decide, rfl, rfl, rfl, rfl⟩

/-- C8, amended (missing-input failure). For a registered task with a declared input that
is reached (the inputs declared before it resolve), for which no positional argument
applies, nothing is provided, the lookups `GetValueForConfigKey` at the caller-scoped,
task-scoped and bare keys return no value (they do not panic), the cache holds nothing at
the input's path when the input is reached, and the run of the fallback task returns an
error: `DirectInputValuesForTaskKey` returns no values and the fallback's error under the
annotation naming `input.ShortName()`; and, when the lookup `GetValueForConfigKey` at the
task's own key path returns no value, `RunTaskForKey` returns that error, annotated, and
the state the failed fallback left behind, so the steps of the task are not run. -/
theorem runTaskForKey_missing_input (p : Application) (fuel : Nat) (taskKey : Key)
    (args : List String) (provided : ProvidedInputs) (caller : List Key) (taskDef : Task)
    (pre post : List Input) (input : Input) (values1 : Fields) (st st1 st2 : State)
    (out : String) (err : Err)
    (hfind : p.FindTask taskKey = .ok taskDef)
    (hinputs : taskDef.ResolvedInputs = pre ++ input :: post)
    (hpre : resolveInputs p (fun k c s => RunTaskForKey p fuel k [] NewProvidedInputs c s)
        taskDef taskKey args provided caller pre emptyFields (st.log (.started taskKey))
      = .ret (.ok values1) st1)
    (hpos : positionalOf args input.ArgumentIndex = .value none)
    (hprov : provided input.Name = none)
    (hcfg : ∀ k ∈ configKeysOf taskKey caller input,
      GetValueForConfigKey p.config k = .value none)
    (hcache : (GetValueAtPath st1.CachedTaskOutputs (Split input.Name)).1 = .nil)
    (hrun : RunTaskForKey p fuel (p.FromResolvedInput input) [] NewProvidedInputs
        [taskDef.GetKey] st1 = .ret (out, some err) st2)
    (hown : GetValueForConfigKey p.config taskKey.ShortString = .value none) :
    DirectInputValuesForTaskKey p (fun k c s => RunTaskForKey p fuel k [] NewProvidedInputs c s)
        taskKey args provided caller (st.log (.started taskKey))
      = .ret (.error (.annotate (missingValueMsg input.ShortName) err)) st2
    ∧ RunTaskForKey p (fuel + 1) taskKey args provided caller st
      = .ret ("", some (.annotate ("app failed running task " ++ taskKey.ShortString)
          (.annotate ("One or more inputs for task " ++ taskKey.ShortString ++ " failed")
            (.annotate (missingValueMsg input.ShortName) err)))) st2 := by
  have hdirect := directInputValues_missing p
    (fun k c s => RunTaskForKey p fuel k [] NewProvidedInputs c s) taskDef taskKey args provided
    caller pre post input values1 (st.log (.started taskKey)) st1 st2 out err hfind hinputs hpre
    hpos (nullableValueOf_none p taskKey provided caller input hprov hcfg) hcache hrun
  refine ⟨hdirect, ?_⟩
  rw [RunTaskForKey]
  simp only [hown, hfind]
  rw [InheritedInputValuesForTaskKey, hdirect]

/-- Witness of C8 amended: with nothing configured, `RunTaskForKey` for `greet` fails on
its input `name`, and only the starts of `greet` and of the fallback are traced. -/
theorem runTaskForKey_missing_input_witness :
    RunTaskForKey missingApp 2 (.child "greet" (.root "")) [] NewProvidedInputs [] initState
      = .ret ("", some (.annotate ("app failed running task " ++ "greet")
          (.annotate ("One or more inputs for task " ++ "greet" ++ " failed")
            (.annotate (missingValueMsg "name") nameNotFound))))
          { CachedTaskOutputs := emptyFields,
            trace := [.started (.child "greet" (.root "")), .started (.child "name" (.root ""))] } :=
  (runTaskForKey_missing_input missingApp 1 (.child "greet" (.root "")) [] NewProvidedInputs []
    greetTaskNoIndex [] [] { Name := "name", ArgumentIndex := none } emptyFields initState
    { CachedTaskOutputs := emptyFields, trace := [.started (.child "greet" (.root ""))] }
    { CachedTaskOutputs := emptyFields,
      trace := [.started (.child "greet" (.root "")), .started (.child "name" (.root ""))] }
    "" nameNotFound rfl rfl rfl rfl rfl (by decide) rfl rfl (by decide)).2

/-- C9, the code at the failing inputs. With nothing configured `GetValueForConfigKey`
panics on the path `日本語.x`.  On the path `café.port` it cuts the text at the byte offset
5 of the last delimiter, taken as a rune index: it looks for the leaf `ort` in the section
`café.` and returns no value, although the configuration source holds `5432` at the leaf
`port` of the section `café`; on the path `cafe.port` it returns the value held at the
leaf `port` of the section `cafe`. -/
theorem getValueForConfigKey_nonAscii_split :
    GetValueForConfigKey emptyConfig "日本語.x" = .fatal
    ∧ LastIndex "café.port" "." = 5
    ∧ String.mk ("café.port".data.take 5) = "café."
    ∧ String.mk ("café.port".data.drop (5 + 1)) = "ort"
    ∧ ((docConfig [] [("café", [("port", "5432")])]).Sub "café").map (fun sub => sub.Get "port")
        = some (some (.str "5432"))
    ∧ GetValueForConfigKey (docConfig [] [("café", [("port", "5432")])]) "café.port" = .value none
    ∧ GetValueForConfigKey (docConfig [] [("cafe", [("port", "5432")])]) "cafe.port"
        = .value (some "5432") := by
  refine ⟨?_, ?_, ?_, ?_, ?_, ?_, ?_⟩ <;> decide

/-- Counterexample to C10 as stated. The configuration source holds the empty string at
`flags.greet` and `hello` at `greet`: `GetValueForConfigKey` does not return the value
held at `flags.greet` but the one stored at `greet` itself. -/
theorem getValueForConfigKey_empty_flag_counterexample :
    (docConfig [("flags.greet", ""), ("greet", "hello")] []).Get "flags.greet" = some (.str "")
    ∧ (docConfig [("flags.greet", ""), ("greet", "hello")] []).GetString "flags.greet" = ""
    ∧ GetValueForConfigKey (docConfig [("flags.greet", ""), ("greet", "hello")] []) "greet"
        = .value (some "hello") := by
  refine ⟨?_, ?_, ?_⟩ <;> decide

/-- C10, amended (flag lookup first, then scalar lookup). If `GetString` at `flags.<k>`
yields a non-empty string, `GetValueForConfigKey(k)` returns it, whatever is stored at `k`
itself; otherwise (an empty flag value counts as absent), when `k` has no delimiter, it
returns the string stored at `k` if there is one (the empty string included), no value
when nothing is stored at `k`, and it fails fatally exactly when the stored value is
neither a string nor absent. -/
theorem getValueForConfigKey_flag_then_scalar (cfg : ConfigSource) (k : String) :
    (∀ v, cfg.GetString ("flags." ++ k) = v → v ≠ "" →
        GetValueForConfigKey cfg k = .value (some v))
    ∧ (cfg.GetString ("flags." ++ k) = "" → '.' ∉ k.data →
        (∀ s, cfg.Get k = some (.str s) → GetValueForConfigKey cfg k = .value (some s))
        ∧ (cfg.Get k = none → GetValueForConfigKey cfg k = .value none)
        ∧ (GetValueForConfigKey cfg k = .fatal ↔ ∃ t, cfg.Get k = some (.other t))) := by
  constructor
  · intro v hv hne
    subst hv
    simp [GetValueForConfigKey, hne]
  · intro hflag hdot
    have hlast : LastIndex k "." = -1 := (LastIndex_dot_eq_neg_one k).mpr hdot
    have hcode : GetValueForConfigKey cfg k
        = match cfg.Get k with
          | some (.str s) => .value (some s)
          | none => .value none
          | some (.other _) => .fatal := by
      simp [GetValueForConfigKey, hflag, hlast]
    refine ⟨?_, ?_, ?_⟩
    · intro s hs
      rw [hcode, hs]
    · intro hnone
      rw [hcode, hnone]
    · rw [hcode]
      cases hget : cfg.Get k with
      | none => simp
      | some r =>
          cases r with
          | str s => simp
          | other t => simp

/-- Witness of C10 amended: a flag value wins over the value stored at the key; without a
flag the empty string stored at a key is returned and differs from an absent value. -/
theorem getValueForConfigKey_flag_then_scalar_witness :
    GetValueForConfigKey (docConfig [("flags.greet", "F"), ("greet", "hello"), ("e", "")] [])
        "greet" = .value (some "F")
    ∧ GetValueForConfigKey (docConfig [("flags.greet", "F"), ("greet", "hello"), ("e", "")] [])
        "e" = .value (some "")
    ∧ GetValueForConfigKey (docConfig [("flags.greet", "F"), ("greet", "hello"), ("e", "")] [])
        "absent" = .value none :=
  ⟨(getValueForConfigKey_flag_then_scalar
      (docConfig [("flags.greet", "F"), ("greet", "hello"), ("e", "")] []) "greet").1 "F"
      (by decide) (by decide),
    ((getValueForConfigKey_flag_then_scalar
      (docConfig [("flags.greet", "F"), ("greet", "hello"), ("e", "")] []) "e").2
      (by decide) (by decide)).1 "" (by decide),
    ((getValueForConfigKey_flag_then_scalar
      (docConfig [("flags.greet", "F"), ("greet", "hello"), ("e", "")] []) "absent").2
      (by decide) (by decide)).2.1 (by decide)⟩

/-- The Generation-1 test of the code leaves no error exactly when Generation 1
accepts. -/
theorem v1Error_eq_none_iff (unmarshal : Unmarshal) :
    v1Error (unmarshal.asV1 v1Init) = none ↔ gen1Accepts unmarshal := by
  unfold v1Error gen1Accepts
  by_cases hn : (unmarshal.asV1 v1Init).1.Name = ""
  · by_cases ht : (unmarshal.asV1 v1Init).1.TaskConfigs = []
    · simp [hn, ht]
    · simp [hn, ht, List.length_eq_zero]
  · simp [hn]

/-- The Generation-2 test of the code leaves no error exactly when Generation 2
accepts. -/
theorem v2Error_eq_none_iff (unmarshal : Unmarshal) :
    v2Error (unmarshal.asV2 v2Init) = none ↔ gen2Accepts unmarshal := by
  unfold v2Error gen2Accepts
  by_cases ht : (unmarshal.asV2 v2Init).1.TaskConfigs = []
  · by_cases hs : (unmarshal.asV2 v2Init).1.Script = ""
    · by_cases hc : (unmarshal.asV2 v2Init).1.StepConfigs = []
      · simp [ht, hs, hc]
      · simp [ht, hs, hc, List.length_eq_zero]
    · simp [ht, hs]
  · simp [ht, List.length_eq_zero]

/-- Counterexample to C11 as stated. On the document `tasks: 5` Generation 1 and
Generation 2 reject and the generic map has a `tasks` key, yet the document is not
accepted as Generation 3: ingestion returns an error and leaves the task as it was. -/
theorem unmarshalYAML_tasks_key_counterexample :
    ¬ gen1Accepts tasksNumberDoc
    ∧ ¬ gen2Accepts tasksNumberDoc
    ∧ (tasksNumberDoc.asMap []).2 = none
    ∧ (∃ n, (tasksNumberDoc.asMap []).1.get "tasks" = .int n)
    ∧ UnmarshalYAML [scriptLoader] fieldDecode 3 TaskConfig.zero tasksNumberDoc
        = .done (TaskConfig.zero,
            some (.mk "Not a map[interface\x7b\x7d]interface\x7b\x7d: v3[tasks]")) := by
  refine ⟨?_, ?_, rfl, ⟨5, rfl⟩, rfl⟩
  · intro h
    exact absurd h.1 (by simp [tasksNumberDoc])
  · intro h
    exact absurd h.1 (by simp [tasksNumberDoc])

/-- C11, amended (generation sniffing order). `UnmarshalYAML` accepts a document as
Generation 1 exactly when the Generation-1 decode succeeds and `name` or the `tasks`
array is non-empty, and then takes name, description, inputs, children, script and
flags from that decode before it reads the steps; only when Generation 1 rejects does
it try Generation 2, accepted exactly when the Generation-2 decode succeeds and the
`tasks` mapping, `script` or `steps` is non-empty; only when Generation 2 rejects too
does it try Generation 3, accepted when the generic map decodes and holds under `tasks`
a mapping with string keys, whose transformation becomes the children; in every other
case ingestion returns a non-nil error and leaves the task as it was. -/
theorem unmarshalYAML_generation_order (stepLoaders : List StepLoader) (decode : LeafDecoder)
    (fuel : Nat) (t : TaskConfig) (unmarshal : Unmarshal) :
    (gen1Accepts unmarshal →
      UnmarshalYAML stepLoaders decode fuel t unmarshal
          = acceptV1 stepLoaders t (unmarshal.asV1 v1Init).1
        ∧ ∀ r e, UnmarshalYAML stepLoaders decode fuel t unmarshal = .done (r, e) →
            r.Name = (unmarshal.asV1 v1Init).1.Name
            ∧ r.Description = (unmarshal.asV1 v1Init).1.Description
            ∧ r.Inputs = (unmarshal.asV1 v1Init).1.Inputs
            ∧ r.TaskConfigs = (unmarshal.asV1 v1Init).1.TaskConfigs
            ∧ r.Script = (unmarshal.asV1 v1Init).1.Script
            ∧ r.Autoenv = (unmarshal.asV1 v1Init).1.Autoenv
            ∧ r.Autodir = (unmarshal.asV1 v1Init).1.Autodir
            ∧ r.Interactive = (unmarshal.asV1 v1Init).1.Interactive)
    ∧ (¬ gen1Accepts unmarshal → gen2Accepts unmarshal →
        UnmarshalYAML stepLoaders decode fuel t unmarshal
          = acceptV2 stepLoaders t (unmarshal.asV2 v2Init).1)
    ∧ (¬ gen1Accepts unmarshal → ¬ gen2Accepts unmarshal →
        ∀ tasks, gen3Tasks unmarshal = some tasks →
          UnmarshalYAML stepLoaders decode fuel t unmarshal
            = match TransformV3FlowConfigMapToArray decode fuel tasks with
              | .done children =>
                  .done ({ t with Autoenv := false, Autodir := false, Inputs := [],
                                  TaskConfigs := children }, none)
              | .panic => .panic
              | .outOfFuel => .outOfFuel)
    ∧ (¬ gen1Accepts unmarshal → ¬ gen2Accepts unmarshal → gen3Tasks unmarshal = none →
        ∃ err, UnmarshalYAML stepLoaders decode fuel t unmarshal = .done (t, some err)) := by
  refine ⟨?_, ?_, ?_, ?_⟩
  · intro h1
    have he : v1Error (unmarshal.asV1 v1Init) = none := (v1Error_eq_none_iff unmarshal).mpr h1
    have hu : UnmarshalYAML stepLoaders decode fuel t unmarshal
        = acceptV1 stepLoaders t (unmarshal.asV1 v1Init).1 := by
      simp only [UnmarshalYAML, he]
    refine ⟨hu, ?_⟩
    intro r e hr
    rw [hu] at hr
    unfold acceptV1 at hr
    simp only at hr
    split at hr
    · cases hr
      simp
    · cases hr
      simp
    · cases hr
    · cases hr
  · intro h1 h2
    have he1 : v1Error (unmarshal.asV1 v1Init) ≠ none :=
      fun h => h1 ((v1Error_eq_none_iff unmarshal).mp h)
    have he2 : v2Error (unmarshal.asV2 v2Init) = none := (v2Error_eq_none_iff unmarshal).mpr h2
    obtain ⟨e1, he1⟩ := Option.ne_none_iff_exists'.mp he1
    simp only [UnmarshalYAML, he1, he2]
  · intro h1 h2 tasks h3
    have he1 : v1Error (unmarshal.asV1 v1Init) ≠ none :=
      fun h => h1 ((v1Error_eq_none_iff unmarshal).mp h)
    have he2 : v2Error (unmarshal.asV2 v2Init) ≠ none :=
      fun h => h2 ((v2Error_eq_none_iff unmarshal).mp h)
    obtain ⟨e1, he1⟩ := Option.ne_none_iff_exists'.mp he1
    obtain ⟨e2, he2⟩ := Option.ne_none_iff_exists'.mp he2
    simp only [UnmarshalYAML, he1, he2, tryV3]
    unfold gen3Tasks at h3
    split at h3
    · rename_i rawTasks herr hget
      split at h3
      · rename_i tasks2 hcast
        cases h3
        simp only [herr, hget, hcast]
      · cases h3
    · cases h3
  · intro h1 h2 h3
    have he1 : v1Error (unmarshal.asV1 v1Init) ≠ none :=
      fun h => h1 ((v1Error_eq_none_iff unmarshal).mp h)
    have he2 : v2Error (unmarshal.asV2 v2Init) ≠ none :=
      fun h => h2 ((v2Error_eq_none_iff unmarshal).mp h)
    obtain ⟨e1, he1⟩ := Option.ne_none_iff_exists'.mp he1
    obtain ⟨e2, he2⟩ := Option.ne_none_iff_exists'.mp he2
    simp only [UnmarshalYAML, he1, he2, tryV3]
    unfold gen3Tasks at h3
    cases herr : (unmarshal.asMap []).2 with
    | some v3err => exact ⟨_, rfl⟩
    | none =>
        simp only [herr] at h3
        cases hget : (unmarshal.asMap []).1.get "tasks" with
        | null => exact ⟨_, rfl⟩
        | str x => exact ⟨_, rfl⟩
        | int x => exact ⟨_, rfl⟩
        | bool x => exact ⟨_, rfl⟩
        | list x => exact ⟨_, rfl⟩
        | map rawTasks =>
            simp only [hget] at h3
            cases hcast : CastKeysToStrings rawTasks with
            | error castErr =>
                simp only [hcast]
                exact ⟨_, rfl⟩
            | ok tasks => simp [hcast] at h3

/-- Witness of C11 amended: the document `name: build`, `script: make` is accepted as
Generation 1 and gets its one step; the document `description: only` is accepted by no
generation and ingestion returns an error. -/
theorem unmarshalYAML_generation_order_witness :
    gen1Accepts buildLeafDoc
    ∧ UnmarshalYAML [scriptLoader] fieldDecode 3 TaskConfig.zero buildLeafDoc
        = acceptV1 [scriptLoader] TaskConfig.zero (buildLeafDoc.asV1 v1Init).1
    ∧ acceptV1 [scriptLoader] TaskConfig.zero (buildLeafDoc.asV1 v1Init).1
        = .done ({ TaskConfig.zero with
                    Name := "build", Script := "make",
                    Steps := [some { Name := "script", Kind := "script", Body := "make" }] }, none)
    ∧ ¬ gen1Accepts descriptionOnlyDoc
    ∧ ¬ gen2Accepts descriptionOnlyDoc
    ∧ gen3Tasks descriptionOnlyDoc = none
    ∧ ∃ err, UnmarshalYAML [scriptLoader] fieldDecode 3 TaskConfig.zero descriptionOnlyDoc
        = .done (TaskConfig.zero, some err) :=
  have h1 : gen1Accepts buildLeafDoc := ⟨rfl, Or.inl (by decide)⟩
  have n1 : ¬ gen1Accepts descriptionOnlyDoc := fun h => h.2.elim (fun h => h rfl) (fun h => h rfl)
  have n2 : ¬ gen2Accepts descriptionOnlyDoc :=
    fun h => h.2.elim (fun h => h rfl) (fun h => h.elim (fun h => h rfl) (fun h => h rfl))
  ⟨h1,
    ((unmarshalYAML_generation_order [scriptLoader] fieldDecode 3 TaskConfig.zero
      buildLeafDoc).1 h1).1,
    rfl, n1, n2, rfl,
    (unmarshalYAML_generation_order [scriptLoader] fieldDecode 3 TaskConfig.zero
      descriptionOnlyDoc).2.2.2 n1 n2 rfl⟩

/-- C12, the code at the failing input. The document `tasks: {grp: {build: {script:
make}}}` that carries `script: make` and the step list `[{script: ls}]` at its top is
rejected by Generation 1 and Generation 2 and accepted as Generation 3: `UnmarshalYAML`
returns no error, and a task without script and without steps whose children are the
transformation of `tasks`; `readStepsFromStepConfigs`, which the Generation-1 and
Generation-2 branches call and which rejects this script with this step list, is not
called. -/
theorem unmarshalYAML_ambiguous_generation3 :
    (gen3AmbiguousDoc.asMap []).1.get "script" = .str "make"
    ∧ (gen3AmbiguousDoc.asMap []).1.get "steps" = .list [.map [(.str "script", .str "ls")]]
    ∧ ¬ gen1Accepts gen3AmbiguousDoc
    ∧ ¬ gen2Accepts gen3AmbiguousDoc
    ∧ readStepsFromStepConfigs [scriptLoader] "make" [some [(.str "script", .str "ls")]]
        = .done ([], some (.mk "both script and steps exist."))
    ∧ UnmarshalYAML [scriptLoader] fieldDecode 3 TaskConfig.zero gen3AmbiguousDoc
        = .done ({ TaskConfig.zero with
                    TaskConfigs :=
                      [{ v3Prepared "grp" with
                          TaskConfigs := [{ v3Prepared "build" with Script := "make" }] }] },
                  none) := by
  refine ⟨rfl, rfl, ?_, ?_, rfl, rfl⟩
  · intro h
    exact absurd h.1 (by simp [gen3AmbiguousDoc])
  · intro h
    exact absurd h.1 (by simp [gen3AmbiguousDoc])

/-- Reading the key just written on a raw map yields the value written. -/
theorem rawMap_get_set (m : RawMap) (k : String) (v : Dyn) : (m.set k v).get k = v := by
  induction m with
  | nil => simp [RawMap.set, RawMap.get, Dyn.isKey]
  | cons e rest ih =>
      obtain ⟨k', v'⟩ := e
      by_cases h : k'.isKey k = true
      · simp only [RawMap.set, h, if_true, RawMap.get]
        simp [Dyn.isKey]
      · simp only [RawMap.set, h, if_false, RawMap.get, Bool.false_eq_true]
        exact ih

/-- The default name is written into a map where the name is missing or empty, and the
description is left as it is otherwise. -/
theorem withDefaultName_spec (i : Nat) (stepConfig : RawMap) :
    ∃ named, withDefaultName i (some stepConfig) = .done named
      ∧ (nameMissing stepConfig = true →
          named.get "name" = .str ("step-" ++ toString (i + 1)))
      ∧ (nameMissing stepConfig = false → named = stepConfig) := by
  by_cases h : nameMissing stepConfig = true
  · refine ⟨stepConfig.set "name" (.str ("step-" ++ toString (i + 1))), ?_, ?_, ?_⟩
    · simp only [withDefaultName, h, if_true]
    · intro _
      exact rawMap_get_set _ _ _
    · intro h2
      rw [h] at h2
      cases h2
  · simp only [Bool.not_eq_true] at h
    refine ⟨stepConfig, ?_, ?_, ?_⟩
    · simp [withDefaultName, h]
    · intro h2
      rw [h] at h2
      cases h2
    · intro _
      rfl

/-- The default name is written into maps alone: a description on which the write
returns is a map. -/
theorem withDefaultName_done (i : Nat) (c : Option RawMap) (named : RawMap)
    (h : withDefaultName i c = .done named) : ∃ m, c = some m := by
  cases c with
  | none => simp [withDefaultName] at h
  | some m => exact ⟨m, rfl⟩

/-- The loop over the step descriptions, through descriptions that are maps, convert and
load: it appends one step a description, in order, and goes on with the rest. -/
theorem readStepConfigsLoop_prefix (stepLoaders : List StepLoader)
    (pre : List (Option RawMap)) :
    ∀ (i : Nat) (result : List (Option Step)),
      (∀ j c, pre[j]? = some c →
        ∃ named converted s, withDefaultName (i + j) c = .done named
          ∧ CastKeysToStrings named = .ok converted
          ∧ LoadStep stepLoaders (NewStepConfig converted) = (s, none)) →
      ∃ steps, steps.length = pre.length
        ∧ (∀ post, readStepConfigsLoop stepLoaders i (pre ++ post) result
            = readStepConfigsLoop stepLoaders (i + pre.length) post (result ++ steps))
        ∧ ∀ j c, pre[j]? = some c →
            ∃ named converted, withDefaultName (i + j) c = .done named
              ∧ CastKeysToStrings named = .ok converted
              ∧ steps[j]? = some (LoadStep stepLoaders (NewStepConfig converted)).1 := by
  induction pre with
  | nil =>
      intro i result _
      exact ⟨[], rfl, by simp, by simp⟩
  | cons c0 rest ih =>
      intro i result h
      obtain ⟨named0, converted0, s0, hn0, hc0, hl0⟩ := h 0 c0 (by simp)
      simp only [Nat.add_zero] at hn0
      have hrest : ∀ j c, rest[j]? = some c →
          ∃ named converted s, withDefaultName (i + 1 + j) c = .done named
            ∧ CastKeysToStrings named = .ok converted
            ∧ LoadStep stepLoaders (NewStepConfig converted) = (s, none) := by
        intro j c hj
        have := h (j + 1) c (by simpa using hj)
        have hidx : i + (j + 1) = i + 1 + j := by omega
        rw [hidx] at this
        exact this
      obtain ⟨steps, hlen, hrun, hsteps⟩ := ih (i + 1) (result ++ [s0]) hrest
      refine ⟨s0 :: steps, by simp [hlen], ?_, ?_⟩
      · intro post
        have hidx : i + (c0 :: rest).length = i + 1 + rest.length := by
          simp only [List.length_cons]
          omega
        have hpost := hrun post
        simp only [List.append_assoc, List.singleton_append] at hpost
        simp only [List.cons_append, readStepConfigsLoop, hn0, hc0, hl0, hidx]
        exact hpost
      · intro j c hj
        cases j with
        | zero =>
            simp only [List.getElem?_cons_zero, Option.some.injEq] at hj
            subst hj
            refine ⟨named0, converted0, by simpa using hn0, hc0, ?_⟩
            simp [hl0]
        | succ j =>
            have hj2 : rest[j]? = some c := by simpa using hj
            obtain ⟨named, converted, hn, hc, hs⟩ := hsteps j c hj2
            have hidx : i + (j + 1) = i + 1 + j := by omega
            refine ⟨named, converted, by rw [hidx]; exact hn, hc, ?_⟩
            simpa using hs

/-- C13, counterexample: the script `make` comes with no step description, yet
`readStepsFromStepConfigs` returns no step: the one registered loader rejects the
description `{name: script, script: make}` and the call panics (config.go 231-233).
With an empty script, the nil map as the one step description makes the call panic too
(config.go 241), though nothing was to be loaded. -/
theorem readStepsFromStepConfigs_load_failure_counterexample :
    LoadStep [taskLoader] (scriptStepConfig "make")
        = (none, some (.annotate "all loader failed to load step" (.mk "not a task step")))
    ∧ readStepsFromStepConfigs [taskLoader] "make" [] = .panic
    ∧ readStepsFromStepConfigs [scriptLoader] "" [none] = .panic :=
  ⟨rfl, rfl, rfl⟩

/-- C13, amended (shared step-reading rule). For `readStepsFromStepConfigs(script,
stepConfigs)`: (a) with a non-empty script and no step description, the result is the one
step loaded from the description `{name: script, script: <script>}` when that load
returns no error, and the call panics when it returns an error; (b) with an empty script,
when every description is a map (not the nil map) whose keys convert to strings and every
load returns no error, the result has the length and order of `stepConfigs` and its i-th
element is the step loaded from the i-th description, which carries the name `step-<i+1>`
when its name is missing or empty and is unchanged otherwise; at the first description
that is not so, the call panics when it is the nil map or has a key that is not a string,
and returns an error and no steps when its load returns an error; (c) with a non-empty
script and a non-empty list the result is an error and no steps; (d) with an empty script
and an empty list the result is the empty list and no error. -/
theorem readStepsFromStepConfigs_rule (stepLoaders : List StepLoader) (script : String)
    (stepConfigs : List (Option RawMap)) :
    (script ≠ "" → stepConfigs = [] →
      (∀ s, LoadStep stepLoaders (scriptStepConfig script) = (s, none) →
        readStepsFromStepConfigs stepLoaders script stepConfigs = .done ([s], none))
      ∧ (∀ s e, LoadStep stepLoaders (scriptStepConfig script) = (s, some e) →
        readStepsFromStepConfigs stepLoaders script stepConfigs = .panic))
    ∧ (script = "" →
        (∀ i c, stepConfigs[i]? = some c →
          ∃ named converted s, withDefaultName i c = .done named
            ∧ CastKeysToStrings named = .ok converted
            ∧ LoadStep stepLoaders (NewStepConfig converted) = (s, none)) →
        ∃ steps, readStepsFromStepConfigs stepLoaders script stepConfigs = .done (steps, none)
          ∧ steps.length = stepConfigs.length
          ∧ ∀ i c, stepConfigs[i]? = some c →
              ∃ m named converted, c = some m ∧ withDefaultName i c = .done named
                ∧ CastKeysToStrings named = .ok converted
                ∧ steps[i]? = some (LoadStep stepLoaders (NewStepConfig converted)).1
                ∧ (nameMissing m = true →
                    named.get "name" = .str ("step-" ++ toString (i + 1)))
                ∧ (nameMissing m = false → named = m))
    ∧ (script = "" → ∀ pre c post, stepConfigs = pre ++ c :: post →
        (∀ i c1, pre[i]? = some c1 →
          ∃ named converted s, withDefaultName i c1 = .done named
            ∧ CastKeysToStrings named = .ok converted
            ∧ LoadStep stepLoaders (NewStepConfig converted) = (s, none)) →
        (c = none → readStepsFromStepConfigs stepLoaders script stepConfigs = .panic)
        ∧ (∀ named e, withDefaultName pre.length c = .done named →
            CastKeysToStrings named = .error e →
            readStepsFromStepConfigs stepLoaders script stepConfigs = .panic)
        ∧ (∀ named converted s e, withDefaultName pre.length c = .done named →
            CastKeysToStrings named = .ok converted →
            LoadStep stepLoaders (NewStepConfig converted) = (s, some e) →
            readStepsFromStepConfigs stepLoaders script stepConfigs
              = .done ([], some (.annotate "Error reading step[%!d(MISSING)]" e))))
    ∧ (script ≠ "" → stepConfigs ≠ [] →
        readStepsFromStepConfigs stepLoaders script stepConfigs
          = .done ([], some (.mk "both script and steps exist.")))
    ∧ (script = "" → stepConfigs = [] →
        readStepsFromStepConfigs stepLoaders script stepConfigs = .done ([], none)) := by
  refine ⟨?_, ?_, ?_, ?_, ?_⟩
  · intro hs hc
    subst hc
    constructor
    · intro s hl
      simp [readStepsFromStepConfigs, hs, hl]
    · intro s e hl
      simp [readStepsFromStepConfigs, hs, hl]
  · intro hs hall
    have hall2 : ∀ j c, stepConfigs[j]? = some c →
        ∃ named converted s, withDefaultName (0 + j) c = .done named
          ∧ CastKeysToStrings named = .ok converted
          ∧ LoadStep stepLoaders (NewStepConfig converted) = (s, none) := by
      intro j c hj
      simpa using hall j c hj
    obtain ⟨steps, hlen, hrun, hsteps⟩ :=
      readStepConfigsLoop_prefix stepLoaders stepConfigs 0 [] hall2
    refine ⟨steps, ?_, hlen, ?_⟩
    · have h := hrun []
      simp only [List.append_nil, List.nil_append, readStepConfigsLoop] at h
      simp only [readStepsFromStepConfigs, hs, ne_eq, not_true_eq_false, if_false]
      exact h
    · intro i c hi
      obtain ⟨named, converted, hn, hc, hst⟩ := hsteps i c hi
      simp only [Nat.zero_add] at hn
      obtain ⟨m, hm⟩ := withDefaultName_done i c named hn
      subst hm
      obtain ⟨named2, hn2, hmiss, hkeep⟩ := withDefaultName_spec i m
      rw [hn] at hn2
      simp only [Ingest.done.injEq] at hn2
      subst hn2
      exact ⟨m, named, converted, rfl, hn, hc, hst, hmiss, hkeep⟩
  · intro hs pre c post hsplit hpre
    have hpre2 : ∀ j c1, pre[j]? = some c1 →
        ∃ named converted s, withDefaultName (0 + j) c1 = .done named
          ∧ CastKeysToStrings named = .ok converted
          ∧ LoadStep stepLoaders (NewStepConfig converted) = (s, none) := by
      intro j c1 hj
      simpa using hpre j c1 hj
    obtain ⟨steps, _, hrun, _⟩ := readStepConfigsLoop_prefix stepLoaders pre 0 [] hpre2
    have hcode : readStepsFromStepConfigs stepLoaders script stepConfigs
        = readStepConfigsLoop stepLoaders pre.length (c :: post) steps := by
      have h := hrun (c :: post)
      simp only [List.nil_append, Nat.zero_add] at h
      simp only [readStepsFromStepConfigs, hs, ne_eq, not_true_eq_false, if_false, hsplit]
      exact h
    refine ⟨?_, ?_, ?_⟩
    · intro hnil
      subst hnil
      rw [hcode]
      simp only [readStepConfigsLoop, withDefaultName]
    · intro named e hn hc
      rw [hcode]
      simp only [readStepConfigsLoop, hn, hc]
    · intro named converted s0 e hn hc hl
      rw [hcode]
      simp only [readStepConfigsLoop, hn, hc, hl]
  · intro hs hc
    have hlen : stepConfigs.length > 0 := List.length_pos.mpr hc
    simp [readStepsFromStepConfigs, hs, hlen]
  · intro hs hc
    subst hc
    simp [readStepsFromStepConfigs, hs, readStepConfigsLoop]

/-- Witness of C13 amended: with the script loader registered, the script `make` alone
gives its one step; the descriptions `{script: ls}` and `{name: x, script: pwd}` give the
steps `step-1` and `x` in that order; the script `make` with these descriptions is an
error; a nil map after the description `{script: ls}` makes the call panic. -/
theorem readStepsFromStepConfigs_rule_witness :
    readStepsFromStepConfigs [scriptLoader] "make" []
      = .done ([some { Name := "script", Kind := "script", Body := "make" }], none)
    ∧ (∃ steps, readStepsFromStepConfigs [scriptLoader] "" twoStepConfigs = .done (steps, none)
        ∧ steps.length = twoStepConfigs.length
        ∧ ∀ i c, twoStepConfigs[i]? = some c →
            ∃ m named converted, c = some m ∧ withDefaultName i c = .done named
              ∧ CastKeysToStrings named = .ok converted
              ∧ steps[i]? = some (LoadStep [scriptLoader] (NewStepConfig converted)).1
              ∧ (nameMissing m = true →
                  named.get "name" = .str ("step-" ++ toString (i + 1)))
              ∧ (nameMissing m = false → named = m))
    ∧ readStepsFromStepConfigs [scriptLoader] "" twoStepConfigs
        = .done ([some { Name := "step-1", Kind := "script", Body := "ls" },
                  some { Name := "x", Kind := "script", Body := "pwd" }], none)
    ∧ readStepsFromStepConfigs [scriptLoader] "make" twoStepConfigs
        = .done ([], some (.mk "both script and steps exist."))
    ∧ readStepsFromStepConfigs [scriptLoader] ""
        [some [(.str "script", .str "ls")], none] = .panic :=
  ⟨((readStepsFromStepConfigs_rule [scriptLoader] "make" []).1 (by decide) rfl).1 _ rfl,
    (readStepsFromStepConfigs_rule [scriptLoader] "" twoStepConfigs).2.1 rfl
      (by
        intro i c h
        rcases i with _ | _ | i
        · simp only [twoStepConfigs, List.getElem?_cons_zero, Option.some.injEq] at h
          subst h
          exact ⟨_, _, _, rfl, rfl, rfl⟩
        · simp only [twoStepConfigs, List.getElem?_cons_succ, List.getElem?_cons_zero,
            Option.some.injEq] at h
          subst h
          exact ⟨_, _, _, rfl, rfl, rfl⟩
        · simp [twoStepConfigs] at h),
    rfl,
    (readStepsFromStepConfigs_rule [scriptLoader] "make" twoStepConfigs).2.2.2.1 (by decide)
      (by simp [twoStepConfigs]),
    ((readStepsFromStepConfigs_rule [scriptLoader] ""
        [some [(.str "script", .str "ls")], none]).2.2.1 rfl
      [some [(.str "script", .str "ls")]] none [] rfl
      (by
        intro i c h
        rcases i with _ | i
        · simp only [List.getElem?_cons_zero, Option.some.injEq] at h
          subst h
          exact ⟨_, _, _, rfl, rfl, rfl⟩
        · simp at h)).1 rfl⟩

/-- The loop of `LoadStep` stops at the first loader that returns no error. -/
theorem loadStepLoop_first_success (config : StepConfig) (pre post : List StepLoader)
    (l : StepLoader) (hpre : ∀ x ∈ pre, (x config).2 ≠ none) (hl : (l config).2 = none)
    (lastError : Option Err) :
    loadStepLoop config (pre ++ l :: post) lastError = ((l config).1, none) := by
  induction pre generalizing lastError with
  | nil =>
      rcases hlc : l config with ⟨s, e⟩
      rw [hlc] at hl
      simp only at hl
      subst hl
      simp [loadStepLoop, hlc]
  | cons x pre ih =>
      rcases hxc : x config with ⟨s, e⟩
      have hx := hpre x (List.mem_cons_self _ _)
      rw [hxc] at hx
      cases e with
      | none => exact absurd rfl hx
      | some err =>
          simp only [List.cons_append, loadStepLoop, hxc]
          exact ih (fun y hy => hpre y (List.mem_cons_of_mem _ hy)) _

/-- A list with a loader that succeeds splits at the first such loader. -/
theorem exists_first_success (config : StepConfig) (stepLoaders : List StepLoader)
    (h : ∃ l ∈ stepLoaders, (l config).2 = none) :
    ∃ pre l post, stepLoaders = pre ++ l :: post ∧ (∀ x ∈ pre, (x config).2 ≠ none)
      ∧ (l config).2 = none := by
  induction stepLoaders with
  | nil =>
      obtain ⟨l, hl, _⟩ := h
      cases hl
  | cons x rest ih =>
      by_cases hx : (x config).2 = none
      · exact ⟨[], x, rest, rfl, by simp, hx⟩
      · have hrest : ∃ l ∈ rest, (l config).2 = none := by
          obtain ⟨l, hl, hs⟩ := h
          rcases List.mem_cons.mp hl with heq | hin
          · subst heq
            exact absurd hs hx
          · exact ⟨l, hin, hs⟩
        obtain ⟨pre, l, post, heq, hpre, hl⟩ := ih hrest
        refine ⟨x :: pre, l, post, by simp [heq], ?_, hl⟩
        intro y hy
        rcases List.mem_cons.mp hy with h1 | h1
        · subst h1
          exact hx
        · exact hpre y h1

/-- Registering loaders one after the other from the initial registry gives the list of
the loaders in the order of their registration. -/
theorem foldl_Register (ls : List StepLoader) : ls.foldl Register initStepLoaders = ls := by
  have h : ∀ (acc : List StepLoader), ls.foldl Register acc = acc ++ ls := by
    induction ls with
    | nil => intro acc; simp
    | cons l rest ih =>
        intro acc
        simp [List.foldl, Register, ih]
  simpa [initStepLoaders] using h []

/-- C14 (first successful loader wins). When the registry splits into loaders that all
fail on the description, a loader that succeeds and any loaders after it, `LoadStep`
returns the step of that loader with no error, whatever the loaders after it are;
whenever some registered loader succeeds there is such a split; `Register` appends, and
registering loaders in sequence gives the registry in that order. -/
theorem loadStep_first_success (stepLoaders : List StepLoader) (config : StepConfig) :
    (∀ pre l post, stepLoaders = pre ++ l :: post → (∀ x ∈ pre, (x config).2 ≠ none) →
        (l config).2 = none →
        LoadStep stepLoaders config = ((l config).1, none)
        ∧ ∀ post2, LoadStep (pre ++ l :: post2) config = LoadStep stepLoaders config)
    ∧ ((∃ l ∈ stepLoaders, (l config).2 = none) →
        ∃ pre l post, stepLoaders = pre ++ l :: post ∧ (∀ x ∈ pre, (x config).2 ≠ none)
          ∧ (l config).2 = none ∧ LoadStep stepLoaders config = ((l config).1, none))
    ∧ (∀ l, Register stepLoaders l = stepLoaders ++ [l])
    ∧ (∀ ls : List StepLoader, ls.foldl Register initStepLoaders = ls) := by
  refine ⟨?_, ?_, fun _ => rfl, foldl_Register⟩
  · intro pre l post heq hpre hl
    subst heq
    refine ⟨loadStepLoop_first_success config pre post l hpre hl none, ?_⟩
    intro post2
    unfold LoadStep
    rw [loadStepLoop_first_success config pre post l hpre hl none,
      loadStepLoop_first_success config pre post2 l hpre hl none]
  · intro h
    obtain ⟨pre, l, post, heq, hpre, hl⟩ := exists_first_success config stepLoaders h
    refine ⟨pre, l, post, heq, hpre, hl, ?_⟩
    subst heq
    exact loadStepLoop_first_success config pre post l hpre hl none

/-- Witness of C14: with the task loader registered before the script loader, a script
description is rejected by the first and loaded by the second. -/
theorem loadStep_first_success_witness :
    [taskLoader, scriptLoader].foldl Register initStepLoaders = [taskLoader, scriptLoader]
    ∧ (taskLoader (scriptStepConfig "make")).2 ≠ none
    ∧ LoadStep ([taskLoader] ++ scriptLoader :: [taskLoader]) (scriptStepConfig "make")
        = ((scriptLoader (scriptStepConfig "make")).1, none)
    ∧ (scriptLoader (scriptStepConfig "make")).1
        = some { Name := "script", Kind := "script", Body := "make" } :=
  ⟨(loadStep_first_success [] (scriptStepConfig "make")).2.2.2 [taskLoader, scriptLoader],
    by decide,
    ((loadStep_first_success ([taskLoader] ++ scriptLoader :: [taskLoader])
      (scriptStepConfig "make")).1 [taskLoader] scriptLoader [taskLoader] rfl
      (by
        intro x hx
        simp only [List.mem_singleton] at hx
        subst hx
        decide)
      rfl).1,
    rfl⟩

/-- A non-empty registry whose loaders all fail returns the annotated error of the last
loader and no step. -/
theorem loadStepLoop_all_fail (config : StepConfig) (pre : List StepLoader) (l : StepLoader)
    (hpre : ∀ x ∈ pre, (x config).2 ≠ none) (e : Err) (hl : (l config).2 = some e)
    (lastError : Option Err) :
    loadStepLoop config (pre ++ [l]) lastError
      = (none, some (.annotate "all loader failed to load step" e)) := by
  induction pre generalizing lastError with
  | nil =>
      rcases hlc : l config with ⟨s, e2⟩
      rw [hlc] at hl
      simp only at hl
      subst hl
      simp [loadStepLoop, hlc, Annotatef]
  | cons x pre ih =>
      rcases hxc : x config with ⟨s, e2⟩
      have hx := hpre x (List.mem_cons_self _ _)
      rw [hxc] at hx
      cases e2 with
      | none => exact absurd rfl hx
      | some err =>
          simp only [List.cons_append, loadStepLoop, hxc]
          exact ih (fun y hy => hpre y (List.mem_cons_of_mem _ hy)) _

/-- C15, the code at the failing input. In the registry with no loader registered no
loader succeeds, and `LoadStep` returns a nil step and a nil error for every step
description: the annotation of the nil `lastError` is nil. -/
theorem loadStep_no_loader (config : StepConfig) :
    (∀ l ∈ initStepLoaders, (l config).2 ≠ none)
    ∧ LoadStep initStepLoaders config = (none, none) :=
  ⟨fun _ h => (by cases h), rfl⟩

/-- C16, the code at the failing input. The task tree `grp` / `build`, where `build` is
a leaf given by the script `make`, ingests from its Generation-1 document to a tree in
which `build` has the one step made of its script, and from its Generation-3 document to
a tree with children of the same names in which `build` has the script and no step:
the Generation-3 transformation reads no steps. -/
theorem unmarshalYAML_generation1_generation3_steps :
    UnmarshalYAML [scriptLoader] fieldDecode 3 TaskConfig.zero appDocG1
      = .done ({ TaskConfig.zero with
                  Name := "app"
                  TaskConfigs :=
                    [{ TaskConfig.zero with
                        Name := "grp"
                        TaskConfigs :=
                          [{ TaskConfig.zero with
                              Name := "build"
                              Script := "make"
                              Steps := [some { Name := "script", Kind := "script", Body := "make" }] }] }] },
                none)
    ∧ UnmarshalYAML [scriptLoader] fieldDecode 3 TaskConfig.zero appDocG3
      = .done ({ TaskConfig.zero with
                  TaskConfigs :=
                    [{ TaskConfig.zero with
                        Name := "grp"
                        TaskConfigs :=
                          [{ TaskConfig.zero with
                              Name := "build"
                              Script := "make"
                              Steps := [] }] }] },
                none)
    ∧ firstGrandchildSteps (UnmarshalYAML [scriptLoader] fieldDecode 3 TaskConfig.zero appDocG1)
      = some 1
    ∧ firstGrandchildSteps (UnmarshalYAML [scriptLoader] fieldDecode 3 TaskConfig.zero appDocG3)
      = some 0 :=
  ⟨rfl, rfl, rfl, rfl⟩

/-- The key normalisation keeps the values, hence their depths. -/
theorem castKeysToStrings_depth (i2i : RawMap) :
    ∀ s2i, CastKeysToStrings i2i = .ok s2i → StrMap.depth s2i = Dyn.depth.go i2i := by
  induction i2i with
  | nil =>
      intro s2i h
      simp only [CastKeysToStrings, Except.ok.injEq] at h
      subst h
      rfl
  | cons e rest ih =>
      intro s2i h
      obtain ⟨k, v⟩ := e
      cases k with
      | str ks =>
          simp only [CastKeysToStrings] at h
          cases hc : CastKeysToStrings rest with
          | ok m =>
              rw [hc] at h
              simp only [Except.ok.injEq] at h
              subst h
              simp [StrMap.depth, Dyn.depth.go, ih m hc]
          | error err =>
              rw [hc] at h
              cases h
      | null => simp [CastKeysToStrings] at h
      | int n => simp [CastKeysToStrings] at h
      | bool b => simp [CastKeysToStrings] at h
      | list l => simp [CastKeysToStrings] at h
      | map m => simp [CastKeysToStrings] at h

/-- What the loop of the Generation-3 transformation returns is a result in the sense of
the specification, when the recursive call returns such results. -/
theorem transformV3Loop_sound (decode : LeafDecoder) (recur : StrMap → Ingest (List TaskConfig))
    (hrec : ∀ s ts, recur s = .done ts → V3Result decode s ts) :
    ∀ m ts, transformV3Loop decode recur m = .done ts → V3Result decode m ts := by
  intro m
  induction m with
  | nil =>
      intro ts h
      simp only [transformV3Loop, Ingest.done.injEq] at h
      subst h
      exact V3Result.nil
  | cons e rest ih =>
      intro ts h
      obtain ⟨k, v⟩ := e
      cases v with
      | map i2i =>
          simp only [transformV3Loop] at h
          cases hc : CastKeysToStrings i2i with
          | error err =>
              rw [hc] at h
              cases h
          | ok s2i =>
              rw [hc] at h
              simp only at h
              cases hl : transformV3Loop decode recur rest with
              | panic =>
                  rw [hl] at h
                  split at h <;> cases h
              | outOfFuel =>
                  rw [hl] at h
                  split at h <;> cases h
              | done ts2 =>
                  rw [hl] at h
                  have hrest := ih ts2 hl
                  by_cases hs : s2i.get "script" = .null
                  · rw [hs] at h
                    simp only at h
                    cases hr : recur s2i with
                    | panic =>
                        rw [hr] at h
                        cases h
                    | outOfFuel =>
                        rw [hr] at h
                        cases h
                    | done children =>
                        rw [hr] at h
                        simp only [Ingest.done.injEq] at h
                        subst h
                        exact V3Result.group k i2i s2i children rest ts2 hc hs
                          (hrec s2i children hr) hrest
                  · cases hd : decode s2i (v3Prepared k) with
                    | error err =>
                        rw [hd] at h
                        split at h
                        · rename_i heq
                          split at heq
                          · rename_i hnull
                            exact absurd hnull hs
                          · cases heq
                        · cases h
                        · cases h
                    | ok t =>
                        rw [hd] at h
                        split at h
                        · rename_i t2 heq
                          split at heq
                          · rename_i hnull
                            exact absurd hnull hs
                          · simp only [Ingest.done.injEq] at heq h
                            subst heq
                            subst h
                            exact V3Result.leaf k i2i s2i t rest ts2 hc hs hd hrest
                        · cases h
                        · cases h
      | null => simp [transformV3Loop] at h
      | str x => simp [transformV3Loop] at h
      | int x => simp [transformV3Loop] at h
      | bool x => simp [transformV3Loop] at h
      | list x => simp [transformV3Loop] at h

/-- What the Generation-3 transformation returns is a result in the sense of the
specification. -/
theorem transformV3_sound (decode : LeafDecoder) :
    ∀ fuel m ts, TransformV3FlowConfigMapToArray decode fuel m = .done ts →
      V3Result decode m ts := by
  intro fuel
  induction fuel with
  | zero =>
      intro m ts h
      simp [TransformV3FlowConfigMapToArray] at h
  | succ fuel ih =>
      intro m ts h
      rw [TransformV3FlowConfigMapToArray] at h
      exact transformV3Loop_sound decode _ (fun s ts2 hs => ih s ts2 hs) m ts h

/-- A result in the sense of the specification is what the loop returns, when the
recursive call returns the results of the maps not deeper than `n`. -/
theorem transformV3Loop_complete (decode : LeafDecoder)
    (recur : StrMap → Ingest (List TaskConfig)) (n : Nat)
    (hrec : ∀ s cs, V3Result decode s cs → StrMap.depth s < n → recur s = .done cs) :
    ∀ m ts, V3Result decode m ts → StrMap.depth m ≤ n →
      transformV3Loop decode recur m = .done ts := by
  intro m ts h
  induction h with
  | nil =>
      intro _
      rfl
  | group k i2i s2i children rest ts hc hs hch hrest _ ihrest =>
      intro hd
      have hd1 : 1 + Dyn.depth.go i2i ≤ n ∧ StrMap.depth rest ≤ n := by
        simpa [StrMap.depth, Dyn.depth] using hd
      have hlt : StrMap.depth s2i < n := by
        rw [castKeysToStrings_depth i2i s2i hc]
        omega
      simp only [transformV3Loop, hc, hs, hrec s2i children hch hlt, ihrest hd1.2]
  | leaf k i2i s2i t rest ts hc hs hdec hrest ihrest =>
      intro hd
      have hd1 : 1 + Dyn.depth.go i2i ≤ n ∧ StrMap.depth rest ≤ n := by
        simpa [StrMap.depth, Dyn.depth] using hd
      cases hv : s2i.get "script" with
      | null => exact absurd hv hs
      | str x => simp only [transformV3Loop, hc, hv, hdec, ihrest hd1.2]
      | int x => simp only [transformV3Loop, hc, hv, hdec, ihrest hd1.2]
      | bool x => simp only [transformV3Loop, hc, hv, hdec, ihrest hd1.2]
      | list x => simp only [transformV3Loop, hc, hv, hdec, ihrest hd1.2]
      | map x => simp only [transformV3Loop, hc, hv, hdec, ihrest hd1.2]

/-- A result in the sense of the specification is what the Generation-3 transformation
returns, with a bound above the depth of the map. -/
theorem transformV3_complete (decode : LeafDecoder) :
    ∀ fuel m ts, V3Result decode m ts → StrMap.depth m < fuel →
      TransformV3FlowConfigMapToArray decode fuel m = .done ts := by
  intro fuel
  induction fuel with
  | zero =>
      intro m ts _ hd
      omega
  | succ fuel ih =>
      intro m ts h hd
      rw [TransformV3FlowConfigMapToArray]
      exact transformV3Loop_complete decode _ fuel (fun s cs hs hlt => ih s cs hs hlt) m ts h
        (by omega)

/-- The loop does not run out of its bound when the recursive call does not on the maps
not deeper than `n`. -/
theorem transformV3Loop_fuel (decode : LeafDecoder)
    (recur : StrMap → Ingest (List TaskConfig)) (n : Nat)
    (hrec : ∀ s, StrMap.depth s < n → recur s ≠ .outOfFuel) :
    ∀ m, StrMap.depth m ≤ n → transformV3Loop decode recur m ≠ .outOfFuel := by
  intro m
  induction m with
  | nil =>
      intro _ h
      simp [transformV3Loop] at h
  | cons e rest ih =>
      intro hd
      obtain ⟨k, v⟩ := e
      cases v with
      | map i2i =>
          have hd1 : 1 + Dyn.depth.go i2i ≤ n ∧ StrMap.depth rest ≤ n := by
            simpa [StrMap.depth, Dyn.depth] using hd
          have hrest := ih hd1.2
          cases hc : CastKeysToStrings i2i with
          | error err => simp [transformV3Loop, hc]
          | ok s2i =>
              have hlt : StrMap.depth s2i < n := by
                rw [castKeysToStrings_depth i2i s2i hc]
                omega
              have hrec2 := hrec s2i hlt
              cases hl : transformV3Loop decode recur rest with
              | outOfFuel => exact absurd hl hrest
              | panic =>
                  cases hv : s2i.get "script" <;> cases hr : recur s2i <;>
                    cases hdec : decode s2i (v3Prepared k) <;>
                    first
                      | exact absurd hr hrec2
                      | simp [transformV3Loop, hc, hl, hv, hr, hdec]
              | done ts2 =>
                  cases hv : s2i.get "script" <;> cases hr : recur s2i <;>
                    cases hdec : decode s2i (v3Prepared k) <;>
                    first
                      | exact absurd hr hrec2
                      | simp [transformV3Loop, hc, hl, hv, hr, hdec]
      | null => simp [transformV3Loop]
      | str x => simp [transformV3Loop]
      | int x => simp [transformV3Loop]
      | bool x => simp [transformV3Loop]
      | list x => simp [transformV3Loop]

/-- The Generation-3 transformation does not run out of a bound above the depth of the
map. -/
theorem transformV3_fuel (decode : LeafDecoder) :
    ∀ fuel m, StrMap.depth m < fuel →
      TransformV3FlowConfigMapToArray decode fuel m ≠ .outOfFuel := by
  intro fuel
  induction fuel with
  | zero =>
      intro m hd
      omega
  | succ fuel ih =>
      intro m hd
      rw [TransformV3FlowConfigMapToArray]
      exact transformV3Loop_fuel decode _ fuel (fun s hlt => ih s hlt) m (by omega)

/-- A result in the sense of the specification has one task an entry. -/
theorem v3Result_length (decode : LeafDecoder) (m : StrMap) (ts : List TaskConfig)
    (h : V3Result decode m ts) : ts.length = m.length := by
  induction h with
  | nil => rfl
  | group k i2i s2i children rest ts _ _ _ _ _ ih => simp [ih]
  | leaf k i2i s2i t rest ts _ _ _ _ ih => simp [ih]

/-- In a result in the sense of the specification every task is named after the key of
its entry, for a decoder that leaves the name of the task where the map carries no key
reading `name`, on a map whose leaf entries carry no such key. -/
theorem v3Result_names (decode : LeafDecoder)
    (hdec : ∀ s t t1, decode s t = .ok t1 → carriesName s = false → t1.Name = t.Name)
    (m : StrMap) (ts : List TaskConfig) (h : V3Result decode m ts) :
    (∀ e ∈ m, ∀ i2i s2i, e.2 = Dyn.map i2i → CastKeysToStrings i2i = .ok s2i →
        s2i.get "script" ≠ .null → carriesName s2i = false) →
    ts.map (fun t => t.Name) = m.map (fun e => e.1) := by
  induction h with
  | nil =>
      intro _
      rfl
  | group k i2i s2i children rest ts _ _ _ _ _ ih =>
      intro hleaf
      have hrest := ih (fun e he => hleaf e (List.mem_cons_of_mem _ he))
      simp only [List.map_cons, hrest]
      rfl
  | leaf k i2i s2i t rest ts hc hs hd _ ih =>
      intro hleaf
      have hrest := ih (fun e he => hleaf e (List.mem_cons_of_mem _ he))
      have hname : t.Name = k :=
        hdec s2i (v3Prepared k) t hd
          (hleaf (k, .map i2i) (List.mem_cons_self _ _) i2i s2i rfl hc hs)
      simp only [List.map_cons, hrest, hname]

/-- C17, counterexample: every entry of the map `grp: {build: make}` is map-valued, yet
the Generation-3 transformation returns no task list on it: the entry `grp` has no
`script`, so the transformation recurses into its map, where the value of `build` is a
string, and it panics (config.go 280-284); no bound makes it return.  And the one entry
of the map `build: {script: make, name: other}` is map-valued and has a `script`, yet with
a decoder that fills `Name` from `name` the task returned for it is named `other`, not
after the key `build`: the decoder writes over the task prepared with the key (config.go
276, 298). -/
theorem transformV3_nested_scalar_counterexample :
    (∀ e ∈ grpScalarTasks, ∃ i2i, e.2 = Dyn.map i2i) ∧
    TransformV3FlowConfigMapToArray fieldDecode 3 grpScalarTasks = .panic ∧
    (∀ fuel ts, TransformV3FlowConfigMapToArray fieldDecode fuel grpScalarTasks ≠ .done ts) ∧
    (∀ e ∈ renamedLeafTasks, ∃ i2i, e.2 = Dyn.map i2i) ∧
    TransformV3FlowConfigMapToArray namedFieldDecode 2 renamedLeafTasks
      = .done [{ v3Prepared "build" with Name := "other", Script := "make" }] ∧
    renamedLeafTasks.map (fun e => e.1) = ["build"] := by
  refine ⟨?_, rfl, ?_, ?_, rfl, rfl⟩
  · intro e he
    simp only [grpScalarTasks, List.mem_singleton] at he
    subst he
    exact ⟨_, rfl⟩
  · intro fuel ts h
    match fuel, h with
    | 0, h => cases h
    | 1, h => cases h
    | fuel + 2, h => cases h
  · intro e he
    simp only [renamedLeafTasks, List.mem_singleton] at he
    subst he
    exact ⟨_, rfl⟩

/-- C17, amended: for every string-keyed map `m` and structural decoder, (1) a task list
the Generation-3 transformation returns is the result the specification words: one task
an entry, in order, an entry whose map has no `script` a group named after its key with
the transformation of its own map as children, an entry whose map has a `script` the task
the decoder makes of its map and of a task named after its key, without recursion; (2)
every such result is returned, with any bound above the depth of the map, so the
transformation returns a task list exactly when every entry met on the way is a map with
string keys and every leaf decodes, and nothing but the presence of `script` decides
between leaf and group; (3) the recursion ends: a bound above the depth of the map is
never exhausted; (4) a result has one task an entry; (5) every task of a result is named
after the key of its entry, when the decoder writes the name only from a key reading
`name` and no leaf entry of the map carries such a key. -/
theorem transformV3_leaf_group (decode : LeafDecoder) (m : StrMap) :
    (∀ fuel ts, TransformV3FlowConfigMapToArray decode fuel m = .done ts →
      V3Result decode m ts) ∧
    (∀ fuel ts, StrMap.depth m < fuel → V3Result decode m ts →
      TransformV3FlowConfigMapToArray decode fuel m = .done ts) ∧
    (∀ fuel, StrMap.depth m < fuel →
      TransformV3FlowConfigMapToArray decode fuel m ≠ .outOfFuel) ∧
    (∀ ts, V3Result decode m ts → ts.length = m.length) ∧
    ((∀ s t t1, decode s t = .ok t1 → carriesName s = false → t1.Name = t.Name) →
      (∀ e ∈ m, ∀ i2i s2i, e.2 = Dyn.map i2i → CastKeysToStrings i2i = .ok s2i →
        s2i.get "script" ≠ .null → carriesName s2i = false) →
      ∀ fuel ts, TransformV3FlowConfigMapToArray decode fuel m = .done ts →
        ts.map (fun t => t.Name) = m.map (fun e => e.1)) :=
  ⟨fun fuel ts h => transformV3_sound decode fuel m ts h,
   fun fuel ts hd h => transformV3_complete decode fuel m ts h hd,
   fun fuel hd => transformV3_fuel decode fuel m hd,
   fun ts h => v3Result_length decode m ts h,
   fun hdec hleaf fuel ts h =>
     v3Result_names decode hdec m ts (transformV3_sound decode fuel m ts h) hleaf⟩

/-- The decoder `fieldDecode` leaves the name of the task as it is. -/
theorem fieldDecode_name (s : StrMap) (t t1 : TaskConfig) (h : fieldDecode s t = .ok t1) :
    t1.Name = t.Name := by
  unfold fieldDecode at h
  split at h
  · split at h <;> (simp only [Except.ok.injEq] at h; subst h; rfl)
  · cases h

/-- C17, witness: on `grp: {build: {script: make}}` the transformation returns one group
`grp` whose one child is the leaf `build` with the script `make`, this is a result in
the sense of the specification, and its one task is named after the key `grp`. -/
theorem transformV3_leaf_group_witness :
    TransformV3FlowConfigMapToArray fieldDecode 3 grpBuildStrTasks =
      .done [{ v3Prepared "grp" with
                TaskConfigs := [{ v3Prepared "build" with Script := "make" }] }] ∧
    V3Result fieldDecode grpBuildStrTasks
      [{ v3Prepared "grp" with
          TaskConfigs := [{ v3Prepared "build" with Script := "make" }] }] ∧
    List.map (fun t => t.Name)
        [{ v3Prepared "grp" with
            TaskConfigs := [{ v3Prepared "build" with Script := "make" }] }]
      = grpBuildStrTasks.map (fun e => e.1) :=
  ⟨rfl, (transformV3_leaf_group fieldDecode grpBuildStrTasks).1 3 _ rfl,
    (transformV3_leaf_group fieldDecode grpBuildStrTasks).2.2.2.2
      (fun s t t1 h _ => fieldDecode_name s t t1 h)
      (by
        intro e he i2i s2i h1 h2 h3
        simp only [grpBuildStrTasks, List.mem_singleton] at he
        subst he
        simp only [Dyn.map.injEq] at h1
        subst h1
        simp only [CastKeysToStrings, Except.ok.injEq] at h2
        subst h2
        exact absurd rfl h3)
      3 _ rfl⟩

/-- C18, the code at the failing inputs: an input whose `ArgumentIndex` is a negative
Go `int` passes the test `len(args) >= *i+1` and the indexing `args[*i]` panics
(application.go 239-241), so `DirectInputValuesForTaskKey` panics for a task whose input,
reached after the inputs declared before it, has a negative index; the index does not
fall through to the later rules. -/
theorem directInputValues_negative_index (p : Application) (run : Fallback) (taskDef : Task)
    (taskKey : Key) (args : List String) (provided : ProvidedInputs) (caller : List Key)
    (pre post : List Input) (input : Input) (values1 : Fields) (st st1 : State) (i : Int)
    (hfind : p.FindTask taskKey = .ok taskDef)
    (hinputs : taskDef.ResolvedInputs = pre ++ input :: post)
    (hpre : resolveInputs p run taskDef taskKey args provided caller pre emptyFields st
      = .ret (.ok values1) st1)
    (hidx : input.ArgumentIndex = some i)
    (hlo : -9223372036854775808 ≤ i) (hneg : i < 0) :
    positionalOf args input.ArgumentIndex = .fatal
    ∧ DirectInputValuesForTaskKey p run taskKey args provided caller st = .panic := by
  have hpos : positionalOf args input.ArgumentIndex = .fatal := by
    have hlen : (args.length : Int) ≥ succInt64 i := by
      unfold succInt64
      omega
    have hn : ¬ (0 ≤ i) := by omega
    rw [hidx]
    simp only [positionalOf, hlen, hn, if_true, if_false]
  refine ⟨hpos, ?_⟩
  unfold DirectInputValuesForTaskKey
  rw [hfind]
  simp only [hinputs]
  rw [resolveInputs_append p run taskDef taskKey args provided caller pre (input :: post)
    emptyFields values1 st st1 hpre]
  simp only [resolveInputs, resolveInput, hpos]

/-- C18, at the failing input: the input `name` of `greet` is bound to the position -1;
with the empty argument list, and with the argument list `["a"]`, the call panics. -/
theorem directInputValues_negative_index_witness :
    DirectInputValuesForTaskKey negIndexApp idleFallback (.child "greet" (.root "")) []
        NewProvidedInputs [] initState = .panic
    ∧ DirectInputValuesForTaskKey negIndexApp idleFallback (.child "greet" (.root "")) ["a"]
        NewProvidedInputs [] initState = .panic :=
  ⟨(directInputValues_negative_index negIndexApp idleFallback negIndexTask
      (.child "greet" (.root "")) [] NewProvidedInputs [] [] []
      { Name := "name", ArgumentIndex := some (-1) } emptyFields initState initState (-1)
      rfl rfl rfl rfl (by decide) (by decide)).2,
   (directInputValues_negative_index negIndexApp idleFallback negIndexTask
      (.child "greet" (.root "")) ["a"] NewProvidedInputs [] [] []
      { Name := "name", ArgumentIndex := some (-1) } emptyFields initState initState (-1)
      rfl rfl rfl rfl (by decide) (by decide)).2⟩

/-- C19, the code at the failing inputs: the lookups of the provided inputs and of the
configuration source are made before the positional argument is looked at (application.go
244-264).  For an input whose positional argument is present, with nothing provided and no
value at the caller-scoped and task-scoped keys, a configuration source on which
`GetValueForConfigKey` fails fatally at the bare `input.ShortName()` makes
`DirectInputValuesForTaskKey` panic instead of returning the positional value. -/
theorem directInputValues_positional_config_panic (p : Application) (run : Fallback)
    (taskDef : Task) (taskKey : Key) (args : List String) (provided : ProvidedInputs)
    (caller : List Key) (pre post : List Input) (input : Input) (values1 : Fields)
    (st st1 : State) (a : String)
    (hfind : p.FindTask taskKey = .ok taskDef)
    (hinputs : taskDef.ResolvedInputs = pre ++ input :: post)
    (hpre : resolveInputs p run taskDef taskKey args provided caller pre emptyFields st
      = .ret (.ok values1) st1)
    (hpos : positionalOf args input.ArgumentIndex = .value (some a))
    (hprov : provided input.Name = none)
    (hcaller : ∀ c ∈ caller.head?,
      GetValueForConfigKey p.config (sprintfDot c.ShortString input.ShortName) = .value none)
    (htask : GetValueForConfigKey p.config (sprintfDot taskKey.ShortString input.ShortName)
      = .value none)
    (hbare : GetValueForConfigKey p.config input.ShortName = .fatal) :
    DirectInputValuesForTaskKey p run taskKey args provided caller st = .panic := by
  have hnv : nullableValueOf p taskKey provided caller input = .fatal := by
    unfold nullableValueOf
    cases caller with
    | nil => simp only [baseTaskKeyOf, hprov, htask, hbare, ne_eq, not_true_eq_false,
        and_false, if_false, ite_self, true_and, if_true]
    | cons c cs =>
        have h1 := hcaller c (by simp)
        simp only [baseTaskKeyOf, hprov, h1, htask, hbare, ite_self, true_and, if_true]
  unfold DirectInputValuesForTaskKey
  rw [hfind]
  simp only [hinputs]
  rw [resolveInputs_append p run taskDef taskKey args provided caller pre (input :: post)
    emptyFields values1 st st1 hpre]
  simp only [resolveInputs, resolveInput, hpos, hnv]

/-- C19, at the failing input: the argument `Bob` is present at the position 0 of the
input `name` of `greet`, the configuration source holds a section at the bare key `name`,
and the call panics. -/
theorem directInputValues_positional_config_panic_witness :
    positionalOf ["Bob"] (some 0) = .value (some "Bob")
    ∧ GetValueForConfigKey sectionAtNameConfig "name" = .fatal
    ∧ DirectInputValuesForTaskKey sectionApp idleFallback (.child "greet" (.root "")) ["Bob"]
        NewProvidedInputs [] initState = .panic :=
  ⟨rfl, rfl,
   directInputValues_positional_config_panic sectionApp idleFallback greetTask
      (.child "greet" (.root "")) ["Bob"] NewProvidedInputs [] [] []
      { Name := "name", ArgumentIndex := some 0 } emptyFields initState initState "Bob"
      rfl rfl rfl rfl rfl (by intro c hc; cases hc) rfl rfl⟩

/-- A direct resolution that returns values found the task in the registry. -/
theorem directInputValues_ok_find (p : Application) (run : Fallback) (taskKey : Key)
    (args : List String) (provided : ProvidedInputs) (caller : List Key) (st st1 : State)
    (v : Fields)
    (h : DirectInputValuesForTaskKey p run taskKey args provided caller st = .ret (.ok v) st1) :
    ∃ t, p.FindTask taskKey = .ok t := by
  unfold DirectInputValuesForTaskKey at h
  cases hf : p.FindTask taskKey with
  | ok t => exact ⟨t, rfl⟩
  | error e =>
      rw [hf] at h
      cases h

/-- An inherited resolution that returns values is a resolution of the key and of its
ancestors that goes through, and conversely. -/
theorem inheritedInputValues_ok_iff (p : Application) (run : Fallback)
    (provided : ProvidedInputs) (caller : List Key) :
    ∀ (taskKey : Key) (args : List String) (st st2 : State),
      (∃ v, InheritedInputValuesForTaskKey p run taskKey args provided caller st
          = .ret (.ok v) st2)
      ↔ ChainResolves p run provided caller taskKey args st st2 := by
  intro taskKey
  induction taskKey with
  | root short =>
      intro args st st2
      constructor
      · rintro ⟨v, h⟩
        rw [InheritedInputValuesForTaskKey] at h
        cases hd : DirectInputValuesForTaskKey p run (.root short) args provided caller st with
        | panic => rw [hd] at h; cases h
        | diverge => rw [hd] at h; cases h
        | ret r s0 =>
            cases r with
            | error e => rw [hd] at h; cases h
            | ok v0 =>
                rw [hd] at h
                simp only [Res.ret.injEq] at h
                obtain ⟨_, hs⟩ := h
                subst hs
                exact ChainResolves.root short args st s0 v0 hd
      · intro h
        cases h with
        | root _ _ _ _ direct hd =>
            refine ⟨direct, ?_⟩
            rw [InheritedInputValuesForTaskKey, hd]
  | child short parent ih =>
      intro args st st2
      constructor
      · rintro ⟨v, h⟩
        rw [InheritedInputValuesForTaskKey] at h
        cases hd : DirectInputValuesForTaskKey p run (.child short parent) args provided caller st with
        | panic => rw [hd] at h; cases h
        | diverge => rw [hd] at h; cases h
        | ret r s0 =>
            cases r with
            | error e => rw [hd] at h; cases h
            | ok v0 =>
                rw [hd] at h
                simp only at h
                cases hi : InheritedInputValuesForTaskKey p run parent [] provided caller s0 with
                | panic => rw [hi] at h; cases h
                | diverge => rw [hi] at h; cases h
                | ret r2 s2 =>
                    cases r2 with
                    | error e => rw [hi] at h; cases h
                    | ok v2 =>
                        rw [hi] at h
                        simp only [Res.ret.injEq] at h
                        obtain ⟨_, hs⟩ := h
                        subst hs
                        exact ChainResolves.child short parent args st s0 s2 v0 hd
                          ((ih [] s0 s2).1 ⟨v2, hi⟩)
      · intro h
        cases h with
        | child _ _ _ _ st1 _ direct hd hp =>
            obtain ⟨v2, hi⟩ := (ih [] st1 st2).2 hp
            refine ⟨DeepMerge direct v2, ?_⟩
            rw [InheritedInputValuesForTaskKey, hd]
            simp only [hi]

/-- An inherited resolution that returns an error is a resolution of the key and of its
ancestors that fails at one of them, with that error, and conversely. -/
theorem inheritedInputValues_error_iff (p : Application) (run : Fallback)
    (provided : ProvidedInputs) (caller : List Key) :
    ∀ (taskKey : Key) (args : List String) (st st2 : State) (err : Err),
      InheritedInputValuesForTaskKey p run taskKey args provided caller st
          = .ret (.error err) st2
      ↔ ∃ a, ChainFailsAt p run provided caller taskKey args st a err st2 := by
  intro taskKey
  induction taskKey with
  | root short =>
      intro args st st2 err
      constructor
      · intro h
        rw [InheritedInputValuesForTaskKey] at h
        cases hd : DirectInputValuesForTaskKey p run (.root short) args provided caller st with
        | panic => rw [hd] at h; cases h
        | diverge => rw [hd] at h; cases h
        | ret r s0 =>
            cases r with
            | ok v0 => rw [hd] at h; cases h
            | error e =>
                rw [hd] at h
                simp only [Res.ret.injEq, Except.error.injEq] at h
                obtain ⟨he, hs⟩ := h
                subst he
                subst hs
                exact ⟨.root short, ChainFailsAt.here (.root short) args st s0 e hd⟩
      · rintro ⟨a, h⟩
        cases h with
        | here _ _ _ _ e hd => rw [InheritedInputValuesForTaskKey, hd]
  | child short parent ih =>
      intro args st st2 err
      constructor
      · intro h
        rw [InheritedInputValuesForTaskKey] at h
        cases hd : DirectInputValuesForTaskKey p run (.child short parent) args provided caller st with
        | panic => rw [hd] at h; cases h
        | diverge => rw [hd] at h; cases h
        | ret r s0 =>
            cases r with
            | error e =>
                rw [hd] at h
                simp only [Res.ret.injEq, Except.error.injEq] at h
                obtain ⟨he, hs⟩ := h
                subst he
                subst hs
                exact ⟨.child short parent,
                  ChainFailsAt.here (.child short parent) args st s0 e hd⟩
            | ok v0 =>
                rw [hd] at h
                simp only at h
                cases hi : InheritedInputValuesForTaskKey p run parent [] provided caller s0 with
                | panic => rw [hi] at h; cases h
                | diverge => rw [hi] at h; cases h
                | ret r2 s2 =>
                    cases r2 with
                    | ok v2 => rw [hi] at h; cases h
                    | error e =>
                        rw [hi] at h
                        simp only [Res.ret.injEq, Except.error.injEq] at h
                        obtain ⟨he, hs⟩ := h
                        subst he
                        subst hs
                        obtain ⟨a, ha⟩ := (ih [] s0 s2 e).1 hi
                        exact ⟨a, ChainFailsAt.above short parent args st s0 s2 v0 a e hd ha⟩
      · rintro ⟨a, h⟩
        cases h with
        | here _ _ _ _ e hd => rw [InheritedInputValuesForTaskKey, hd]
        | above _ _ _ _ st1 _ direct _ e hd hp =>
            have hi := (ih [] st1 st2 e).2 ⟨a, hp⟩
            rw [InheritedInputValuesForTaskKey, hd]
            simp only [hi]

/-- A resolution of a key and of its ancestors that goes through found the key and every
ancestor of it in the registry. -/
theorem chainResolves_find (p : Application) (run : Fallback) (provided : ProvidedInputs)
    (caller : List Key) (taskKey : Key) (args : List String) (st st2 : State)
    (h : ChainResolves p run provided caller taskKey args st st2) :
    ∀ a ∈ taskKey :: ancestors taskKey, ∃ t, p.FindTask a = .ok t := by
  induction h with
  | root short args st st1 direct hd =>
      intro a ha
      simp only [ancestors, List.mem_singleton] at ha
      subst ha
      exact directInputValues_ok_find p run _ args provided caller st st1 direct hd
  | child short parent args st st1 st2 direct hd _ ih =>
      intro a ha
      simp only [ancestors, List.mem_cons] at ha
      rcases ha with ha | ha
      · subst ha
        exact directInputValues_ok_find p run _ args provided caller st st1 direct hd
      · exact ih a (List.mem_cons.2 ha)

/-- A resolution of a key and of its ancestors fails at the key or at an ancestor of
it. -/
theorem chainFailsAt_mem (p : Application) (run : Fallback) (provided : ProvidedInputs)
    (caller : List Key) (taskKey : Key) (args : List String) (st st2 : State) (a : Key)
    (err : Err) (h : ChainFailsAt p run provided caller taskKey args st a err st2) :
    a ∈ taskKey :: ancestors taskKey := by
  induction h with
  | here k args st st1 e _ => exact List.mem_cons_self _ _
  | above short parent args st st1 st2 direct a e _ _ ih =>
      simp only [ancestors]
      exact List.mem_cons_of_mem _ ih

/-- C20, counterexample: the configuration source has no value at the key path of
`grp.web`, the task `grp.web` is registered and its own inputs resolve (it declares none),
and no task is registered at the root key, an ancestor of `grp.web`; yet `RunTaskForKey`
returns no error: the nearer ancestor `grp` declares the input `name`, the configuration
source holds a section at the bare key `name`, and the resolution of `grp` panics before
the root key is looked up. -/
theorem runTaskForKey_ancestors_panic_counterexample :
    GetValueForConfigKey rootlessChainApp.config grpWebKey.ShortString = .value none
    ∧ rootlessChainApp.FindTask grpWebKey = .ok grpWebTask
    ∧ DirectInputValuesForTaskKey rootlessChainApp
          (fun k c s => RunTaskForKey rootlessChainApp 1 k [] NewProvidedInputs c s)
          grpWebKey [] NewProvidedInputs [] (initState.log (.started grpWebKey))
        = .ret (.ok emptyFields) (initState.log (.started grpWebKey))
    ∧ Key.root "" ∈ ancestors grpWebKey
    ∧ rootlessChainApp.FindTask (.root "") = .error rootNotFound
    ∧ RunTaskForKey rootlessChainApp 2 grpWebKey [] NewProvidedInputs [] initState = .panic
    ∧ (∀ fuel, RunTaskForKey rootlessChainApp (fuel + 1) grpWebKey [] NewProvidedInputs []
        initState = .panic) :=
  ⟨rfl, rfl, rfl, by decide, rfl, rfl, fun _ => rfl⟩

/-- C20, amended (ancestors are part of every run). For every task key with no
configuration override at its own key path (the lookup at it returns no value): (1)
`RunTaskForKey` returns without error only if the key and every ancestor key are present
in the registry and the resolution of the key and of its ancestors goes through: each
ancestor's declared inputs resolve, with the empty argument list, in the state the nearer
resolutions left; (2) when that resolution fails at a key reached, because the key is
absent from the registry or one of its declared inputs is unresolvable there,
`RunTaskForKey` returns the error of that key, annotated, with no output and in the state
the failed resolution left, so the steps of the task are not run; (3) whenever the
resolution of the requested key and of its ancestors returns, rather than panicking or not
ending, it either goes through or fails at a key reached, and with an ancestor absent from
the registry it fails and `RunTaskForKey` returns an error; (4) the direct resolution of a
key that is absent from the registry returns the error of the registry in every state. -/
theorem runTaskForKey_ancestors (p : Application) (fuel : Nat) (taskKey : Key)
    (args : List String) (providedInputs : ProvidedInputs) (caller : List Key) (st : State)
    (hown : GetValueForConfigKey p.config taskKey.ShortString = .value none) :
    (∀ out st1, RunTaskForKey p (fuel + 1) taskKey args providedInputs caller st
        = .ret (out, none) st1 →
      (∀ a ∈ taskKey :: ancestors taskKey, ∃ t, p.FindTask a = .ok t)
      ∧ ∃ st2, ChainResolves p (fun k c s => RunTaskForKey p fuel k [] NewProvidedInputs c s)
          providedInputs caller taskKey args (st.log (.started taskKey)) st2)
    ∧ (∀ taskDef a err st2, p.FindTask taskKey = .ok taskDef →
        ChainFailsAt p (fun k c s => RunTaskForKey p fuel k [] NewProvidedInputs c s)
          providedInputs caller taskKey args (st.log (.started taskKey)) a err st2 →
        a ∈ taskKey :: ancestors taskKey
        ∧ RunTaskForKey p (fuel + 1) taskKey args providedInputs caller st
          = .ret ("", some (.annotate ("app failed running task " ++ taskKey.ShortString) err))
              st2)
    ∧ (∀ taskDef r st2, p.FindTask taskKey = .ok taskDef →
        InheritedInputValuesForTaskKey p
            (fun k c s => RunTaskForKey p fuel k [] NewProvidedInputs c s)
            taskKey args providedInputs caller (st.log (.started taskKey)) = .ret r st2 →
        ((∃ v, r = .ok v)
            ∧ ChainResolves p (fun k c s => RunTaskForKey p fuel k [] NewProvidedInputs c s)
                providedInputs caller taskKey args (st.log (.started taskKey)) st2
          ∨ ∃ a err, r = .error err
            ∧ ChainFailsAt p (fun k c s => RunTaskForKey p fuel k [] NewProvidedInputs c s)
                providedInputs caller taskKey args (st.log (.started taskKey)) a err st2)
        ∧ ((∃ a ∈ ancestors taskKey, ∃ e, p.FindTask a = .error e) →
            ∃ err, r = .error err
              ∧ RunTaskForKey p (fuel + 1) taskKey args providedInputs caller st
                = .ret ("", some (.annotate
                    ("app failed running task " ++ taskKey.ShortString) err)) st2))
    ∧ (∀ a e, p.FindTask a = .error e →
        ∀ (run : Fallback) (args1 : List String) (s : State),
          DirectInputValuesForTaskKey p run a args1 providedInputs caller s
            = .ret (.error e) s) := by
  have hsplit : ∀ r st2, InheritedInputValuesForTaskKey p
        (fun k c s => RunTaskForKey p fuel k [] NewProvidedInputs c s)
        taskKey args providedInputs caller (st.log (.started taskKey)) = .ret r st2 →
      ((∃ v, r = .ok v)
          ∧ ChainResolves p (fun k c s => RunTaskForKey p fuel k [] NewProvidedInputs c s)
              providedInputs caller taskKey args (st.log (.started taskKey)) st2
        ∨ ∃ a err, r = .error err
          ∧ ChainFailsAt p (fun k c s => RunTaskForKey p fuel k [] NewProvidedInputs c s)
              providedInputs caller taskKey args (st.log (.started taskKey)) a err st2) := by
    intro r st2 hi
    cases r with
    | ok v =>
        exact Or.inl ⟨⟨v, rfl⟩,
          (inheritedInputValues_ok_iff p _ providedInputs caller taskKey args _ st2).1 ⟨v, hi⟩⟩
    | error err =>
        obtain ⟨a, ha⟩ :=
          (inheritedInputValues_error_iff p _ providedInputs caller taskKey args _ st2 err).1 hi
        exact Or.inr ⟨a, err, rfl, ha⟩
  have hfail : ∀ taskDef err st2, p.FindTask taskKey = .ok taskDef →
      InheritedInputValuesForTaskKey p
        (fun k c s => RunTaskForKey p fuel k [] NewProvidedInputs c s)
        taskKey args providedInputs caller (st.log (.started taskKey)) = .ret (.error err) st2 →
      RunTaskForKey p (fuel + 1) taskKey args providedInputs caller st
        = .ret ("", some (.annotate ("app failed running task " ++ taskKey.ShortString) err))
            st2 := by
    intro taskDef err st2 hf hi
    rw [RunTaskForKey]
    simp only [hown, hf, hi]
  refine ⟨?_, ?_, ?_, ?_⟩
  · intro out st1 h
    rw [RunTaskForKey] at h
    simp only [hown] at h
    cases hf : p.FindTask taskKey with
    | error e =>
        rw [hf] at h
        cases h
    | ok taskDef =>
        rw [hf] at h
        simp only at h
        cases hi : InheritedInputValuesForTaskKey p
            (fun k c s => RunTaskForKey p fuel k [] NewProvidedInputs c s)
            taskKey args providedInputs caller (st.log (.started taskKey)) with
        | panic => rw [hi] at h; cases h
        | diverge => rw [hi] at h; cases h
        | ret r s2 =>
            cases r with
            | error e => rw [hi] at h; cases h
            | ok v =>
                have hch :=
                  (inheritedInputValues_ok_iff p _ providedInputs caller taskKey args _ s2).1
                    ⟨v, hi⟩
                exact ⟨chainResolves_find p _ providedInputs caller taskKey args _ s2 hch,
                  s2, hch⟩
  · intro taskDef a err st2 hf hch
    exact ⟨chainFailsAt_mem p _ providedInputs caller taskKey args _ st2 a err hch,
      hfail taskDef err st2 hf
        ((inheritedInputValues_error_iff p _ providedInputs caller taskKey args _ st2 err).2
          ⟨a, hch⟩)⟩
  · intro taskDef r st2 hf hi
    refine ⟨hsplit r st2 hi, ?_⟩
    rintro ⟨a, ha, e, he⟩
    rcases hsplit r st2 hi with ⟨_, hch⟩ | ⟨b, err, hr, _⟩
    · obtain ⟨t, ht⟩ := chainResolves_find p _ providedInputs caller taskKey args _ st2 hch a
        (List.mem_cons_of_mem _ ha)
      rw [he] at ht
      cases ht
    · subst hr
      exact ⟨err, rfl, hfail taskDef err st2 hf hi⟩
  · intro a e he run args1 s
    unfold DirectInputValuesForTaskKey
    rw [he]

/-- C20, witness: with nothing configured, `RunTaskForKey` for the task `name` returns an
error and runs no step when no task is registered at the root key, and when the root
task is registered with an input `x` that nothing resolves: the trace holds the start of
`name`, and in the second case the start of the fallback for `x`, and no run. -/
theorem runTaskForKey_ancestors_witness :
    RunTaskForKey rootlessApp 1 (.child "name" (.root "")) [] NewProvidedInputs [] initState
      = .ret ("", some (.annotate ("app failed running task " ++ "name")
          (.annotate ("AggregateInputsForParent(" ++ "name" ++ ") failed")
            (.annotate ("One or more inputs for task " ++ "" ++ " failed") rootNotFound))))
          { CachedTaskOutputs := emptyFields, trace := [.started (.child "name" (.root ""))] }
    ∧ RunTaskForKey needyRootApp 2 (.child "name" (.root "")) [] NewProvidedInputs [] initState
      = .ret ("", some (.annotate ("app failed running task " ++ "name")
          (.annotate ("AggregateInputsForParent(" ++ "name" ++ ") failed")
            (.annotate ("One or more inputs for task " ++ "" ++ " failed")
              (.annotate (missingValueMsg "x") xNotFound)))))
          { CachedTaskOutputs := emptyFields,
            trace := [.started (.child "name" (.root "")), .started (.child "x" (.root ""))] } :=
  ⟨((runTaskForKey_ancestors rootlessApp 0 (.child "name" (.root "")) [] NewProvidedInputs []
      initState rfl).2.1 nameTask (.root "") _ _ rfl
      (ChainFailsAt.above "name" (.root "") [] _ _ _ emptyFields (.root "") _ rfl
        (ChainFailsAt.here (.root "") [] _ _ rootNotFound rfl))).2,
   ((runTaskForKey_ancestors needyRootApp 1 (.child "name" (.root "")) [] NewProvidedInputs []
      initState rfl).2.1 nameTask (.root "") _ _ rfl
      (ChainFailsAt.above "name" (.root "") [] _
        { CachedTaskOutputs := emptyFields, trace := [.started (.child "name" (.root ""))] }
        { CachedTaskOutputs := emptyFields,
          trace := [.started (.child "name" (.root "")), .started (.child "x" (.root ""))] }
        emptyFields (.root "") _ rfl
        (ChainFailsAt.here (.root "") [] _ _ (.annotate (missingValueMsg "x") xNotFound)
          rfl))).2⟩

end Variant
